import Mathlib

/-!
# cpuspeed: a shallow embedding of `src/src/cpuspeed.cc`

The global variables of the program are gathered in one `State` record that the
embedded functions pass along.  `unsigned` values are natural numbers kept below
`UINT_MOD` by an explicit `% UINT_MOD` wherever the C arithmetic can wrap, and
`unsigned long` values likewise below `ULONG_MOD`.

Opening and reading or writing of the control files is taken to succeed (a
failure there leaves `die` and no state to speak of); the calls of `die` that
depend on what was read are modelled by the `died` result.
-/

namespace Cpuspeed

/-! ## Constants and machine arithmetic -/

/-- Number of values of the C type `unsigned` (32 bits). -/
def UINT_MOD : Nat := 4294967296

/-- Number of values of the C type `unsigned long` (64 bits). -/
def ULONG_MOD : Nat := 18446744073709551616

/-- The constant `LONG_MAX`. -/
def LONG_MAX : Nat := 9223372036854775807

/-- The constant `MAX_SPEEDS`: maximum number of speed steps. -/
def MAX_SPEEDS : Nat := 15

/-- The constant `MIN_STEP`: minimum speed step supported in KHz. -/
def MIN_STEP : Nat := 25000

/-- The local constant `MAX_STEP = MIN_STEP << 8` of `get_supported_speeds`. -/
def MAX_STEP : Nat := MIN_STEP <<< 8

/-- The constant `MAX_TIED_CORES`. -/
def MAX_TIED_CORES : Nat := 8

/-- Addition of two `unsigned` values. -/
def uadd (a b : Nat) : Nat := (a + b) % UINT_MOD

/-- Subtraction of two `unsigned` values (wraps below zero). -/
def usub (a b : Nat) : Nat := (a + UINT_MOD - b % UINT_MOD) % UINT_MOD

/-- The statement `current += delta` for `unsigned current` and `int delta`:
the `int` is converted to `unsigned` and the sum wraps. -/
def uadd_int (current : Nat) (delta : Int) : Nat :=
  (((current : Int) + delta) % (UINT_MOD : Int)).toNat

/-- Subtraction of two `unsigned long` values (wraps below zero). -/
def ulsub (a b : Nat) : Nat := (a + ULONG_MOD - b % ULONG_MOD) % ULONG_MOD

/-- The comparison function `MIN`. -/
def MIN (a b : Nat) : Nat := if a > b then b else a

/-- The comparison function `MAX`. -/
def MAX (a b : Nat) : Nat := if a > b then a else b

/-- The cast `(int)` of an `unsigned` value. -/
def to_int (a : Nat) : Int :=
  if a % UINT_MOD < 2147483648 then ((a % UINT_MOD : Nat) : Int)
  else ((a % UINT_MOD : Nat) : Int) - (UINT_MOD : Int)

/-- An `int` result brought back into the range of `int` (two's complement). -/
def wrap_int (x : Int) : Int :=
  (x + 2147483648) % (UINT_MOD : Int) - 2147483648

/-- The comparison function `icomp` handed to `qsort`:
`*((int *)a) - *((int *)b)`. -/
def icomp (a b : Nat) : Int := wrap_int (to_int a - to_int b)

/-! ## Results of code that can call `die` or loop -/

/-- Outcome of a run: it returned, it called `die`, or the iteration bound given
to the model was used up before the loop ended. -/
inductive Res (α : Type) where
  | ok (a : α)
  | died
  | fuel
  deriving Repr

/-- Sequencing of two runs. -/
def Res.bind {α β : Type} (r : Res α) (f : α → Res β) : Res β :=
  match r with
  | .ok a => f a
  | .died => .died
  | .fuel => .fuel

/-- The value a run returned, if it returned. -/
def Res.returned {α : Type} (r : Res α) : Option α :=
  match r with
  | .ok a => some a
  | .died => none
  | .fuel => none

/-! ## Program state -/

/-- The `enum Mode`. -/
inductive Mode where
  | SPEED_DYNAMIC
  | SPEED_MIN
  | SPEED_MAX
  deriving DecidableEq, Repr

/-- The global variables of the program, the function-local `static` variables,
and a record of what the process has done to the files it drives. -/
structure State where
  /-- The array `speeds[MAX_SPEEDS + 1]`, by index: `speeds i` is `speeds[i].khz`. -/
  speeds : Nat → Nat
  current_speed : Nat
  last_step : Nat
  mode : Mode
  /-- The `static bool on_ac` of `alarm_handler`. -/
  on_ac : Bool
  check_cpu : Bool
  check_therm : Bool
  check_ac : Bool
  /-- The `static` array `last_total_time` of `get_times`. -/
  last_total_time : Nat → Nat
  /-- The `static` array `last_idle_time` of `get_times`. -/
  last_idle_time : Nat → Nat
  saved_speed : Nat
  saved_governor : String
  /-- Every value written to `CURRENT_SPEED_FILE`, oldest first. -/
  written : List Nat
  /-- How many times `CURRENT_SPEED_FILE` has been read. -/
  nreads : Nat
  /-- Every line written to `GOVERNOR_FILE`, oldest first. -/
  governor_written : List String
  /-- Every index of `speeds` that has been assigned to, oldest first. -/
  stored : List Nat

/-- The state of a freshly started process: zeroed statics, `on_ac = true`. -/
def State.init : State where
  speeds := fun _ => 0
  current_speed := 0
  last_step := 0
  mode := Mode.SPEED_DYNAMIC
  on_ac := true
  check_cpu := false
  check_therm := false
  check_ac := false
  last_total_time := fun _ => 0
  last_idle_time := fun _ => 0
  saved_speed := 0
  saved_governor := ""
  written := []
  nreads := 0
  governor_written := []
  stored := []

/-- The settings that `main` fills in from the command line and that stay fixed
afterwards. -/
structure Config where
  clock_up_idle_fast : Nat
  idle_threshold : Nat
  /-- The pointer `temperature_filename`: `none` is the null pointer. -/
  temperature_filename : Option String
  max_temperature : Nat
  /-- The pointer `ac_filename`: `none` is the null pointer. -/
  ac_filename : Option String
  max_speed_on_ac : Bool
  min_speed_on_battery : Bool
  nice_counts_as_idle : Bool
  io_counts_as_idle : Bool
  /-- The array `tied_cpu_cores`, by index. -/
  tied_cpu_cores : Nat → Nat
  num_tied_cores : Nat
  min_speed : Nat
  max_speed : Nat

/-- The settings of a run without options, managing core 0 alone. -/
def Config.default : Config where
  clock_up_idle_fast := 10
  idle_threshold := 25
  temperature_filename := none
  max_temperature := 0
  ac_filename := none
  max_speed_on_ac := false
  min_speed_on_battery := true
  nice_counts_as_idle := true
  io_counts_as_idle := true
  tied_cpu_cores := fun _ => 0
  num_tied_cores := 1
  min_speed := 0
  max_speed := 4294967295

/-- The counters that `get_times` scans from one line of `STAT_FILE`. -/
structure StatRow where
  user_time : Nat
  nice_time : Nat
  system_time : Nat
  idle_time : Nat
  wait_time : Nat

/-- What the files hold and what the stack holds at one evaluation. -/
structure Env where
  /-- The line that `read_line` returns for the file `ac_filename`. -/
  ac_line : String
  /-- The line that `read_line` returns for the file `temperature_filename`. -/
  temperature_line : String
  /-- By core number `n`: the counters of the first line of `STAT_FILE` that starts
  with `cpu<n> `, or `none` when there is no such line.  Every line of the file
  ends in a newline, as the lines of `/proc/stat` do. -/
  proc_stat : Nat → Option StatRow
  /-- By loop index: the indeterminate contents of the locals `elapsed_time` and
  `idle_time` of `alarm_handler`, which are declared without an initial value. -/
  uninit : Nat → Nat × Nat

/-- The hardware behind `CURRENT_SPEED_FILE`: the value a read returns, given
every value written so far (oldest first) and the number of earlier reads. -/
abbrev Hardware := List Nat → Nat → Nat

/-- The three frequency files of the managed core. -/
structure Cpufreq where
  /-- The number held by `MIN_SPEED_FILE`. -/
  scaling_min_freq : Nat
  /-- The number held by `MAX_SPEED_FILE`. -/
  scaling_max_freq : Nat
  /-- The behaviour of `CURRENT_SPEED_FILE`. -/
  scaling_setspeed : Hardware

/-- Hardware that reads back a fixed function of the value last written to it
(and of 0 before any write). -/
def snap_hardware (snap : Nat → Nat) : Hardware :=
  fun written _ => snap (written.getLastD 0)

/-! ## Setting the speed -/

/-- The function `set_speed(unsigned value)`: one write to `CURRENT_SPEED_FILE`
(followed in the program by the settle delay). -/
def set_speed (value : Nat) (s : State) : State :=
  { s with written := s.written ++ [value] }

/-- The `do ... while (current != target)` loop of
`set_speed(unsigned current, unsigned target)`. -/
def set_speed_loop (delta : Int) (target : Nat) : Nat → Nat → State → Res State
  | 0, _, _ => Res.fuel
  | n + 1, current, s =>
    let current := uadd_int current delta
    let s := set_speed (s.speeds current) s
    if current ≠ target then set_speed_loop delta target n current s else Res.ok s

/-- The function `set_speed(unsigned current, unsigned target)`.  The loop is
given `UINT_MOD` iterations, which is every value `current` can take. -/
def set_speed_to (current target : Nat) (s : State) : Res State :=
  if current = target then Res.ok s
  else
    let delta : Int := if current > target then -1 else 1
    set_speed_loop delta target UINT_MOD current s

/-! ## Load accounting -/

/-- The search of `get_times` for the row of the core at `tied_core_index`.  The
key `"cpu%u "` is formatted by `snprintf` into the 8 bytes of
`search[tied_core_index]`, which hold it whole for the core numbers up to 999, and
`strncmp` then finds the first line that starts with it.  For a larger core number
the key is cut to 7 characters while `searchlen` is the length of the whole key,
so that `strncmp` compares the eighth character of the line with the end of the
cut key: no line that ends in a newline matches, and `found` stays false. -/
def found_row (cfg : Config) (env : Env) (tied_core_index : Nat) : Option StatRow :=
  if cfg.tied_cpu_cores tied_core_index < 1000 then
    env.proc_stat (cfg.tied_cpu_cores tied_core_index)
  else none

/-- The function `get_times`.  The two reference parameters are passed in with
their present contents and come back in the result; a row that is not found
returns early and touches nothing. -/
def get_times (cfg : Config) (env : Env) (tied_core_index : Nat)
    (total_elapsed idle_elapsed : Nat) (s : State) : State × Nat × Nat :=
  match found_row cfg env tied_core_index with
  | none => (s, total_elapsed, idle_elapsed)
  | some row =>
    let idle_time := row.idle_time
    let idle_time :=
      if cfg.nice_counts_as_idle then (idle_time + row.nice_time) % ULONG_MOD else idle_time
    let idle_time :=
      if cfg.io_counts_as_idle then (idle_time + row.wait_time) % ULONG_MOD else idle_time
    let total_time := (row.user_time + row.system_time + idle_time) % ULONG_MOD
    let total_elapsed := ulsub total_time (s.last_total_time tied_core_index)
    let idle_elapsed := ulsub idle_time (s.last_idle_time tied_core_index)
    ({ s with
        last_total_time := Function.update s.last_total_time tied_core_index total_time
        last_idle_time := Function.update s.last_idle_time tied_core_index idle_time },
      total_elapsed, idle_elapsed)

/-- The loop of `reset_times`, for the indices `u, u + 1, ..., u + n - 1`.  The
dummies are locals without an initial value; their contents are never used. -/
def reset_times_loop (cfg : Config) (env : Env) : Nat → Nat → State → State
  | 0, _, s => s
  | n + 1, u, s =>
    reset_times_loop cfg env n (u + 1) (get_times cfg env u (env.uninit u).1 (env.uninit u).2 s).1

/-- The function `reset_times`. -/
def reset_times (cfg : Config) (env : Env) (s : State) : State :=
  reset_times_loop cfg env cfg.num_tied_cores 0 s

/-! ## The periodic evaluation -/

/-- The test `strstr(line, needle) != NULL`. -/
def strstr : List Char → List Char → Bool
  | [], needle => needle.isEmpty
  | c :: cs, needle => needle.isPrefixOf (c :: cs) || strstr cs needle

/-- The call `strpbrk(line, "0123456789")`: the rest of the line from its first
digit on, or `none` for the null pointer. -/
def strpbrk_digits : List Char → Option (List Char)
  | [] => none
  | c :: cs => if c.isDigit then some (c :: cs) else strpbrk_digits cs

/-- The call `strtol(p, 0, 10)` on a text that begins with a digit: the value of
the leading run of digits, held at `LONG_MAX`. -/
def strtol_digits (p : List Char) : Nat :=
  MIN ((p.takeWhile Char.isDigit).foldl (fun acc c => acc * 10 + (c.toNat - 48)) 0) LONG_MAX

/-- The expression `idle_time * 100 / elapsed_time` of `unsigned long` operands,
assigned to the `unsigned idle_percent`. -/
def idle_percent_of (elapsed_time idle_time : Nat) : Nat :=
  (idle_time * 100 % ULONG_MOD / elapsed_time) % UINT_MOD

/-- The value that one pass of the loop body of `alarm_handler` leaves in
`wanted_speed[i]`, given what `get_times` left in `elapsed_time` and `idle_time`. -/
def wanted_speed_of (cfg : Config) (s : State) (elapsed_time idle_time : Nat) : Nat :=
  if elapsed_time > 0 then
    let idle_percent := idle_percent_of elapsed_time idle_time
    if idle_percent ≤ cfg.clock_up_idle_fast then 0
    else if idle_percent < cfg.idle_threshold ∧ s.current_speed > 0 then
      usub s.current_speed 1
    else if idle_percent > cfg.idle_threshold ∧ s.speeds (uadd s.current_speed 1) ≠ 0 then
      uadd s.current_speed 1
    else s.current_speed
  else s.current_speed

/-- The `for` loop of the `SPEED_DYNAMIC` case, for the indices
`i, i + 1, ..., i + n - 1`: the state that the calls of `get_times` leave and the
entries of `wanted_speed` in index order. -/
def wanted_loop (cfg : Config) (env : Env) : Nat → Nat → State → State × List Nat
  | 0, _, s => (s, [])
  | n + 1, i, s =>
    let r := get_times cfg env i (env.uninit i).1 (env.uninit i).2 s
    let w := wanted_speed_of cfg r.1 r.2.1 r.2.2
    let rest := wanted_loop cfg env n (i + 1) r.1
    (rest.1, w :: rest.2)

/-- The library function `qsort` on an array of `unsigned`, modelled as an
insertion sort driven by the comparison function `compar`. -/
def qsort (compar : Nat → Nat → Int) (base : List Nat) : List Nat :=
  base.insertionSort (fun a b => compar a b ≤ 0)

/-- The inner block `if (ac_filename && check_ac) { ... }` of `alarm_handler`,
which brings `on_ac` up to date from the power-source file. -/
def read_ac (cfg : Config) (env : Env) (s : State) : State :=
  if cfg.ac_filename.isSome ∧ s.check_ac = true then
    (if strstr env.ac_line.toList "off-line".toList then { s with on_ac := false }
     else { s with on_ac := true })
  else s

/-- The block `if (mode == SPEED_DYNAMIC) { ... }` of `alarm_handler`: the value
of the local `state` after it, and the state with `on_ac` brought up to date.
It dies when the temperature file holds no digit. -/
def policy_state (cfg : Config) (env : Env) (s : State) : Res (Mode × State) :=
  let state := s.mode
  if s.mode = Mode.SPEED_DYNAMIC then
    let s := read_ac cfg env s
    let state :=
      if cfg.max_speed_on_ac = true ∧ s.on_ac = true then Mode.SPEED_MAX
      else if s.on_ac = false ∧ cfg.min_speed_on_battery = true then Mode.SPEED_MIN
      else state
    if cfg.temperature_filename.isSome ∧ s.check_therm = true ∧ state ≠ Mode.SPEED_MIN then
      match strpbrk_digits env.temperature_line.toList with
      | none => Res.died
      | some p =>
        if strtol_digits p > cfg.max_temperature then Res.ok (Mode.SPEED_MIN, s)
        else Res.ok (state, s)
    else Res.ok (state, s)
  else Res.ok (state, s)

/-- The `switch (state)` of `alarm_handler`. -/
def switch_state (cfg : Config) (env : Env) (state : Mode) (s : State) : State :=
  match state with
  | Mode.SPEED_DYNAMIC =>
    if s.check_cpu = false then s
    else
      let r := wanted_loop cfg env cfg.num_tied_cores 0 s
      let wanted_speed := qsort icomp r.2
      { r.1 with current_speed := wanted_speed.headD 0 }
  | Mode.SPEED_MIN => { s with current_speed := s.last_step }
  | Mode.SPEED_MAX => { s with current_speed := 0 }

/-- The function `alarm_handler`. -/
def alarm_handler (cfg : Config) (env : Env) (s : State) : Res State :=
  let old_speed := s.current_speed
  (policy_state cfg env s).bind fun p =>
    let s := switch_state cfg env p.1 p.2
    (if s.current_speed ≠ old_speed then set_speed_to old_speed s.current_speed s
     else Res.ok s).bind fun s =>
      Res.ok { s with check_cpu := false, check_therm := false, check_ac := false }

/-! ## The other signal handlers

Every handler blocks the signals of the others, so the `SIGALRM` that a handler
raises is delivered, and `alarm_handler` runs, when that handler returns. -/

/-- The function `usr1_handler`, followed by the evaluation it raises. -/
def usr1_handler (cfg : Config) (env : Env) (s : State) : Res State :=
  alarm_handler cfg env { s with mode := Mode.SPEED_MAX }

/-- The function `usr2_handler`, followed by the evaluation it raises. -/
def usr2_handler (cfg : Config) (env : Env) (s : State) : Res State :=
  alarm_handler cfg env { s with mode := Mode.SPEED_MIN }

/-- The function `hup_handler`, followed by the evaluation it raises; `env0` is
what the files hold when `reset_times` reads them. -/
def hup_handler (cfg : Config) (env0 env : Env) (s : State) : Res State :=
  let s := reset_times cfg env0 s
  alarm_handler cfg env { s with mode := Mode.SPEED_DYNAMIC, check_cpu := true }

/-- The function `term_handler`, up to the `raise(which)` that ends the process. -/
def term_handler (s : State) : State :=
  if s.saved_speed ≠ 0 then
    let s := set_speed s.saved_speed s
    { s with governor_written := s.governor_written ++ [s.saved_governor] }
  else s

/-! ## Discovery of the speed steps -/

/-- The function `get_speed`: the number read from `CURRENT_SPEED_FILE`, as
`unsigned`. -/
def get_speed (hw : Hardware) (s : State) : Nat × State :=
  (hw s.written s.nreads % UINT_MOD, { s with nreads := s.nreads + 1 })

/-- The loop `for (current = get_speed(); current < max; current += step)` of
`get_supported_speeds`, from the test of `current` on. -/
def ramp_to_max (max step : Nat) : Nat → Nat → State → Res State
  | 0, _, _ => Res.fuel
  | n + 1, current, s =>
    if current < max then
      ramp_to_max max step n (uadd current step) (set_speed (MIN current max) s)
    else Res.ok s

/-- The loop `for (current = max-step; current > min-step; current -= step)` of
`get_supported_speeds`, from the test of `current` on.  It ends by the test or
by the `break` at `MAX_SPEEDS` steps. -/
def probe_down (hw : Hardware) (min step : Nat) : Nat → Nat → State → Res State
  | 0, _, _ => Res.fuel
  | n + 1, current, s =>
    if current > usub min step then
      let current := MAX current min
      let s := set_speed current s
      let r := get_speed hw s
      let real := r.1
      let s := r.2
      if real ≠ s.speeds s.current_speed then
        let s := { s with current_speed := uadd s.current_speed 1 }
        let s := { s with
                    speeds := Function.update s.speeds s.current_speed real
                    stored := s.stored ++ [s.current_speed] }
        if uadd s.current_speed 1 = MAX_SPEEDS then Res.ok s
        else probe_down hw min step n (usub current step) s
      else probe_down hw min step n (usub current step) s
    else Res.ok s

/-- The statements of `get_supported_speeds` that follow the loop over `step`. -/
def finish_speeds (step : Nat) (s : State) : Res State :=
  if step > MAX_STEP then Res.died
  else
    let s := { s with
                speeds := Function.update s.speeds (uadd s.current_speed 1) 0
                stored := s.stored ++ [uadd s.current_speed 1] }
    Res.ok { s with last_step := s.current_speed }

/-- The loop `for (step = MIN_STEP; step <= MAX_STEP; step *= 2)` of
`get_supported_speeds`, from the test of `step` on, together with the statements
that follow it.  Each inner loop is given `UINT_MOD` iterations, which is every
value its `unsigned` counter can take. -/
def step_loop (hw : Hardware) (max : Nat) : Nat → Nat → Nat → State → Res State
  | 0, _, _, _ => Res.fuel
  | n + 1, step, min, s =>
    if step ≤ MAX_STEP then
      let min := MAX min step
      if max ≤ min then Res.died
      else
        let r := get_speed hw s
        (ramp_to_max max step UINT_MOD r.1 r.2).bind fun s =>
          let s := set_speed max s
          let r := get_speed hw s
          let s := { r.2 with
                      speeds := Function.update r.2.speeds 0 r.1
                      stored := r.2.stored ++ [0] }
          let s := { s with current_speed := 0 }
          (probe_down hw min step UINT_MOD (usub max step) s).bind fun s =>
            if uadd s.current_speed 1 ≠ MAX_SPEEDS then finish_speeds step s
            else step_loop hw max n (step * 2 % UINT_MOD) min s
    else finish_speeds step s

/-- The function `get_supported_speeds`.  The loop over `step` is given `UINT_MOD`
iterations. -/
def get_supported_speeds (cpu : Cpufreq) (cfg : Config) (s : State) : Res State :=
  let min := cpu.scaling_min_freq % UINT_MOD
  let max := cpu.scaling_max_freq % UINT_MOD
  let min := MAX min cfg.min_speed
  let max := MIN max cfg.max_speed
  step_loop cpu.scaling_setspeed max UINT_MOD MIN_STEP min s

/-! ## Names for parts of the discovery loops, for stating what they do -/

/-- One probe of the downward walk: `set_speed(MAX(current, min))` followed by
`get_speed()`; the value read and the state after the read. -/
def probe_read (hw : Hardware) (min current : Nat) (s : State) : Nat × State :=
  get_speed hw (set_speed (MAX current min) s)

/-- The statement `speeds[++current_speed].khz = real`. -/
def probe_store (real : Nat) (s : State) : State :=
  { s with
      current_speed := uadd s.current_speed 1
      speeds := Function.update s.speeds (uadd s.current_speed 1) real
      stored := s.stored ++ [uadd s.current_speed 1] }

/-- The statements between the two inner loops: `set_speed(max)`,
`speeds[0].khz = get_speed()` and `current_speed = 0`. -/
def pass_start (hw : Hardware) (max : Nat) (s : State) : State :=
  { (get_speed hw (set_speed max s)).2 with
      speeds := Function.update s.speeds 0 (get_speed hw (set_speed max s)).1
      stored := s.stored ++ [0]
      current_speed := 0 }

/-- The state that `get_supported_speeds` returns after an accepted pass. -/
def pass_finish (s : State) : State :=
  { s with
      speeds := Function.update s.speeds (uadd s.current_speed 1) 0
      stored := s.stored ++ [uadd s.current_speed 1]
      last_step := s.current_speed }

/-- What holds of the table while a pass of discovery records it: the steps
recorded so far fit, they were stored at the indices `0, 1, ..., current_speed`
in this order after the stores `pre` of earlier passes, and neighbouring steps
differ. -/
def Recording (pre : List Nat) (s : State) : Prop :=
  s.current_speed + 1 ≤ MAX_SPEEDS ∧
  s.stored = pre ++ List.range (s.current_speed + 1) ∧
  ∀ i, i < s.current_speed → s.speeds i ≠ s.speeds (i + 1)

/-- What holds of the table that `get_supported_speeds` returns, `before` being
the stores made before the call. -/
def Discovered (before : List Nat) (s : State) : Prop :=
  s.last_step + 1 < MAX_SPEEDS ∧
  s.last_step = s.current_speed ∧
  s.speeds (s.last_step + 1) = 0 ∧
  (∀ i, i < s.last_step → s.speeds i ≠ s.speeds (i + 1)) ∧
  ∃ pre, s.stored = before ++ pre ++ List.range (s.last_step + 2) ∧
    ∀ i ∈ pre ++ List.range (s.last_step + 2), i < MAX_SPEEDS + 1

/-- What holds at the head of the downward walk on hardware that reads back
`snap` of the last request: the last recorded step is what the last request read
back, the next request is not above the last one, and the recorded steps descend. -/
def Walking (snap : Nat → Nat) (min step c : Nat) (s : State) : Prop :=
  s.current_speed + 1 < MAX_SPEEDS ∧
  s.speeds s.current_speed = snap (s.written.getLastD 0) % UINT_MOD ∧
  c ≤ s.written.getLastD 0 ∧
  min ≤ s.written.getLastD 0 ∧
  step ≤ min ∧
  s.written.getLastD 0 < UINT_MOD ∧
  ∀ i, i < s.current_speed → s.speeds (i + 1) < s.speeds i

/-! ## Per-core readings, for stating what an evaluation does -/

/-- What the call `get_times(i, elapsed_time, idle_time)` of the loop body leaves
in `elapsed_time` and `idle_time` when made from state `s`. -/
def core_sample (cfg : Config) (env : Env) (s : State) (i : Nat) : Nat × Nat :=
  (get_times cfg env i (env.uninit i).1 (env.uninit i).2 s).2

/-- The entry `wanted_speed[i]` of every core of the domain, in index order, for
an evaluation that starts in state `s`. -/
def wanted_speeds (cfg : Config) (env : Env) (s : State) : List Nat :=
  (List.range cfg.num_tied_cores).map fun i =>
    wanted_speed_of cfg s (core_sample cfg env s i).1 (core_sample cfg env s i).2

/-- The desired index of one core as the specification words it, for an idle
percentage above the fast-up threshold: one step faster below the general
threshold unless already fastest, one step slower above it unless already at
`last_step`, unchanged otherwise. -/
def spec_desired_index (idle_threshold current last_step idle_percent : Nat) : Nat :=
  if idle_percent < idle_threshold ∧ 0 < current then current - 1
  else if idle_percent > idle_threshold ∧ current < last_step then current + 1
  else current

/-! ## Concrete inputs -/

/-- The state a run returned, or the initial state if it did not return. -/
def table_of (r : Res State) : State :=
  match r with
  | .ok s => s
  | .died => State.init
  | .fuel => State.init

/-- A state with a table of six steps, 3.0 GHz down to 1.0 GHz, at index 2. -/
def six_steps : State :=
  { State.init with
      speeds := fun i => if i < 6 then 3000000 - 400000 * i else 0
      last_step := 5
      current_speed := 2 }

/-- The six-step state on a tick where the load check and the thermal check are
both due. -/
def six_steps_due : State :=
  { six_steps with check_therm := true, check_cpu := true }

/-- Files of a machine on mains power at 45 degrees whose cores are all 90% idle
since boot. -/
def env_idle : Env where
  ac_line := "state:                   on-line"
  temperature_line := "temperature:             45 C"
  proc_stat := fun _ => some ⟨50, 0, 50, 900, 0⟩
  uninit := fun _ => (0, 0)

/-- Files of a machine on battery at 95 degrees whose core 0 is busy and whose
other cores are idle. -/
def env_hot : Env where
  ac_line := "state:                   off-line"
  temperature_line := "temperature:             95 C"
  proc_stat := fun n => if n = 0 then some ⟨900, 0, 80, 20, 0⟩ else some ⟨50, 0, 50, 900, 0⟩
  uninit := fun _ => (0, 0)

/-- Files of a machine on mains power at 95 degrees whose cores are all busy. -/
def env_hot_mains : Env where
  ac_line := "state:                   on-line"
  temperature_line := "temperature:             95 C"
  proc_stat := fun _ => some ⟨900, 0, 80, 20, 0⟩
  uninit := fun _ => (0, 0)

/-- The files of `env_hot_mains` one second of full load later. -/
def env_hot_mains_later : Env where
  ac_line := "state:                   on-line"
  temperature_line := "temperature:             95 C"
  proc_stat := fun _ => some ⟨1800, 0, 160, 40, 0⟩
  uninit := fun _ => (0, 0)

/-- Settings for a domain of the two cores 0 and 1. -/
def cfg_two_cores : Config :=
  { Config.default with
      tied_cpu_cores := fun i => i
      num_tied_cores := 2 }

/-- Settings with a power-source file, as after the option `-a`. -/
def cfg_ac : Config :=
  { Config.default with ac_filename := some "/proc/acpi/ac_adapter/AC/state" }

/-- Settings with a thermal source and a limit of 70, as after the option `-t`. -/
def cfg_thermal : Config :=
  { Config.default with
      temperature_filename := some "/proc/acpi/thermal_zone/THM/temperature"
      max_temperature := 70 }

/-- Settings with a thermal limit of 70 and maximum speed on mains power, as
after the options `-t` and `-C`. -/
def cfg_thermal_max_on_ac : Config :=
  { cfg_thermal with max_speed_on_ac := true }

/-- A frequency file that reads back exactly what was last written, like the
plain file of the `DEBUG` build, with limits 1.0 GHz and 1.125 GHz. -/
def cpu_plain : Cpufreq where
  scaling_min_freq := 1000000
  scaling_max_freq := 1125000
  scaling_setspeed := snap_hardware fun v => v

/-- Hardware with limits 1.0 GHz and 1.05 GHz that reads back 1.0 GHz for a
request of 1.025 GHz and 1.025 GHz for a request of 1.0 GHz. -/
def cpu_swapped : Cpufreq where
  scaling_min_freq := 1000000
  scaling_max_freq := 1050000
  scaling_setspeed := snap_hardware fun v =>
    if v = 1025000 then 1000000 else if v = 1000000 then 1025000 else v

/-- Hardware with limits 1.0 GHz and 1.05 GHz that reads back 0 for a request of
1.025 GHz. -/
def cpu_zero : Cpufreq where
  scaling_min_freq := 1000000
  scaling_max_freq := 1050000
  scaling_setspeed := snap_hardware fun v => if v = 1025000 then 0 else v

/-- A plain frequency file with limits 1.0 GHz and 2.0 GHz: 41 steps at the
finest granularity, 21 at the next, 11 at the third. -/
def cpu_wide : Cpufreq where
  scaling_min_freq := 1000000
  scaling_max_freq := 2000000
  scaling_setspeed := snap_hardware fun v => v

/-- The table discovered on `cpu_wide`. -/
def wide_table : State :=
  table_of (get_supported_speeds cpu_wide Config.default State.init)

/-- The table discovered on `cpu_plain`. -/
def plain_table : State :=
  table_of (get_supported_speeds cpu_plain Config.default State.init)

/-- The table discovered on `cpu_swapped`. -/
def swapped_table : State :=
  table_of (get_supported_speeds cpu_swapped Config.default State.init)

/-- The table discovered on `cpu_zero`. -/
def zero_table : State :=
  table_of (get_supported_speeds cpu_zero Config.default State.init)

/-! ## The downward walk as the specification words it -/

/-- The requests of the downward walk for bounds `max > min` and granularity `g`
as the specification words them: `max - g`, `max - 2g`, and so on, the last one
held at `min`. -/
def walk_requests (max min g : Nat) : List Nat :=
  (List.range ((max - min + g - 1) / g)).map fun k => MAX (max - (k + 1) * g) min

/-- The values that `get_speed` returns after each of the given requests is
written in turn, the first argument being the writes made before and the second
the number of reads made before. -/
def readbacks (hw : Hardware) : List Nat → Nat → List Nat → List Nat
  | _, _, [] => []
  | written, nreads, r :: rs =>
    (hw (written ++ [r]) nreads % UINT_MOD) :: readbacks hw (written ++ [r]) (nreads + 1) rs

/-- The recorded steps `speeds[0].khz, ..., speeds[current_speed].khz`. -/
def recorded_steps (s : State) : List Nat :=
  (List.range (s.current_speed + 1)).map s.speeds

/-- The local `max` of `get_supported_speeds` after it is held at `max_speed`. -/
def clamped_max (cpu : Cpufreq) (cfg : Config) : Nat :=
  MIN (cpu.scaling_max_freq % UINT_MOD) cfg.max_speed

/-- Hardware with limits 1.0 GHz and 1.3 GHz that reads back the request rounded
down to a multiple of 100 MHz. -/
def cpu_rounding : Cpufreq where
  scaling_min_freq := 1000000
  scaling_max_freq := 1300000
  scaling_setspeed := snap_hardware fun v => v / 100000 * 100000

/-- The table discovered on `cpu_rounding`. -/
def rounding_table : State :=
  table_of (get_supported_speeds cpu_rounding Config.default State.init)

/-! ## Names for parts of `get_times`, for stating what it does -/

/-- The value of `idle_time` in `get_times` once the nice and I/O-wait times have
been added as the two flags say. -/
def idle_time_of (cfg : Config) (row : StatRow) : Nat :=
  let idle_time := row.idle_time
  let idle_time :=
    if cfg.nice_counts_as_idle then (idle_time + row.nice_time) % ULONG_MOD else idle_time
  if cfg.io_counts_as_idle then (idle_time + row.wait_time) % ULONG_MOD else idle_time

/-- The value of `total_time` in `get_times`. -/
def total_time_of (cfg : Config) (row : StatRow) : Nat :=
  (row.user_time + row.system_time + idle_time_of cfg row) % ULONG_MOD

/-- Files whose counter source shows the given row for every core. -/
def env_with_row (row : StatRow) : Env where
  ac_line := "state:                   on-line"
  temperature_line := "temperature:             45 C"
  proc_stat := fun _ => some row
  uninit := fun _ => (0, 0)

/-- Settings after the option `-n`: nice time is not to count as idle. -/
def cfg_nice_busy : Config :=
  { Config.default with nice_counts_as_idle := false }

/-- Files in which the row of core 0 is missing and core 1 is 90% idle, at an
evaluation where the locals of the first pass of the loop hold 1000 and 20. -/
def env_core0_absent : Env where
  ac_line := "state:                   on-line"
  temperature_line := "temperature:             45 C"
  proc_stat := fun n => if n = 0 then none else some ⟨50, 0, 50, 900, 0⟩
  uninit := fun i => if i = 0 then (1000, 20) else (0, 0)

/-- What the second of two successive calls of `get_times` for index `i` leaves
in its reference parameters, the files holding `env1` at the first call and
`env2` at the second. -/
def successive_sample (cfg : Config) (env1 env2 : Env) (i : Nat) (s : State) : Nat × Nat :=
  core_sample cfg env2 (get_times cfg env1 i (env1.uninit i).1 (env1.uninit i).2 s).1 i

/-- Files at a first reading: every core has been idle for 900 of 1000 ticks. -/
def env_reading_1 : Env := env_with_row ⟨50, 0, 50, 900, 0⟩

/-- Files at a second reading, another 1000 ticks later, 900 of them idle. -/
def env_reading_2 : Env := env_with_row ⟨100, 0, 100, 1800, 0⟩

/-- Files at a reading 1000 ticks after `env_reading_1`, all of them spent on
nice-priority work. -/
def env_reading_nice : Env := env_with_row ⟨50, 1000, 50, 900, 0⟩

/-- Files at a reading 1000 ticks after `env_reading_1`, 900 of them spent on
nice-priority work and 100 idle. -/
def env_reading_mostly_nice : Env := env_with_row ⟨50, 900, 50, 1000, 0⟩

/-! ## Reading integers -/

/-- The test `isspace(c)` in the C locale. -/
def isspace (c : Char) : Bool :=
  c.toNat = 32 || (9 ≤ c.toNat && c.toNat ≤ 13)

/-- What a call `strtol(nptr, &end, 10)` yields: the value returned, the text
that `end` points to, and whether it set `errno` to `ERANGE`. -/
structure Strtol where
  value : Int
  rest : List Char
  erange : Bool

/-- The library function `strtol` in base 10: white space, an optional sign and
a run of digits; a value out of the range of `long` is held at the nearest limit
with `ERANGE`; without any digit the value is 0 and `end` is `nptr`. -/
def strtol (nptr : List Char) : Strtol :=
  match nptr.dropWhile isspace with
  | [] => ⟨0, nptr, false⟩
  | c :: cs =>
    let body := if c.toNat = 45 ∨ c.toNat = 43 then cs else c :: cs
    let digits := body.takeWhile Char.isDigit
    if digits.isEmpty then ⟨0, nptr, false⟩
    else
      let v := digits.foldl (fun acc d => acc * 10 + (d.toNat - 48)) 0
      let rest := body.dropWhile Char.isDigit
      if c.toNat = 45 then
        (if v > LONG_MAX + 1 then ⟨-((LONG_MAX : Int) + 1), rest, true⟩
         else ⟨-(v : Int), rest, false⟩)
      else if v > LONG_MAX then ⟨(LONG_MAX : Int), rest, true⟩
      else ⟨(v : Int), rest, false⟩

/-- The function `get_int`; `errno_is_erange` tells whether `errno` holds `ERANGE`
when it is called, since the function does not clear it. -/
def get_int (errno_is_erange : Bool) (s : List Char) : Res Int :=
  let r := strtol s
  if r.rest ≠ [] then Res.died
  else if errno_is_erange = true ∨ r.erange = true then Res.died
  else Res.ok r.value

/-- The function `read_value`, given the line that `read_line` returns: the cast
`(unsigned)` of the `long` that `get_int` returns. -/
def read_value (errno_is_erange : Bool) (line : String) : Res Nat :=
  (get_int errno_is_erange line.toList).bind fun r => Res.ok (r % (UINT_MOD : Int)).toNat

/-! ## Resolution of the core groups -/

/-- What `main` finds for each core number when no core list is given. -/
structure CoreFiles where
  /-- Whether `access(cpufreq_dir, F_OK)` succeeds for the core. -/
  has_cpufreq_dir : Nat → Bool
  /-- The integers on the line of the core's `affected_cpus` file, in file order. -/
  affected_cpus : Nat → List Nat

/-- What one pass of the loop over the cores does with its core. -/
inductive CoreAction where
  /-- The core has no CPUFreq directory: `continue`. -/
  | no_cpufreq
  /-- The core is controlled by another one, `cores[0]`. -/
  | not_master (master : Nat)
  /-- Core 0 is a master: the original process takes its cores. -/
  | owned (cores : List Nat)
  /-- Another core is a master: a child process is forked and takes its cores. -/
  | spawned (cores : List Nat)
  deriving DecidableEq, Repr

/-- The body of the loop `for (i = 0, forked = 0; i < num_cores && !forked; i++)`
of `main`, `fork` being taken to succeed.  It dies when the list holds more than
`MAX_TIED_CORES` values (in `parse_values`) or none. -/
def resolve_core (files : CoreFiles) (i : Nat) : Res CoreAction :=
  if files.has_cpufreq_dir i = false then Res.ok CoreAction.no_cpufreq
  else
    let cores := files.affected_cpus i
    if cores.length > MAX_TIED_CORES then Res.died
    else if cores.length = 0 then Res.died
    else if cores.headD 0 = i then
      (if i = 0 then Res.ok (CoreAction.owned cores) else Res.ok (CoreAction.spawned cores))
    else Res.ok (CoreAction.not_master (cores.headD 0))

/-- The loop over the cores as the original process runs it, for the cores
`i, i + 1, ..., i + n - 1`: what it does with each. -/
def resolve_loop (files : CoreFiles) : Nat → Nat → Res (List CoreAction)
  | 0, _ => Res.ok []
  | n + 1, i =>
    (resolve_core files i).bind fun a =>
      (resolve_loop files n (i + 1)).bind fun rest => Res.ok (a :: rest)

/-- Two cores that both report the list `1 0`. -/
def files_descending : CoreFiles where
  has_cpufreq_dir := fun _ => true
  affected_cpus := fun _ => [1, 0]

/-- Four cores in two domains, listed in ascending order: `0 1` and `2 3`. -/
def files_two_domains : CoreFiles where
  has_cpufreq_dir := fun _ => true
  affected_cpus := fun i => if i < 2 then [0, 1] else [2, 3]

/-! ## Saving and restoring the speed -/

/-- The block `if (save_state) { ... }` of `main`: the speed read from
`CURRENT_SPEED_FILE` and the line read from `GOVERNOR_FILE` are kept. -/
def save_state_step (save_state : Bool) (hw : Hardware) (governor_line : String)
    (s : State) : State :=
  if save_state = true then
    { (get_speed hw s).2 with
        saved_speed := (get_speed hw s).1
        saved_governor := governor_line }
  else s

/-- A write to one of the two files that `term_handler` writes. -/
inductive FileWrite where
  | speed (khz : Nat)
  | governor (token : String)
  deriving DecidableEq, Repr

/-- The writes of `term_handler` in the order it makes them. -/
def term_handler_writes (s : State) : List FileWrite :=
  if s.saved_speed ≠ 0 then
    [FileWrite.speed s.saved_speed, FileWrite.governor s.saved_governor]
  else []

/-- A plain frequency file with limits 1.0 GHz and 1.35 GHz: exactly 15 steps of
25 MHz. -/
def cpu_fifteen : Cpufreq where
  scaling_min_freq := 1000000
  scaling_max_freq := 1350000
  scaling_setspeed := snap_hardware fun v => v

/-- The table discovered on `cpu_fifteen`. -/
def fifteen_table : State :=
  table_of (get_supported_speeds cpu_fifteen Config.default State.init)

/-! ## The main loop -/

/-- The polling intervals of `main`, in tenths of a second. -/
structure Intervals where
  interval : Nat
  therm_interval : Nat
  ac_interval : Nat

/-- The counters of the main loop. -/
structure Loop where
  counter : Nat
  cpu_interval_timeout : Nat
  therm_interval_timeout : Nat
  ac_interval_timeout : Nat

/-- The counters as `main` sets them before the loop: all 0. -/
def Loop.start : Loop := ⟨0, 0, 0, 0⟩

/-- What one pass of the main loop does apart from the evaluation it raises: the
counters after it, the checks it marked as due, and the `timespec` it sleeps
for. -/
structure Tick where
  loop : Loop
  check_cpu : Bool
  check_therm : Bool
  check_ac : Bool
  tv_sec : Nat
  tv_nsec : Nat

/-- One pass of the `while (1)` loop of `main`, apart from the evaluation. -/
def main_tick (cfg : Config) (iv : Intervals) (l : Loop) : Tick :=
  let cpu_interval_timeout :=
    if l.counter = l.cpu_interval_timeout then uadd l.cpu_interval_timeout iv.interval
    else l.cpu_interval_timeout
  let next_timeout := cpu_interval_timeout
  let therm_interval_timeout :=
    if cfg.temperature_filename.isSome = true ∧ l.counter = l.therm_interval_timeout then
      uadd l.therm_interval_timeout iv.therm_interval
    else l.therm_interval_timeout
  let next_timeout :=
    if cfg.temperature_filename.isSome = true then MIN next_timeout therm_interval_timeout
    else next_timeout
  let ac_interval_timeout :=
    if cfg.ac_filename.isSome = true ∧ l.counter = l.ac_interval_timeout then
      uadd l.ac_interval_timeout iv.ac_interval
    else l.ac_interval_timeout
  let next_timeout :=
    if cfg.ac_filename.isSome = true then MIN next_timeout ac_interval_timeout
    else next_timeout
  let d := usub next_timeout l.counter
  { loop := ⟨next_timeout, cpu_interval_timeout, therm_interval_timeout, ac_interval_timeout⟩
    check_cpu := decide (l.counter = l.cpu_interval_timeout)
    check_therm := decide (cfg.temperature_filename.isSome = true ∧
      l.counter = l.therm_interval_timeout)
    check_ac := decide (cfg.ac_filename.isSome = true ∧ l.counter = l.ac_interval_timeout)
    tv_sec := d / 10
    tv_nsec := d % 10 * 100000000 }

/-- One pass of the `while (1)` loop of `main` with the evaluation it raises: the
flags marked are set, `alarm_handler` runs if any flag is set, and the counter
becomes `next_timeout` after the sleep. -/
def main_iteration (cfg : Config) (iv : Intervals) (env : Env) (l : Loop) (s : State) :
    Res (Loop × State) :=
  let t := main_tick cfg iv l
  let s := { s with
              check_cpu := s.check_cpu || t.check_cpu
              check_therm := s.check_therm || t.check_therm
              check_ac := s.check_ac || t.check_ac }
  (if s.check_cpu = true ∨ s.check_ac = true ∨ s.check_therm = true then alarm_handler cfg env s
   else Res.ok s).bind fun s => Res.ok ((main_tick cfg iv l).loop, s)

/-- The counters at the start of the pass number `n` of the main loop. -/
def loop_after (cfg : Config) (iv : Intervals) : Nat → Loop
  | 0 => Loop.start
  | n + 1 => (main_tick cfg iv (loop_after cfg iv n)).loop

/-- What holds of one next-due counter `t` with interval `i` at the start of a
pass with tick counter `c`: it is the multiple of `i` in `c, ..., c + i - 1`. -/
def Due (i c t : Nat) : Prop := c ≤ t ∧ t < c + i ∧ i ∣ t

/-- No `+=` of a pass that starts with the counters `l` wraps. -/
def no_overflow (cfg : Config) (iv : Intervals) (l : Loop) : Prop :=
  (l.counter = l.cpu_interval_timeout → l.cpu_interval_timeout + iv.interval < UINT_MOD) ∧
  (cfg.temperature_filename.isSome = true → l.counter = l.therm_interval_timeout →
    l.therm_interval_timeout + iv.therm_interval < UINT_MOD) ∧
  (cfg.ac_filename.isSome = true → l.counter = l.ac_interval_timeout →
    l.ac_interval_timeout + iv.ac_interval < UINT_MOD)

/-- What holds of the counters at the start of every pass: each active next-due
counter is the next multiple of its interval, the inactive ones are 0, and the
tick counter is at one of the active ones. -/
def Scheduled (cfg : Config) (iv : Intervals) (l : Loop) : Prop :=
  l.cpu_interval_timeout < UINT_MOD ∧
  Due iv.interval l.counter l.cpu_interval_timeout ∧
  (if cfg.temperature_filename.isSome = true then
    Due iv.therm_interval l.counter l.therm_interval_timeout
   else l.therm_interval_timeout = 0) ∧
  (if cfg.ac_filename.isSome = true then Due iv.ac_interval l.counter l.ac_interval_timeout
   else l.ac_interval_timeout = 0) ∧
  (l.counter = l.cpu_interval_timeout ∨
    (cfg.temperature_filename.isSome = true ∧ l.counter = l.therm_interval_timeout) ∨
    (cfg.ac_filename.isSome = true ∧ l.counter = l.ac_interval_timeout))

/-- Settings with a thermal source and a power-source file. -/
def cfg_all_checks : Config :=
  { cfg_thermal with ac_filename := some "/proc/acpi/ac_adapter/AC/state" }

/-- The intervals of a run without options: 2 s, 1 s and 5 s. -/
def Intervals.default : Intervals := ⟨20, 10, 50⟩

/-- Intervals of 1.5 s for the load and 1 s for the temperature. -/
def intervals_15_10 : Intervals := ⟨15, 10, 50⟩

/-! ## Names for the passes of discovery and for the baseline after a reset -/

/-- The value of `step` in the pass number `k`, counted from 0, of the loop
`for (step = MIN_STEP; step <= MAX_STEP; step *= 2)` of `get_supported_speeds`. -/
def pass_step (k : Nat) : Nat := MIN_STEP * 2 ^ k

/-- The local `min` of `get_supported_speeds` in the pass with the given `step`:
the number read from `MIN_SPEED_FILE`, held at `min_speed` and then, by
`min = MAX(min, step)`, at the step. -/
def clamped_min (cpu : Cpufreq) (cfg : Config) (step : Nat) : Nat :=
  MAX (MAX (cpu.scaling_min_freq % UINT_MOD) cfg.min_speed) step

/-- The indices of `speeds` stored by `k` passes that were abandoned at
`MAX_SPEEDS` recorded steps each: `0, ..., MAX_SPEEDS - 1`, `k` times over. -/
def abandoned_stores : Nat → List Nat
  | 0 => []
  | k + 1 => List.range MAX_SPEEDS ++ abandoned_stores k

/-- Settings for a domain of the one core 1000. -/
def cfg_core_1000 : Config :=
  { Config.default with tied_cpu_cores := fun _ => 1000 }

/-- The files of `env_reading_2` at an evaluation where the locals `elapsed_time`
and `idle_time` hold 5 and 10. -/
def env_reading_2_unset : Env :=
  { env_reading_2 with uninit := fun _ => (5, 10) }

/-- The sample of core 0 at `env_reading_2` after a sample at `env_reading_1`. -/
def reading_sample : Nat × Nat :=
  successive_sample Config.default env_reading_1 env_reading_2 0 State.init

/-- The index `current` at each evaluation of `speeds[current].khz` in the
`do ... while (current != target)` loop of `set_speed(unsigned current, unsigned
target)`, oldest first. -/
def set_speed_loop_indices (delta : Int) (target : Nat) : Nat → Nat → Res (List Nat)
  | 0, _ => Res.fuel
  | n + 1, current =>
    let current := uadd_int current delta
    if current ≠ target then
      (set_speed_loop_indices delta target n current).bind fun rest => Res.ok (current :: rest)
    else Res.ok [current]

/-- The indices of `speeds` that `set_speed(unsigned current, unsigned target)`
reads, oldest first. -/
def set_speed_indices (current target : Nat) : Res (List Nat) :=
  if current = target then Res.ok []
  else
    let delta : Int := if current > target then -1 else 1
    set_speed_loop_indices delta target UINT_MOD current

/-- The table discovered on `cpu_plain` at index 2 of it, on a tick where the load
check is due. -/
def plain_table_due : State :=
  { plain_table with current_speed := 2, check_cpu := true }

/-! ## Facts about the ramp -/

theorem uadd_int_succ (c : Nat) (h : c + 1 < UINT_MOD) : uadd_int c 1 = c + 1 := by
  unfold uadd_int UINT_MOD at *
  omega

theorem uadd_int_pred (c : Nat) (h0 : 0 < c) (h : c < UINT_MOD) :
    uadd_int c (-1) = c - 1 := by
  unfold uadd_int UINT_MOD at *
  omega

theorem set_speed_loop_up (target : Nat) (ht : target < UINT_MOD) :
    ∀ (k n current : Nat) (s : State), current + k + 1 = target → k < n →
      set_speed_loop 1 target n current s =
        Res.ok { s with written := s.written ++
          (List.range (k + 1)).map (fun j => s.speeds (current + (j + 1))) } := by
  intro k
  induction k with
  | zero =>
    intro n current s hk hn
    obtain ⟨m, rfl⟩ : ∃ m, n = m + 1 := ⟨n - 1, by omega⟩
    have hc : uadd_int current 1 = current + 1 := uadd_int_succ current (by omega)
    have ht2 : current + 1 = target := by omega
    simp [set_speed_loop, hc, set_speed, ht2, List.range_succ]
  | succ k ih =>
    intro n current s hk hn
    obtain ⟨m, rfl⟩ : ∃ m, n = m + 1 := ⟨n - 1, by omega⟩
    have hc : uadd_int current 1 = current + 1 := uadd_int_succ current (by omega)
    have hne : current + 1 ≠ target := by omega
    rw [set_speed_loop]
    simp only [hc, hne, ne_eq, not_false_eq_true, if_true]
    rw [ih m (current + 1) _ (by omega) (by omega)]
    simp only [set_speed, List.append_assoc, List.singleton_append]
    rw [List.range_succ_eq_map (k + 1)]
    simp only [List.map_cons, List.map_map]
    congr 3
    refine congrArg₂ _ (by simp) (List.map_congr_left ?_)
    intro j _
    simp only [Function.comp, Nat.succ_eq_add_one]
    congr 1
    omega

theorem set_speed_loop_down (target : Nat) :
    ∀ (k n current : Nat) (s : State), target + k + 1 = current → current < UINT_MOD →
      k < n →
      set_speed_loop (-1) target n current s =
        Res.ok { s with written := s.written ++
          (List.range (k + 1)).map (fun j => s.speeds (current - (j + 1))) } := by
  intro k
  induction k with
  | zero =>
    intro n current s hk hlt hn
    obtain ⟨m, rfl⟩ : ∃ m, n = m + 1 := ⟨n - 1, by omega⟩
    have hc : uadd_int current (-1) = current - 1 := uadd_int_pred current (by omega) hlt
    have ht2 : current - 1 = target := by omega
    simp [set_speed_loop, hc, set_speed, ht2, List.range_succ]
  | succ k ih =>
    intro n current s hk hlt hn
    obtain ⟨m, rfl⟩ : ∃ m, n = m + 1 := ⟨n - 1, by omega⟩
    have hc : uadd_int current (-1) = current - 1 := uadd_int_pred current (by omega) hlt
    have hne : current - 1 ≠ target := by omega
    rw [set_speed_loop]
    simp only [hc, hne, ne_eq, not_false_eq_true, if_true]
    rw [ih m (current - 1) _ (by omega) (by omega) (by omega)]
    simp only [set_speed, List.append_assoc, List.singleton_append]
    rw [List.range_succ_eq_map (k + 1)]
    simp only [List.map_cons, List.map_map]
    congr 3
    refine congrArg₂ _ (by simp) (List.map_congr_left ?_)
    intro j _
    simp only [Function.comp, Nat.succ_eq_add_one]
    congr 1
    omega

/-- The writes of a ramp from `current` up to a larger `target`. -/
theorem set_speed_to_up (current target : Nat) (s : State) (h : current < target)
    (ht : target < UINT_MOD) :
    set_speed_to current target s =
      Res.ok { s with written := s.written ++
        (List.range (target - current)).map (fun j => s.speeds (current + (j + 1))) } := by
  have hne : current ≠ target := by omega
  have hgt : ¬ current > target := by omega
  simp only [set_speed_to, hne, hgt, if_false]
  have := set_speed_loop_up target ht (target - current - 1) UINT_MOD current s (by omega)
    (by omega)
  rw [this]
  have e : target - current - 1 + 1 = target - current := by omega
  rw [e]

/-- The writes of a ramp from `current` down to a smaller `target`. -/
theorem set_speed_to_down (current target : Nat) (s : State) (h : target < current)
    (hc : current < UINT_MOD) :
    set_speed_to current target s =
      Res.ok { s with written := s.written ++
        (List.range (current - target)).map (fun j => s.speeds (current - (j + 1))) } := by
  have hne : current ≠ target := by omega
  simp only [set_speed_to, hne, h, gt_iff_lt, if_true, if_false]
  have := set_speed_loop_down target (current - target - 1) UINT_MOD current s (by omega) hc
    (by omega)
  rw [this]
  have e : current - target - 1 + 1 = current - target := by omega
  rw [e]

/-- A ramp between two `unsigned` values returns, and changes nothing but the
record of writes. -/
theorem set_speed_to_ok (current target : Nat) (s : State) (hc : current < UINT_MOD)
    (ht : target < UINT_MOD) :
    ∃ ws, set_speed_to current target s = Res.ok { s with written := s.written ++ ws } := by
  rcases Nat.lt_trichotomy current target with h | h | h
  · exact ⟨_, set_speed_to_up current target s h ht⟩
  · exact ⟨[], by simp [set_speed_to, h]⟩
  · exact ⟨_, set_speed_to_down current target s h hc⟩

/-! ## Facts about the sort -/

theorem icomp_le_iff (a b : Nat) (ha : a < 2147483648) (hb : b < 2147483648) :
    icomp a b ≤ 0 ↔ a ≤ b := by
  unfold icomp wrap_int to_int UINT_MOD
  have h1 : a % 4294967296 = a := Nat.mod_eq_of_lt (by omega)
  have h2 : b % 4294967296 = b := Nat.mod_eq_of_lt (by omega)
  rw [h1, h2]
  simp only [ha, hb, if_true]
  omega

theorem orderedInsert_rel_congr (r r2 : Nat → Nat → Prop) [DecidableRel r] [DecidableRel r2]
    (a : Nat) (l : List Nat) (h : ∀ b ∈ l, (r a b ↔ r2 a b)) :
    l.orderedInsert r a = l.orderedInsert r2 a := by
  induction l with
  | nil => rfl
  | cons b l ih =>
    have hb : r a b ↔ r2 a b := h b (List.mem_cons_self b l)
    have hl : ∀ c ∈ l, (r a c ↔ r2 a c) := fun c hc => h c (List.mem_cons_of_mem b hc)
    by_cases hr : r a b
    · have hr2 : r2 a b := hb.mp hr
      simp [List.orderedInsert, hr, hr2]
    · have hr2 : ¬ r2 a b := fun x => hr (hb.mpr x)
      simp [List.orderedInsert, hr, hr2, ih hl]

theorem insertionSort_rel_congr (r r2 : Nat → Nat → Prop) [DecidableRel r] [DecidableRel r2]
    (l : List Nat) (h : ∀ a ∈ l, ∀ b ∈ l, (r a b ↔ r2 a b)) :
    l.insertionSort r = l.insertionSort r2 := by
  induction l with
  | nil => rfl
  | cons a l ih =>
    have hl : ∀ x ∈ l, ∀ y ∈ l, (r x y ↔ r2 x y) :=
      fun x hx y hy => h x (List.mem_cons_of_mem a hx) y (List.mem_cons_of_mem a hy)
    simp only [List.insertionSort]
    rw [ih hl]
    apply orderedInsert_rel_congr
    intro b hb
    have hb2 : b ∈ l := (List.perm_insertionSort r2 l).mem_iff.mp hb
    exact h a (List.mem_cons_self a l) b (List.mem_cons_of_mem a hb2)

/-- On values that are non-negative as `int`, the sort driven by `icomp` puts the
least value first. -/
theorem qsort_icomp_head (l : List Nat) (hne : l ≠ [])
    (hs : ∀ x ∈ l, x < 2147483648) :
    (qsort icomp l).headD 0 ∈ l ∧ ∀ w ∈ l, (qsort icomp l).headD 0 ≤ w := by
  have e : qsort icomp l = l.insertionSort (fun a b => a ≤ b) := by
    unfold qsort
    apply insertionSort_rel_congr
    intro a ha b hb
    exact icomp_le_iff a b (hs a ha) (hs b hb)
  rw [e]
  have hp := List.perm_insertionSort (fun a b : Nat => a ≤ b) l
  have hsd := List.sorted_insertionSort (fun a b : Nat => a ≤ b) l
  cases hq : l.insertionSort (fun a b => a ≤ b) with
  | nil =>
    rw [hq] at hp
    exact absurd (List.Perm.eq_nil (List.Perm.symm hp)) hne
  | cons x t =>
    rw [hq] at hp hsd
    simp only [List.headD_cons]
    refine ⟨hp.mem_iff.mp (List.mem_cons_self x t), ?_⟩
    intro w hw
    have hw2 : w ∈ x :: t := hp.mem_iff.mpr hw
    rcases List.mem_cons.mp hw2 with h | h
    · omega
    · exact List.rel_of_sorted_cons hsd w h

/-! ## Facts about the load loop -/

theorem get_times_frame (cfg : Config) (env : Env) (i a b : Nat) (s : State) :
    (get_times cfg env i a b s).1 =
      { s with
          last_total_time := (get_times cfg env i a b s).1.last_total_time
          last_idle_time := (get_times cfg env i a b s).1.last_idle_time } := by
  unfold get_times
  cases found_row cfg env i <;> rfl

theorem get_times_other (cfg : Config) (env : Env) (i a b : Nat) (s : State) (j : Nat)
    (hj : j ≠ i) :
    (get_times cfg env i a b s).1.last_total_time j = s.last_total_time j ∧
    (get_times cfg env i a b s).1.last_idle_time j = s.last_idle_time j := by
  unfold get_times
  cases found_row cfg env i with
  | none => exact ⟨rfl, rfl⟩
  | some row => simp [Function.update_noteq hj]

theorem get_times_sample_congr (cfg : Config) (env : Env) (i a b : Nat) (s s0 : State)
    (h1 : s.last_total_time i = s0.last_total_time i)
    (h2 : s.last_idle_time i = s0.last_idle_time i) :
    (get_times cfg env i a b s).2 = (get_times cfg env i a b s0).2 := by
  unfold get_times
  cases found_row cfg env i with
  | none => rfl
  | some row => simp [h1, h2]

theorem wanted_speed_of_congr (cfg : Config) (s s0 : State) (e d : Nat)
    (h1 : s.current_speed = s0.current_speed) (h2 : s.speeds = s0.speeds) :
    wanted_speed_of cfg s e d = wanted_speed_of cfg s0 e d := by
  unfold wanted_speed_of
  rw [h1, h2]

theorem wanted_loop_frame (cfg : Config) (env : Env) :
    ∀ (n i : Nat) (s : State),
      (wanted_loop cfg env n i s).1 =
        { s with
            last_total_time := (wanted_loop cfg env n i s).1.last_total_time
            last_idle_time := (wanted_loop cfg env n i s).1.last_idle_time } := by
  intro n
  induction n with
  | zero => intro i s; rfl
  | succ n ih =>
    intro i s
    simp only [wanted_loop]
    rw [ih (i + 1) _]
    rw [get_times_frame cfg env i _ _ s]

theorem wanted_loop_eq (cfg : Config) (env : Env) (s0 : State) :
    ∀ (n i : Nat) (s : State),
      (∀ j, i ≤ j → s.last_total_time j = s0.last_total_time j ∧
        s.last_idle_time j = s0.last_idle_time j) →
      s.current_speed = s0.current_speed → s.speeds = s0.speeds →
      (wanted_loop cfg env n i s).2 =
        (List.range n).map fun k =>
          wanted_speed_of cfg s0 (core_sample cfg env s0 (i + k)).1
            (core_sample cfg env s0 (i + k)).2 := by
  intro n
  induction n with
  | zero => intro i s _ _ _; rfl
  | succ n ih =>
    intro i s hst hc hsp
    have hfr := get_times_frame cfg env i (env.uninit i).1 (env.uninit i).2 s
    have hsm : (get_times cfg env i (env.uninit i).1 (env.uninit i).2 s).2
        = core_sample cfg env s0 i :=
      get_times_sample_congr cfg env i _ _ s s0 (hst i (le_refl i)).1 (hst i (le_refl i)).2
    have hc1 : (get_times cfg env i (env.uninit i).1 (env.uninit i).2 s).1.current_speed
        = s0.current_speed := by rw [hfr]; exact hc
    have hsp1 : (get_times cfg env i (env.uninit i).1 (env.uninit i).2 s).1.speeds
        = s0.speeds := by rw [hfr]; exact hsp
    have hst1 : ∀ j, i + 1 ≤ j →
        (get_times cfg env i (env.uninit i).1 (env.uninit i).2 s).1.last_total_time j
          = s0.last_total_time j ∧
        (get_times cfg env i (env.uninit i).1 (env.uninit i).2 s).1.last_idle_time j
          = s0.last_idle_time j := by
      intro j hj
      have ho := get_times_other cfg env i (env.uninit i).1 (env.uninit i).2 s j (by omega)
      have hb := hst j (by omega)
      exact ⟨ho.1.trans hb.1, ho.2.trans hb.2⟩
    simp only [wanted_loop]
    rw [ih (i + 1) _ hst1 hc1 hsp1, List.range_succ_eq_map, List.map_cons, List.map_map,
      wanted_speed_of_congr cfg _ s0 _ _ hc1 hsp1, hsm]
    refine congrArg₂ _ (by simp) (List.map_congr_left ?_)
    intro k _
    simp only [Function.comp, Nat.succ_eq_add_one]
    have e : i + 1 + k = i + (k + 1) := by omega
    rw [e]

theorem wanted_speed_of_lt (cfg : Config) (s : State) (e d : Nat)
    (h : s.current_speed + 1 < 2147483648) : wanted_speed_of cfg s e d < 2147483648 := by
  unfold wanted_speed_of usub uadd UINT_MOD
  simp only
  split_ifs <;> omega

theorem wanted_speeds_lt (cfg : Config) (env : Env) (s : State)
    (h : s.current_speed + 1 < 2147483648) : ∀ w ∈ wanted_speeds cfg env s, w < 2147483648 := by
  intro w hw
  unfold wanted_speeds at hw
  obtain ⟨i, _, rfl⟩ := List.mem_map.mp hw
  exact wanted_speed_of_lt cfg s _ _ h

/-! ## Facts about the evaluation -/

theorem read_ac_frame (cfg : Config) (env : Env) (s : State) :
    read_ac cfg env s = { s with on_ac := (read_ac cfg env s).on_ac } := by
  unfold read_ac
  split_ifs <;> rfl

theorem policy_state_frame (cfg : Config) (env : Env) (s s1 : State) (st : Mode)
    (h : policy_state cfg env s = Res.ok (st, s1)) : s1 = { s with on_ac := s1.on_ac } := by
  have hr := read_ac_frame cfg env s
  unfold policy_state at h
  simp only at h
  split_ifs at h <;> first
    | (cases h; rfl)
    | (cases h; exact hr)
    | (split at h <;> first | cases h | (split_ifs at h <;> (cases h; exact hr)))

theorem set_speed_loop_frame (delta : Int) (target : Nat) :
    ∀ (n current : Nat) (s s2 : State), set_speed_loop delta target n current s = Res.ok s2 →
      s2 = { s with written := s2.written } := by
  intro n
  induction n with
  | zero => intro current s s2 h; simp [set_speed_loop] at h
  | succ n ih =>
    intro current s s2 h
    rw [set_speed_loop] at h
    split_ifs at h with hne
    · have := ih _ _ _ h
      rw [this]
      rfl
    · cases h
      rfl

theorem set_speed_to_frame (current target : Nat) (s s2 : State)
    (h : set_speed_to current target s = Res.ok s2) : s2 = { s with written := s2.written } := by
  unfold set_speed_to at h
  split_ifs at h with he
  · cases h; rfl
  · exact set_speed_loop_frame _ _ _ _ _ _ h
  · exact set_speed_loop_frame _ _ _ _ _ _ h

theorem switch_state_frame (cfg : Config) (env : Env) (st : Mode) (s : State) :
    switch_state cfg env st s =
      { s with
          current_speed := (switch_state cfg env st s).current_speed
          last_total_time := (switch_state cfg env st s).last_total_time
          last_idle_time := (switch_state cfg env st s).last_idle_time } := by
  cases st
  · simp only [switch_state]
    split_ifs
    · rfl
    · rw [wanted_loop_frame cfg env cfg.num_tied_cores 0 s]
  · rfl
  · rfl

/-- An evaluation that returns went through the policy block, the switch and the
ramp, and cleared the three flags. -/
theorem alarm_handler_inv (cfg : Config) (env : Env) (s s2 : State)
    (h : alarm_handler cfg env s = Res.ok s2) :
    ∃ st s1, policy_state cfg env s = Res.ok (st, s1) ∧
      s2 = { switch_state cfg env st s1 with
              written := s2.written, check_cpu := false, check_therm := false,
              check_ac := false } := by
  unfold alarm_handler at h
  cases hp : policy_state cfg env s with
  | died => rw [hp] at h; simp [Res.bind] at h
  | fuel => rw [hp] at h; simp [Res.bind] at h
  | ok p =>
    rw [hp] at h
    simp only [Res.bind] at h
    refine ⟨p.1, p.2, rfl, ?_⟩
    split_ifs at h with hne
    · cases hq : set_speed_to s.current_speed (switch_state cfg env p.1 p.2).current_speed
          (switch_state cfg env p.1 p.2) with
      | died => rw [hq] at h; simp at h
      | fuel => rw [hq] at h; simp at h
      | ok s3 =>
        rw [hq] at h
        simp only [Res.ok.injEq] at h
        have hf := set_speed_to_frame _ _ _ _ hq
        rw [← h, hf]
    · simp only [Res.ok.injEq] at h
      rw [← h]

/-- An evaluation whose policy block returns and whose indices are `unsigned`
returns, with the state of the switch, some more writes, and the flags cleared. -/
theorem alarm_handler_of_policy (cfg : Config) (env : Env) (s s1 : State) (st : Mode)
    (h : policy_state cfg env s = Res.ok (st, s1)) (hc : s.current_speed < UINT_MOD)
    (hn : (switch_state cfg env st s1).current_speed < UINT_MOD) :
    ∃ ws, alarm_handler cfg env s =
      Res.ok { switch_state cfg env st s1 with
                written := (switch_state cfg env st s1).written ++ ws, check_cpu := false,
                check_therm := false, check_ac := false } := by
  unfold alarm_handler
  rw [h]
  simp only [Res.bind]
  split_ifs with hne
  · obtain ⟨ws, hws⟩ := set_speed_to_ok s.current_speed
      (switch_state cfg env st s1).current_speed (switch_state cfg env st s1) hc hn
    exact ⟨ws, by rw [hws]⟩
  · exact ⟨[], by simp⟩

theorem alarm_handler_mode (cfg : Config) (env : Env) (s s2 : State)
    (h : alarm_handler cfg env s = Res.ok s2) : s2.mode = s.mode := by
  obtain ⟨st, s1, hp, hs⟩ := alarm_handler_inv cfg env s s2 h
  have h1 := policy_state_frame cfg env s s1 st hp
  have h2 := switch_state_frame cfg env st s1
  rw [hs]
  show (switch_state cfg env st s1).mode = s.mode
  rw [h2]
  show s1.mode = s.mode
  rw [h1]

/-- The evaluation in effective `SPEED_DYNAMIC` state with the load check due:
the new index is the least entry of `wanted_speed`. -/
theorem alarm_handler_dynamic (cfg : Config) (env : Env) (s s1 : State)
    (hp : policy_state cfg env s = Res.ok (Mode.SPEED_DYNAMIC, s1))
    (hcpu : s.check_cpu = true) (hn : 1 ≤ cfg.num_tied_cores)
    (hc : s.current_speed + 1 < 2147483648) :
    ∃ s2, alarm_handler cfg env s = Res.ok s2 ∧
      s2.current_speed ∈ wanted_speeds cfg env s ∧
      ∀ w ∈ wanted_speeds cfg env s, s2.current_speed ≤ w := by
  have h1 := policy_state_frame cfg env s s1 _ hp
  have hcpu1 : s1.check_cpu = true := by rw [h1]; exact hcpu
  have hw : (wanted_loop cfg env cfg.num_tied_cores 0 s1).2 = wanted_speeds cfg env s := by
    rw [wanted_loop_eq cfg env s cfg.num_tied_cores 0 s1
      (by intro j _; rw [h1]; exact ⟨rfl, rfl⟩) (by rw [h1]) (by rw [h1])]
    simp [wanted_speeds]
  have hne : wanted_speeds cfg env s ≠ [] := by
    intro h0
    have := congrArg List.length h0
    simp [wanted_speeds] at this
    omega
  have hq := qsort_icomp_head (wanted_speeds cfg env s) hne (wanted_speeds_lt cfg env s hc)
  have hsw : (switch_state cfg env Mode.SPEED_DYNAMIC s1).current_speed
      = (qsort icomp (wanted_speeds cfg env s)).headD 0 := by
    simp [switch_state, hcpu1, hw]
  have hlt : (switch_state cfg env Mode.SPEED_DYNAMIC s1).current_speed < UINT_MOD := by
    rw [hsw]
    have := wanted_speeds_lt cfg env s hc _ hq.1
    unfold UINT_MOD
    omega
  obtain ⟨ws, hws⟩ := alarm_handler_of_policy cfg env s s1 _ hp (by unfold UINT_MOD; omega) hlt
  refine ⟨_, hws, ?_, ?_⟩
  · show (switch_state cfg env Mode.SPEED_DYNAMIC s1).current_speed ∈ _
    rw [hsw]; exact hq.1
  · intro w hw2
    show (switch_state cfg env Mode.SPEED_DYNAMIC s1).current_speed ≤ w
    rw [hsw]; exact hq.2 w hw2

/-! ## Facts about discovery -/

theorem probe_down_succ (hw : Hardware) (min step n current : Nat) (s : State) :
    probe_down hw min step (n + 1) current s =
      if current > usub min step then
        (if (probe_read hw min current s).1 ≠ s.speeds s.current_speed then
          (if uadd (uadd s.current_speed 1) 1 = MAX_SPEEDS then
            Res.ok (probe_store (probe_read hw min current s).1 (probe_read hw min current s).2)
           else probe_down hw min step n (usub (MAX current min) step)
            (probe_store (probe_read hw min current s).1 (probe_read hw min current s).2))
         else probe_down hw min step n (usub (MAX current min) step)
          (probe_read hw min current s).2)
      else Res.ok s := by
  rfl

theorem probe_read_frame (hw : Hardware) (min current : Nat) (s : State) :
    (probe_read hw min current s).2 =
      { s with written := s.written ++ [MAX current min], nreads := s.nreads + 1 } := by
  rfl

/-- Proof rule for the downward walk: a property `P` of the loop head that each
pass of the body keeps gives `Q` at every exit. -/
theorem probe_down_rule (hw : Hardware) (min step : Nat) (P : Nat → State → Prop)
    (Q : State → Prop)
    (hexit : ∀ c s, P c s → ¬ c > usub min step → Q s)
    (hsame : ∀ c s, P c s → c > usub min step →
      (probe_read hw min c s).1 = s.speeds s.current_speed →
      P (usub (MAX c min) step) (probe_read hw min c s).2)
    (hbreak : ∀ c s, P c s → c > usub min step →
      (probe_read hw min c s).1 ≠ s.speeds s.current_speed →
      uadd (uadd s.current_speed 1) 1 = MAX_SPEEDS →
      Q (probe_store (probe_read hw min c s).1 (probe_read hw min c s).2))
    (hstore : ∀ c s, P c s → c > usub min step →
      (probe_read hw min c s).1 ≠ s.speeds s.current_speed →
      uadd (uadd s.current_speed 1) 1 ≠ MAX_SPEEDS →
      P (usub (MAX c min) step)
        (probe_store (probe_read hw min c s).1 (probe_read hw min c s).2)) :
    ∀ (n c : Nat) (s s2 : State), P c s → probe_down hw min step n c s = Res.ok s2 → Q s2 := by
  intro n
  induction n with
  | zero => intro c s s2 _ h; simp [probe_down] at h
  | succ n ih =>
    intro c s s2 hP h
    rw [probe_down_succ] at h
    split_ifs at h with h1 h2 h3
    · cases h
      exact hbreak c s hP h1 h2 h3
    · exact ih _ _ _ (hstore c s hP h1 h2 h3) h
    · exact ih _ _ _ (hsame c s hP h1 (not_not.mp h2)) h
    · cases h
      exact hexit c s hP h1

theorem ramp_to_max_frame (max step : Nat) :
    ∀ (n current : Nat) (s s2 : State), ramp_to_max max step n current s = Res.ok s2 →
      s2 = { s with written := s2.written } := by
  intro n
  induction n with
  | zero => intro current s s2 h; simp [ramp_to_max] at h
  | succ n ih =>
    intro current s s2 h
    rw [ramp_to_max] at h
    split_ifs at h with hlt
    · have := ih _ _ _ h
      rw [this]
      rfl
    · cases h
      rfl

theorem step_loop_succ (hw : Hardware) (max n step min : Nat) (s : State) :
    step_loop hw max (n + 1) step min s =
      if step ≤ MAX_STEP then
        (if max ≤ MAX min step then Res.died
         else
          (ramp_to_max max step UINT_MOD (get_speed hw s).1 (get_speed hw s).2).bind fun sr =>
            (probe_down hw (MAX min step) step UINT_MOD (usub max step)
                (pass_start hw max sr)).bind fun sp =>
              if uadd sp.current_speed 1 ≠ MAX_SPEEDS then finish_speeds step sp
              else step_loop hw max n (step * 2 % UINT_MOD) (MAX min step) sp)
      else finish_speeds step s := by
  rfl

theorem finish_speeds_ok (step : Nat) (s s2 : State) (h : finish_speeds step s = Res.ok s2) :
    step ≤ MAX_STEP ∧ s2 = pass_finish s := by
  unfold finish_speeds at h
  split_ifs at h with hs
  · simp only [Res.ok.injEq] at h
    exact ⟨by omega, h.symm⟩

/-- Proof rule for the loop over `step`: a property `P` that holds at the start
and that every abandoned pass keeps gives `Q` for whatever an accepted pass
returns. -/
theorem step_loop_rule (hw : Hardware) (max : Nat) (P : State → Prop) (Q : State → Prop)
    (hnext : ∀ step min s sr sp, P s → step ≤ MAX_STEP → ¬ max ≤ MAX min step →
      ramp_to_max max step UINT_MOD (get_speed hw s).1 (get_speed hw s).2 = Res.ok sr →
      probe_down hw (MAX min step) step UINT_MOD (usub max step) (pass_start hw max sr)
        = Res.ok sp →
      uadd sp.current_speed 1 = MAX_SPEEDS → P sp)
    (hdone : ∀ step min s sr sp, P s → step ≤ MAX_STEP → ¬ max ≤ MAX min step →
      ramp_to_max max step UINT_MOD (get_speed hw s).1 (get_speed hw s).2 = Res.ok sr →
      probe_down hw (MAX min step) step UINT_MOD (usub max step) (pass_start hw max sr)
        = Res.ok sp →
      uadd sp.current_speed 1 ≠ MAX_SPEEDS → Q (pass_finish sp)) :
    ∀ (n step min : Nat) (s s2 : State), P s → step_loop hw max n step min s = Res.ok s2 →
      Q s2 := by
  intro n
  induction n with
  | zero => intro step min s s2 _ h; simp [step_loop] at h
  | succ n ih =>
    intro step min s s2 hP h
    rw [step_loop_succ] at h
    split_ifs at h with h1 h2
    · cases hr : ramp_to_max max step UINT_MOD (get_speed hw s).1 (get_speed hw s).2 with
      | died => rw [hr] at h; simp [Res.bind] at h
      | fuel => rw [hr] at h; simp [Res.bind] at h
      | ok sr =>
        rw [hr] at h
        simp only [Res.bind] at h
        cases hp : probe_down hw (MAX min step) step UINT_MOD (usub max step)
            (pass_start hw max sr) with
        | died => rw [hp] at h; simp at h
        | fuel => rw [hp] at h; simp at h
        | ok sp =>
          rw [hp] at h
          simp only at h
          split_ifs at h with h3
          · obtain ⟨_, rfl⟩ := finish_speeds_ok step sp s2 h
            exact hdone step min s sr sp hP h1 h2 hr hp h3
          · exact ih _ _ _ _ (hnext step min s sr sp hP h1 h2 hr hp (not_not.mp h3)) h
    · obtain ⟨hle, _⟩ := finish_speeds_ok step s s2 h
      exact absurd hle h1

theorem probe_store_recording (pre : List Nat) (real : Nat) (s : State)
    (h : Recording pre s) (hlt : s.current_speed + 1 < MAX_SPEEDS)
    (hne : real ≠ s.speeds s.current_speed) : Recording pre (probe_store real s) := by
  obtain ⟨_, hst, hadj⟩ := h
  have hu : uadd s.current_speed 1 = s.current_speed + 1 := by
    unfold uadd UINT_MOD; unfold MAX_SPEEDS at hlt; omega
  refine ⟨?_, ?_, ?_⟩
  · show uadd s.current_speed 1 + 1 ≤ MAX_SPEEDS
    rw [hu]; omega
  · show s.stored ++ [uadd s.current_speed 1] = pre ++ List.range (uadd s.current_speed 1 + 1)
    rw [hu, hst, List.range_succ (s.current_speed + 1), List.append_assoc]
  · intro i hi
    have hi2 : i < s.current_speed + 1 := by
      have : (probe_store real s).current_speed = uadd s.current_speed 1 := rfl
      rw [this, hu] at hi; exact hi
    show Function.update s.speeds (uadd s.current_speed 1) real i
      ≠ Function.update s.speeds (uadd s.current_speed 1) real (i + 1)
    rw [hu, Function.update_noteq (by omega)]
    by_cases hic : i = s.current_speed
    · subst hic
      rw [Function.update_same]
      exact fun h => hne h.symm
    · rw [Function.update_noteq (by omega)]
      exact hadj i (by omega)

theorem probe_down_recording (hw : Hardware) (min step : Nat) (pre : List Nat) :
    ∀ (n c : Nat) (s s2 : State), Recording pre s → s.current_speed + 1 < MAX_SPEEDS →
      probe_down hw min step n c s = Res.ok s2 → Recording pre s2 := by
  intro n c s s2 h1 h2 h
  refine probe_down_rule hw min step
    (fun _ s => Recording pre s ∧ s.current_speed + 1 < MAX_SPEEDS) (Recording pre)
    ?_ ?_ ?_ ?_ n c s s2 ⟨h1, h2⟩ h
  · intro c s hP _
    exact hP.1
  · intro c s hP _ _
    rw [probe_read_frame]
    exact hP
  · intro c s hP _ hne _
    rw [probe_read_frame]
    exact probe_store_recording pre _ _ hP.1 hP.2 hne
  · intro c s hP _ hne hnb
    rw [probe_read_frame]
    have hr := probe_store_recording pre (probe_read hw min c s).1
      { s with written := s.written ++ [MAX c min], nreads := s.nreads + 1 } hP.1 hP.2 hne
    refine ⟨hr, ?_⟩
    have hlt := hP.2
    have hu : uadd s.current_speed 1 = s.current_speed + 1 := by
      unfold uadd UINT_MOD; unfold MAX_SPEEDS at hlt; omega
    have hu2 : uadd (s.current_speed + 1) 1 = s.current_speed + 2 := by
      unfold uadd UINT_MOD; unfold MAX_SPEEDS at hlt; omega
    rw [hu, hu2] at hnb
    show uadd s.current_speed 1 + 1 < MAX_SPEEDS
    rw [hu]
    omega

theorem pass_start_recording (hw : Hardware) (max : Nat) (s : State) :
    Recording s.stored (pass_start hw max s) := by
  refine ⟨by unfold MAX_SPEEDS; show 0 + 1 ≤ 15; omega, ?_, ?_⟩
  · show s.stored ++ [0] = s.stored ++ List.range (0 + 1)
    rfl
  · intro i hi
    exact absurd hi (Nat.not_lt_zero i)

theorem pass_finish_discovered (before pre : List Nat) (s : State)
    (h : Recording (before ++ pre) s) (hne : uadd s.current_speed 1 ≠ MAX_SPEEDS)
    (hpre : ∀ i ∈ pre, i < MAX_SPEEDS + 1) : Discovered before (pass_finish s) := by
  obtain ⟨hle, hst, hadj⟩ := h
  have hlt : s.current_speed + 1 < MAX_SPEEDS := by
    have : uadd s.current_speed 1 = s.current_speed + 1 := by
      unfold uadd UINT_MOD; unfold MAX_SPEEDS at hle; omega
    rw [this] at hne
    omega
  have hu : uadd s.current_speed 1 = s.current_speed + 1 := by
    unfold uadd UINT_MOD; unfold MAX_SPEEDS at hlt; omega
  refine ⟨hlt, rfl, ?_, ?_, pre, ?_, ?_⟩
  · show Function.update s.speeds (uadd s.current_speed 1) 0 (s.current_speed + 1) = 0
    rw [hu, Function.update_same]
  · intro i hi
    have hi2 : i < s.current_speed := hi
    show Function.update s.speeds (uadd s.current_speed 1) 0 i
      ≠ Function.update s.speeds (uadd s.current_speed 1) 0 (i + 1)
    rw [hu, Function.update_noteq (by omega), Function.update_noteq (by omega)]
    exact hadj i hi2
  · show s.stored ++ [uadd s.current_speed 1] = before ++ pre ++ List.range (s.current_speed + 2)
    rw [hu, hst, List.range_succ (s.current_speed + 1), List.append_assoc]
  · intro i hi
    rcases List.mem_append.mp hi with h1 | h1
    · exact hpre i h1
    · have h2 : i < s.current_speed + 2 := List.mem_range.mp h1
      unfold MAX_SPEEDS at hlt ⊢
      omega

/-- Whatever the hardware reads back, the table that the loop over `step`
returns is a `Discovered` one. -/
theorem step_loop_discovered (hw : Hardware) (max : Nat) (s0 : State) :
    ∀ (n step min : Nat) (s2 : State), step_loop hw max n step min s0 = Res.ok s2 →
      Discovered s0.stored s2 := by
  intro n step min s2 h
  refine step_loop_rule hw max
    (fun s => ∃ pre, s.stored = s0.stored ++ pre ∧ ∀ i ∈ pre, i < MAX_SPEEDS + 1)
    (Discovered s0.stored) ?_ ?_ n step min s0 s2 ⟨[], by simp, by simp⟩ h
  · intro step min s sr sp hP _ _ hr hp _
    obtain ⟨pre, hpre, hb⟩ := hP
    have hsr : sr.stored = s0.stored ++ pre := by
      rw [ramp_to_max_frame _ _ _ _ _ _ hr]
      exact hpre
    have hrec := probe_down_recording hw (MAX min step) step sr.stored _ _ _ _
      (pass_start_recording hw max sr) (by unfold MAX_SPEEDS; show 0 + 1 < 15; omega) hp
    obtain ⟨hle, hst, _⟩ := hrec
    refine ⟨pre ++ List.range (sp.current_speed + 1), ?_, ?_⟩
    · rw [hst, hsr, List.append_assoc]
    · intro i hi
      rcases List.mem_append.mp hi with h1 | h1
      · exact hb i h1
      · have h2 : i < sp.current_speed + 1 := List.mem_range.mp h1
        omega
  · intro step min s sr sp hP _ _ hr hp hne
    obtain ⟨pre, hpre, hb⟩ := hP
    have hsr : sr.stored = s0.stored ++ pre := by
      rw [ramp_to_max_frame _ _ _ _ _ _ hr]
      exact hpre
    have hrec := probe_down_recording hw (MAX min step) step sr.stored _ _ _ _
      (pass_start_recording hw max sr) (by unfold MAX_SPEEDS; show 0 + 1 < 15; omega) hp
    rw [hsr] at hrec
    exact pass_finish_discovered s0.stored pre sp hrec hne hb

/-- Whatever the hardware reads back, the table that `get_supported_speeds`
returns is a `Discovered` one. -/
theorem get_supported_speeds_discovered (cpu : Cpufreq) (cfg : Config) (s0 s : State)
    (h : get_supported_speeds cpu cfg s0 = Res.ok s) : Discovered s0.stored s :=
  step_loop_discovered _ _ s0 _ _ _ s h

theorem probe_read_snap (snap : Nat → Nat) (min c : Nat) (s : State) :
    (probe_read (snap_hardware snap) min c s).1 = snap (MAX c min) % UINT_MOD := by
  show snap ((s.written ++ [MAX c min]).getLastD 0) % UINT_MOD = _
  rw [List.getLastD_concat]

theorem MAX_le (a b x : Nat) (ha : a ≤ x) (hb : b ≤ x) : MAX a b ≤ x := by
  unfold MAX; split_ifs <;> omega

theorem le_MAX_right (a b : Nat) : b ≤ MAX a b := by
  unfold MAX; split_ifs <;> omega

theorem usub_le (a b : Nat) (ha : a < UINT_MOD) (hb : b ≤ a) : usub a b = a - b := by
  unfold usub UINT_MOD at *
  have : b % 4294967296 = b := Nat.mod_eq_of_lt (by omega)
  rw [this]
  omega

theorem walking_same (snap : Nat → Nat) (min step c : Nat) (s : State)
    (h : Walking snap min step c s)
    (he : (probe_read (snap_hardware snap) min c s).1 = s.speeds s.current_speed) :
    Walking snap min step (usub (MAX c min) step)
      (probe_read (snap_hardware snap) min c s).2 := by
  obtain ⟨h1, _, h3, h4, h5, h6, h7⟩ := h
  rw [probe_read_snap] at he
  rw [probe_read_frame]
  have hm : MAX c min ≤ s.written.getLastD 0 := MAX_le _ _ _ h3 h4
  have hm2 : min ≤ MAX c min := le_MAX_right c min
  have hl : (s.written ++ [MAX c min]).getLastD 0 = MAX c min := List.getLastD_concat _ _ _
  refine ⟨h1, ?_, ?_, ?_, h5, ?_, h7⟩
  · show s.speeds s.current_speed = snap ((s.written ++ [MAX c min]).getLastD 0) % UINT_MOD
    rw [hl, he]
  · show usub (MAX c min) step ≤ (s.written ++ [MAX c min]).getLastD 0
    rw [hl, usub_le _ _ (by omega) (by omega)]
    omega
  · show min ≤ (s.written ++ [MAX c min]).getLastD 0
    rw [hl]; exact hm2
  · show (s.written ++ [MAX c min]).getLastD 0 < UINT_MOD
    rw [hl]; omega

theorem walking_store_chain (snap : Nat → Nat)
    (hmono : ∀ a b, a ≤ b → b < UINT_MOD → snap a % UINT_MOD ≤ snap b % UINT_MOD)
    (min step c : Nat) (s : State) (h : Walking snap min step c s)
    (hne : (probe_read (snap_hardware snap) min c s).1 ≠ s.speeds s.current_speed) :
    ∀ i, i < s.current_speed + 1 →
      (probe_store (probe_read (snap_hardware snap) min c s).1
        (probe_read (snap_hardware snap) min c s).2).speeds (i + 1)
      < (probe_store (probe_read (snap_hardware snap) min c s).1
        (probe_read (snap_hardware snap) min c s).2).speeds i := by
  obtain ⟨h1, h2, h3, h4, _, h6, h7⟩ := h
  have hu : uadd s.current_speed 1 = s.current_speed + 1 := by
    unfold uadd UINT_MOD; unfold MAX_SPEEDS at h1; omega
  rw [probe_read_snap] at hne ⊢
  have hle : snap (MAX c min) % UINT_MOD ≤ s.speeds s.current_speed := by
    rw [h2]
    exact hmono _ _ (MAX_le _ _ _ h3 h4) h6
  intro i hi
  show Function.update s.speeds (uadd s.current_speed 1) (snap (MAX c min) % UINT_MOD) (i + 1)
    < Function.update s.speeds (uadd s.current_speed 1) (snap (MAX c min) % UINT_MOD) i
  rw [hu, Function.update_noteq (by omega : i ≠ s.current_speed + 1)]
  by_cases hic : i = s.current_speed
  · subst hic
    rw [Function.update_same]
    omega
  · rw [Function.update_noteq (by omega)]
    exact h7 i (by omega)

theorem walking_store (snap : Nat → Nat)
    (hmono : ∀ a b, a ≤ b → b < UINT_MOD → snap a % UINT_MOD ≤ snap b % UINT_MOD)
    (min step c : Nat) (s : State) (h : Walking snap min step c s)
    (hne : (probe_read (snap_hardware snap) min c s).1 ≠ s.speeds s.current_speed)
    (hnb : uadd (uadd s.current_speed 1) 1 ≠ MAX_SPEEDS) :
    Walking snap min step (usub (MAX c min) step)
      (probe_store (probe_read (snap_hardware snap) min c s).1
        (probe_read (snap_hardware snap) min c s).2) := by
  have hch := walking_store_chain snap hmono min step c s h hne
  obtain ⟨h1, _, h3, h4, h5, h6, _⟩ := h
  have hu : uadd s.current_speed 1 = s.current_speed + 1 := by
    unfold uadd UINT_MOD; unfold MAX_SPEEDS at h1; omega
  have hu2 : uadd (s.current_speed + 1) 1 = s.current_speed + 2 := by
    unfold uadd UINT_MOD; unfold MAX_SPEEDS at h1; omega
  have hm : MAX c min ≤ s.written.getLastD 0 := MAX_le _ _ _ h3 h4
  have hm2 : min ≤ MAX c min := le_MAX_right c min
  have hl : (s.written ++ [MAX c min]).getLastD 0 = MAX c min := List.getLastD_concat _ _ _
  have hcs : (probe_store (probe_read (snap_hardware snap) min c s).1
      (probe_read (snap_hardware snap) min c s).2).current_speed = s.current_speed + 1 := by
    show uadd s.current_speed 1 = _
    exact hu
  have hwr : (probe_store (probe_read (snap_hardware snap) min c s).1
      (probe_read (snap_hardware snap) min c s).2).written = s.written ++ [MAX c min] := rfl
  refine ⟨?_, ?_, ?_, ?_, h5, ?_, ?_⟩
  · rw [hcs]
    rw [hu, hu2] at hnb
    omega
  · rw [hcs, hwr, hl]
    show Function.update s.speeds (uadd s.current_speed 1)
      (probe_read (snap_hardware snap) min c s).1 (s.current_speed + 1) = _
    rw [hu, Function.update_same, probe_read_snap]
  · rw [hwr, hl, usub_le _ _ (by omega) (by omega)]
    omega
  · rw [hwr, hl]; exact hm2
  · rw [hwr, hl]; omega
  · rw [hcs]
    exact hch

theorem probe_down_descending (snap : Nat → Nat)
    (hmono : ∀ a b, a ≤ b → b < UINT_MOD → snap a % UINT_MOD ≤ snap b % UINT_MOD)
    (min step : Nat) :
    ∀ (n c : Nat) (s s2 : State), Walking snap min step c s →
      probe_down (snap_hardware snap) min step n c s = Res.ok s2 →
      ∀ i, i < s2.current_speed → s2.speeds (i + 1) < s2.speeds i := by
  intro n c s s2 hW h
  refine probe_down_rule (snap_hardware snap) min step (Walking snap min step)
    (fun s => ∀ i, i < s.current_speed → s.speeds (i + 1) < s.speeds i)
    ?_ ?_ ?_ ?_ n c s s2 hW h
  · intro c s hP _
    exact hP.2.2.2.2.2.2
  · intro c s hP _ he
    exact walking_same snap min step c s hP he
  · intro c s hP _ hne _
    have hch := walking_store_chain snap hmono min step c s hP hne
    have hu : uadd s.current_speed 1 = s.current_speed + 1 := by
      have h1 := hP.1
      unfold uadd UINT_MOD; unfold MAX_SPEEDS at h1; omega
    intro i hi
    apply hch
    have : (probe_store (probe_read (snap_hardware snap) min c s).1
      (probe_read (snap_hardware snap) min c s).2).current_speed = uadd s.current_speed 1 := rfl
    rw [this, hu] at hi
    exact hi
  · intro c s hP _ hne hnb
    exact walking_store snap hmono min step c s hP hne hnb

theorem pass_start_walking (snap : Nat → Nat) (max min step : Nat) (s : State)
    (hmax : max < UINT_MOD) (hlt : ¬ max ≤ MAX min step) :
    Walking snap (MAX min step) step (usub max step)
      (pass_start (snap_hardware snap) max s) := by
  have h1 : step ≤ MAX min step := le_MAX_right min step
  have hl : (s.written ++ [max]).getLastD 0 = max := List.getLastD_concat _ _ _
  have hwr : (pass_start (snap_hardware snap) max s).written = s.written ++ [max] := rfl
  refine ⟨by unfold MAX_SPEEDS; show 0 + 1 < 15; omega, ?_, ?_, ?_, h1, ?_, ?_⟩
  · rw [hwr, hl]
    show Function.update s.speeds 0 (snap ((s.written ++ [max]).getLastD 0) % UINT_MOD) 0 = _
    rw [Function.update_same, hl]
  · rw [hwr, hl, usub_le _ _ hmax (by omega)]
    omega
  · rw [hwr, hl]; omega
  · rw [hwr, hl]; exact hmax
  · intro i hi
    exact absurd hi (Nat.not_lt_zero i)

/-- On hardware that reads back a monotone function of the last request, each
step of the returned table lies below the step before it. -/
theorem step_loop_descending (snap : Nat → Nat)
    (hmono : ∀ a b, a ≤ b → b < UINT_MOD → snap a % UINT_MOD ≤ snap b % UINT_MOD)
    (max : Nat) (hmax : max < UINT_MOD) :
    ∀ (n step min : Nat) (s s2 : State),
      step_loop (snap_hardware snap) max n step min s = Res.ok s2 →
      ∀ i, i < s2.last_step → s2.speeds (i + 1) < s2.speeds i := by
  intro n step min s s2 h
  refine step_loop_rule (snap_hardware snap) max (fun _ => True)
    (fun s => ∀ i, i < s.last_step → s.speeds (i + 1) < s.speeds i)
    ?_ ?_ n step min s s2 trivial h
  · intros; trivial
  · intro step min s sr sp _ _ hlt _ hp hne
    have hch := probe_down_descending snap hmono (MAX min step) step _ _ _ _
      (pass_start_walking snap max min step sr hmax hlt) hp
    have hrec := probe_down_recording (snap_hardware snap) (MAX min step) step sr.stored
      _ _ _ _ (pass_start_recording (snap_hardware snap) max sr)
      (by unfold MAX_SPEEDS; show 0 + 1 < 15; omega) hp
    have hle := hrec.1
    have hu : uadd sp.current_speed 1 = sp.current_speed + 1 := by
      unfold uadd UINT_MOD; unfold MAX_SPEEDS at hle; omega
    intro i hi
    have hi2 : i < sp.current_speed := hi
    show Function.update sp.speeds (uadd sp.current_speed 1) 0 (i + 1)
      < Function.update sp.speeds (uadd sp.current_speed 1) 0 i
    rw [hu, Function.update_noteq (by omega), Function.update_noteq (by omega)]
    exact hch i hi2

theorem descending_of_chain (f : Nat → Nat) (n : Nat) (h : ∀ i, i < n → f (i + 1) < f i) :
    ∀ j i, i < j → j ≤ n → f j < f i := by
  intro j
  induction j with
  | zero => intro i hi _; exact absurd hi (Nat.not_lt_zero i)
  | succ j ih =>
    intro i hi hj
    have h1 := h j (by omega)
    by_cases hij : i = j
    · subst hij; exact h1
    · have := ih i (by omega) (by omega)
      omega

theorem MIN_le_left (a b : Nat) : MIN a b ≤ a := by
  unfold MIN; split_ifs <;> omega

/-! ## Forced and derived states -/

theorem alarm_handler_max (cfg : Config) (env : Env) (s s1 : State)
    (hp : policy_state cfg env s = Res.ok (Mode.SPEED_MAX, s1))
    (hc : s.current_speed < UINT_MOD) :
    ∃ s2, alarm_handler cfg env s = Res.ok s2 ∧ s2.current_speed = 0 ∧ s2.mode = s.mode := by
  obtain ⟨ws, hws⟩ := alarm_handler_of_policy cfg env s s1 _ hp hc
    (by show 0 < UINT_MOD; unfold UINT_MOD; omega)
  exact ⟨_, hws, rfl, alarm_handler_mode cfg env s _ hws⟩

theorem alarm_handler_min (cfg : Config) (env : Env) (s s1 : State)
    (hp : policy_state cfg env s = Res.ok (Mode.SPEED_MIN, s1))
    (hc : s.current_speed < UINT_MOD) (hl : s.last_step < UINT_MOD) :
    ∃ s2, alarm_handler cfg env s = Res.ok s2 ∧ s2.current_speed = s.last_step ∧
      s2.mode = s.mode := by
  have h1 := policy_state_frame cfg env s s1 _ hp
  have hl1 : s1.last_step = s.last_step := by rw [h1]
  obtain ⟨ws, hws⟩ := alarm_handler_of_policy cfg env s s1 _ hp hc
    (by show s1.last_step < UINT_MOD; rw [hl1]; exact hl)
  exact ⟨_, hws, hl1, alarm_handler_mode cfg env s _ hws⟩

theorem alarm_handler_died (cfg : Config) (env : Env) (s : State)
    (hp : policy_state cfg env s = Res.died) : alarm_handler cfg env s = Res.died := by
  unfold alarm_handler
  rw [hp]
  rfl

theorem read_ac_check_therm (cfg : Config) (env : Env) (s : State) :
    (read_ac cfg env s).check_therm = s.check_therm := by
  rw [read_ac_frame]

/-! ## The claims -/

/-- C1: `set_speed(current, target)` for two table indices up to `last_step`
returns after writing exactly the entries `speeds[current + 1], ..., speeds[target]`
when going up and `speeds[current - 1], ..., speeds[target]` when going down, in
this order: one index per write, the last write being `speeds[target]`, and no
write at all when `current = target`. -/
theorem set_speed_ramp_unit_steps (s : State) (current target : Nat)
    (hl : s.last_step < UINT_MOD) (hc : current ≤ s.last_step) (ht : target ≤ s.last_step) :
    ∃ ws : List Nat,
      set_speed_to current target s = Res.ok { s with written := s.written ++ ws } ∧
      (current ≤ target →
        ws = (List.range (target - current)).map fun k => s.speeds (current + (k + 1))) ∧
      (target ≤ current →
        ws = (List.range (current - target)).map fun k => s.speeds (current - (k + 1))) ∧
      ws.length = (if current ≤ target then target - current else current - target) ∧
      (current ≠ target → ws.getLast? = some (s.speeds target)) := by
  rcases Nat.lt_trichotomy current target with h | h | h
  · refine ⟨_, set_speed_to_up current target s h (by omega), fun _ => rfl,
      fun h2 => absurd h2 (by omega), ?_, fun _ => ?_⟩
    · rw [if_pos (by omega)]; simp
    · obtain ⟨d, rfl⟩ : ∃ d, target = current + (d + 1) := ⟨target - current - 1, by omega⟩
      have e : current + (d + 1) - current = d + 1 := by omega
      rw [e, List.range_succ, List.map_append, List.map_cons, List.map_nil,
        List.getLast?_concat]
  · subst h
    refine ⟨[], by simp [set_speed_to], fun _ => by simp, fun _ => by simp, by simp,
      fun h2 => absurd rfl h2⟩
  · refine ⟨_, set_speed_to_down current target s h (by omega),
      fun h2 => absurd h2 (by omega), fun _ => rfl, ?_, fun _ => ?_⟩
    · rw [if_neg (by omega)]; simp
    · obtain ⟨d, rfl⟩ : ∃ d, current = target + (d + 1) := ⟨current - target - 1, by omega⟩
      have e : target + (d + 1) - target = d + 1 := by omega
      have e2 : target + (d + 1) - (d + 1) = target := by omega
      rw [e, List.range_succ, List.map_append, List.map_cons, List.map_nil,
        List.getLast?_concat, e2]

/-- C1 at the six-step table, from index 1 to index 4. -/
theorem set_speed_ramp_unit_steps_witness :
    (six_steps.last_step < UINT_MOD ∧ 1 ≤ six_steps.last_step ∧ 4 ≤ six_steps.last_step) ∧
    ∃ ws : List Nat,
      set_speed_to 1 4 six_steps = Res.ok { six_steps with written := six_steps.written ++ ws } ∧
      (1 ≤ 4 → ws = (List.range (4 - 1)).map fun k => six_steps.speeds (1 + (k + 1))) ∧
      (4 ≤ 1 → ws = (List.range (1 - 4)).map fun k => six_steps.speeds (1 - (k + 1))) ∧
      ws.length = (if 1 ≤ 4 then 4 - 1 else 1 - 4) ∧
      (1 ≠ 4 → ws.getLast? = some (six_steps.speeds 4)) :=
  ⟨by decide, set_speed_ramp_unit_steps six_steps 1 4 (by decide) (by decide) (by decide)⟩

/-- C2: in effective `SPEED_DYNAMIC` state with the load check due, for a domain of
one core or more (so of 1 to 8 cores), the evaluation returns with `current_speed`
equal to the minimum of the entries of `wanted_speed`, one entry per core: it is
one of them and no entry is below it.  The index is taken below `INT_MAX`, as
every table index is, so that the subtraction of `icomp` stays in range. -/
theorem domain_target_is_least_wanted (cfg : Config) (env : Env) (s s1 : State)
    (hp : policy_state cfg env s = Res.ok (Mode.SPEED_DYNAMIC, s1))
    (hcpu : s.check_cpu = true) (hn1 : 1 ≤ cfg.num_tied_cores)
    (hc : s.current_speed < 2147483647) :
    ∃ s2, alarm_handler cfg env s = Res.ok s2 ∧
      s2.current_speed ∈ wanted_speeds cfg env s ∧
      (∀ w ∈ wanted_speeds cfg env s, s2.current_speed ≤ w) ∧
      (wanted_speeds cfg env s).length = cfg.num_tied_cores := by
  obtain ⟨s2, h1, h2, h3⟩ := alarm_handler_dynamic cfg env s s1 hp hcpu hn1 (by omega)
  exact ⟨s2, h1, h2, h3, by simp [wanted_speeds]⟩

/-- C2 at a domain of two cores, one busy and one idle. -/
theorem domain_target_is_least_wanted_witness :
    (policy_state cfg_two_cores env_hot { six_steps with check_cpu := true }
        = Res.ok (Mode.SPEED_DYNAMIC, { six_steps with check_cpu := true }) ∧
      1 ≤ cfg_two_cores.num_tied_cores ∧ cfg_two_cores.num_tied_cores ≤ MAX_TIED_CORES ∧
      six_steps.current_speed < 2147483647) ∧
    ∃ s2, alarm_handler cfg_two_cores env_hot { six_steps with check_cpu := true } = Res.ok s2 ∧
      s2.current_speed ∈ wanted_speeds cfg_two_cores env_hot { six_steps with check_cpu := true } ∧
      (∀ w ∈ wanted_speeds cfg_two_cores env_hot { six_steps with check_cpu := true },
        s2.current_speed ≤ w) ∧
      (wanted_speeds cfg_two_cores env_hot { six_steps with check_cpu := true }).length
        = cfg_two_cores.num_tied_cores :=
  ⟨⟨rfl, by decide, by decide, by decide⟩,
    domain_target_is_least_wanted cfg_two_cores env_hot { six_steps with check_cpu := true }
      { six_steps with check_cpu := true } rfl rfl (by decide) (by decide)⟩

/-- C4 as stated fails: on hardware that reads back 0 for one request, discovery
returns the table 1050000, 0, 1000000 with `last_step = 2`; at index 0 a core
that is 90% idle keeps index 0, where the claim gives index 1. -/
theorem wanted_speed_stops_at_zero_entry :
    get_supported_speeds cpu_zero Config.default State.init = Res.ok zero_table ∧
    zero_table.last_step = 2 ∧
    zero_table.speeds 0 = 1050000 ∧ zero_table.speeds 1 = 0 ∧ zero_table.speeds 2 = 1000000 ∧
    idle_percent_of 100 90 = 90 ∧
    Config.default.clock_up_idle_fast < 90 ∧
    wanted_speed_of Config.default { zero_table with current_speed := 0 } 100 90 = 0 ∧
    spec_desired_index Config.default.idle_threshold 0 zero_table.last_step 90 = 1 :=
  ⟨rfl, by decide, by decide, by decide, by decide, by decide, by decide, by decide, by decide⟩

/-- C4, amended: for every table that discovery returns in which no recorded step
after the first is 0 KHz, every index `current ≤ last_step` and every sample with
`elapsed_time > 0` whose idle percentage is above the fast-up threshold, the
entry of `wanted_speed` is the index that the specification words. -/
theorem wanted_speed_follows_thresholds (cpu : Cpufreq) (cfg0 cfg : Config) (s0 t : State)
    (current elapsed_time idle_time : Nat)
    (hd : get_supported_speeds cpu cfg0 s0 = Res.ok t)
    (hnz : ∀ i, 0 < i → i ≤ t.last_step → t.speeds i ≠ 0)
    (hc : current ≤ t.last_step) (he : 0 < elapsed_time)
    (hf : cfg.clock_up_idle_fast < idle_percent_of elapsed_time idle_time) :
    wanted_speed_of cfg { t with current_speed := current } elapsed_time idle_time =
      spec_desired_index cfg.idle_threshold current t.last_step
        (idle_percent_of elapsed_time idle_time) := by
  obtain ⟨hlt, _, hz, _, _⟩ := get_supported_speeds_discovered cpu cfg0 s0 t hd
  have hu : uadd current 1 = current + 1 := by
    unfold uadd UINT_MOD; unfold MAX_SPEEDS at hlt; omega
  have hiff : t.speeds (current + 1) ≠ 0 ↔ current < t.last_step := by
    constructor
    · intro h
      by_contra hn
      have : current = t.last_step := by omega
      rw [this] at h
      exact h hz
    · intro h
      exact hnz (current + 1) (by omega) (by omega)
  unfold wanted_speed_of spec_desired_index
  simp only [gt_iff_lt, he, if_true, not_le.mpr hf, if_false, hu, hiff]
  split_ifs with h1
  · exact usub_le current 1 (by unfold UINT_MOD; unfold MAX_SPEEDS at hlt; omega) (by omega)
  · rfl
  · rfl

/-- C4, amended, at the table discovered on the plain file: the scenario of the
specification, idle 90, threshold 25, index 2, `last_step` 5, gives index 3. -/
theorem wanted_speed_follows_thresholds_witness :
    (get_supported_speeds cpu_plain Config.default State.init = Res.ok plain_table ∧
      (∀ i, 0 < i → i ≤ plain_table.last_step → plain_table.speeds i ≠ 0) ∧
      2 ≤ plain_table.last_step ∧ 0 < 100 ∧
      Config.default.clock_up_idle_fast < idle_percent_of 100 90) ∧
    plain_table.last_step = 5 ∧ idle_percent_of 100 90 = 90 ∧
    spec_desired_index Config.default.idle_threshold 2 plain_table.last_step
      (idle_percent_of 100 90) = 3 ∧
    wanted_speed_of Config.default { plain_table with current_speed := 2 } 100 90 =
      spec_desired_index Config.default.idle_threshold 2 plain_table.last_step
        (idle_percent_of 100 90) := by
  have hls : plain_table.last_step = 5 := by decide
  have hnz : ∀ i, 0 < i → i ≤ plain_table.last_step → plain_table.speeds i ≠ 0 := by
    intro i h1 h2
    rw [hls] at h2
    interval_cases i <;> decide
  exact ⟨⟨rfl, hnz, by decide, by decide, by decide⟩, hls, by decide, by decide,
    wanted_speed_follows_thresholds cpu_plain Config.default Config.default State.init
      plain_table 2 100 90 rfl hnz (by decide) (by decide) (by decide)⟩

/-- C5: in effective `SPEED_DYNAMIC` state with the load check due, if some core of
the domain has `elapsed_time > 0` and an idle percentage at or below the fast-up
threshold, the evaluation returns with index 0, whatever the prior index, the
general threshold and the readings of the other cores.  The prior index is taken
below `INT_MAX`, as every table index is. -/
theorem busy_core_forces_fastest (cfg : Config) (env : Env) (s s1 : State) (i : Nat)
    (hp : policy_state cfg env s = Res.ok (Mode.SPEED_DYNAMIC, s1))
    (hcpu : s.check_cpu = true) (hc : s.current_speed < 2147483647)
    (hi : i < cfg.num_tied_cores)
    (he : 0 < (core_sample cfg env s i).1)
    (hb : idle_percent_of (core_sample cfg env s i).1 (core_sample cfg env s i).2
      ≤ cfg.clock_up_idle_fast) :
    ∃ s2, alarm_handler cfg env s = Res.ok s2 ∧ s2.current_speed = 0 := by
  obtain ⟨s2, h1, _, h3⟩ := alarm_handler_dynamic cfg env s s1 hp hcpu (by omega) (by omega)
  refine ⟨s2, h1, ?_⟩
  have hw : wanted_speed_of cfg s (core_sample cfg env s i).1 (core_sample cfg env s i).2
      = 0 := by
    unfold wanted_speed_of
    simp only [gt_iff_lt, he, if_true, hb]
  have hmem : (0 : Nat) ∈ wanted_speeds cfg env s := by
    unfold wanted_speeds
    exact List.mem_map.mpr ⟨i, List.mem_range.mpr hi, hw⟩
  have := h3 0 hmem
  omega

/-- C5 at a domain of two cores of which core 0 is 2% idle. -/
theorem busy_core_forces_fastest_witness :
    (policy_state cfg_two_cores env_hot { six_steps with check_cpu := true }
        = Res.ok (Mode.SPEED_DYNAMIC, { six_steps with check_cpu := true }) ∧
      six_steps.current_speed < 2147483647 ∧ 0 < cfg_two_cores.num_tied_cores ∧
      0 < (core_sample cfg_two_cores env_hot { six_steps with check_cpu := true } 0).1 ∧
      idle_percent_of (core_sample cfg_two_cores env_hot { six_steps with check_cpu := true } 0).1
        (core_sample cfg_two_cores env_hot { six_steps with check_cpu := true } 0).2
        ≤ cfg_two_cores.clock_up_idle_fast) ∧
    ∃ s2, alarm_handler cfg_two_cores env_hot { six_steps with check_cpu := true } = Res.ok s2 ∧
      s2.current_speed = 0 :=
  ⟨⟨rfl, by decide, by decide, by decide, by decide⟩,
    busy_core_forces_fastest cfg_two_cores env_hot { six_steps with check_cpu := true }
      { six_steps with check_cpu := true } 0 rfl rfl (by decide) (by decide) (by decide)
      (by decide)⟩

/-- C6: in `SPEED_DYNAMIC` mode, when `on_ac` as last read is false and
`min_speed_on_battery` is set, the evaluation returns with index `last_step`,
whatever the counters, the due flags and `max_speed_on_ac`. -/
theorem battery_forces_slowest (cfg : Config) (env : Env) (s : State)
    (hm : s.mode = Mode.SPEED_DYNAMIC) (hb : cfg.min_speed_on_battery = true)
    (hoff : (read_ac cfg env s).on_ac = false)
    (hc : s.current_speed < UINT_MOD) (hl : s.last_step < UINT_MOD) :
    ∃ s2, alarm_handler cfg env s = Res.ok s2 ∧ s2.current_speed = s.last_step := by
  have hp : policy_state cfg env s = Res.ok (Mode.SPEED_MIN, read_ac cfg env s) := by
    simp [policy_state, hm, hoff, hb]
  obtain ⟨s2, h1, h2, _⟩ := alarm_handler_min cfg env s _ hp hc hl
  exact ⟨s2, h1, h2⟩

/-- C6 at a machine whose power-source file reads off-line on a tick where the
power check is due. -/
theorem battery_forces_slowest_witness :
    (six_steps.mode = Mode.SPEED_DYNAMIC ∧ cfg_ac.min_speed_on_battery = true ∧
      (read_ac cfg_ac env_hot { six_steps with check_ac := true, check_cpu := true }).on_ac
        = false ∧
      six_steps.current_speed < UINT_MOD ∧ six_steps.last_step < UINT_MOD) ∧
    ∃ s2, alarm_handler cfg_ac env_hot { six_steps with check_ac := true, check_cpu := true }
        = Res.ok s2 ∧ s2.current_speed = six_steps.last_step :=
  ⟨⟨by decide, by decide, by decide, by decide, by decide⟩,
    battery_forces_slowest cfg_ac env_hot { six_steps with check_ac := true, check_cpu := true }
      (by decide) (by decide) (by decide) (by decide) (by decide)⟩

/-- C7 as stated fails: with `max_speed_on_ac` set, the power source connected
and the thermal check due, a reading of 95 above the limit of 70 makes the
effective state `SPEED_MIN` and the index `last_step = 5`, not 0. -/
theorem max_on_ac_yields_to_thermal :
    six_steps_due.mode = Mode.SPEED_DYNAMIC ∧
    cfg_thermal_max_on_ac.max_speed_on_ac = true ∧
    (read_ac cfg_thermal_max_on_ac env_hot_mains
      six_steps_due).on_ac = true ∧
    (strpbrk_digits env_hot_mains.temperature_line.toList).map strtol_digits = some 95 ∧
    cfg_thermal_max_on_ac.max_temperature = 70 ∧
    (policy_state cfg_thermal_max_on_ac env_hot_mains
      six_steps_due).returned.map (fun p => p.1)
      = some Mode.SPEED_MIN ∧
    (alarm_handler cfg_thermal_max_on_ac env_hot_mains
      six_steps_due).returned.map
        (fun s2 => s2.current_speed) = some 5 ∧
    (alarm_handler cfg_thermal_max_on_ac env_hot_mains
      six_steps_due).returned.map
        (fun s2 => s2.current_speed) ≠ some 0 :=
  ⟨by decide, by decide, by decide, by decide, by decide, by decide, by decide, by decide⟩

/-- C7, amended: in `SPEED_DYNAMIC` mode the power rules come first and the thermal
rule after them, on every tick where it is due unless the battery rule has chosen
`SPEED_MIN`.  With `max_speed_on_ac` set and the power source connected the state
is `SPEED_MAX` and the index 0, unless the thermal check is due and reads above
the limit, which gives `SPEED_MIN` and `last_step` (or no digit, which dies).
On battery with `min_speed_on_battery` the state is `SPEED_MIN` and the index
`last_step` whatever the temperature file holds.  With neither power rule the
thermal check, when due, gives `SPEED_MIN` above the limit and `SPEED_DYNAMIC`
otherwise. -/
theorem power_rules_then_thermal (cfg : Config) (env : Env) (s : State)
    (hm : s.mode = Mode.SPEED_DYNAMIC) (hc : s.current_speed < UINT_MOD)
    (hl : s.last_step < UINT_MOD) :
    if cfg.max_speed_on_ac = true ∧ (read_ac cfg env s).on_ac = true then
      (if cfg.temperature_filename.isSome = true ∧ s.check_therm = true then
        (match strpbrk_digits env.temperature_line.toList with
          | none => alarm_handler cfg env s = Res.died
          | some p =>
            if strtol_digits p > cfg.max_temperature then
              policy_state cfg env s = Res.ok (Mode.SPEED_MIN, read_ac cfg env s) ∧
              ∃ s2, alarm_handler cfg env s = Res.ok s2 ∧ s2.current_speed = s.last_step
            else
              policy_state cfg env s = Res.ok (Mode.SPEED_MAX, read_ac cfg env s) ∧
              ∃ s2, alarm_handler cfg env s = Res.ok s2 ∧ s2.current_speed = 0)
       else
        policy_state cfg env s = Res.ok (Mode.SPEED_MAX, read_ac cfg env s) ∧
        ∃ s2, alarm_handler cfg env s = Res.ok s2 ∧ s2.current_speed = 0)
    else if (read_ac cfg env s).on_ac = false ∧ cfg.min_speed_on_battery = true then
      policy_state cfg env s = Res.ok (Mode.SPEED_MIN, read_ac cfg env s) ∧
      ∃ s2, alarm_handler cfg env s = Res.ok s2 ∧ s2.current_speed = s.last_step
    else
      (if cfg.temperature_filename.isSome = true ∧ s.check_therm = true then
        (match strpbrk_digits env.temperature_line.toList with
          | none => alarm_handler cfg env s = Res.died
          | some p =>
            if strtol_digits p > cfg.max_temperature then
              policy_state cfg env s = Res.ok (Mode.SPEED_MIN, read_ac cfg env s) ∧
              ∃ s2, alarm_handler cfg env s = Res.ok s2 ∧ s2.current_speed = s.last_step
            else policy_state cfg env s = Res.ok (Mode.SPEED_DYNAMIC, read_ac cfg env s))
       else policy_state cfg env s = Res.ok (Mode.SPEED_DYNAMIC, read_ac cfg env s)) := by
  have hct := read_ac_check_therm cfg env s
  have kmin : policy_state cfg env s = Res.ok (Mode.SPEED_MIN, read_ac cfg env s) →
      policy_state cfg env s = Res.ok (Mode.SPEED_MIN, read_ac cfg env s) ∧
      ∃ s2, alarm_handler cfg env s = Res.ok s2 ∧ s2.current_speed = s.last_step := by
    intro hp
    obtain ⟨s2, h1, h2, _⟩ := alarm_handler_min cfg env s _ hp hc hl
    exact ⟨hp, s2, h1, h2⟩
  have kmax : policy_state cfg env s = Res.ok (Mode.SPEED_MAX, read_ac cfg env s) →
      policy_state cfg env s = Res.ok (Mode.SPEED_MAX, read_ac cfg env s) ∧
      ∃ s2, alarm_handler cfg env s = Res.ok s2 ∧ s2.current_speed = 0 := by
    intro hp
    obtain ⟨s2, h1, h2, _⟩ := alarm_handler_max cfg env s _ hp hc
    exact ⟨hp, s2, h1, h2⟩
  split_ifs with h1 h2 h3 h4
  · -- maximise rule, thermal check due
    split
    · rename_i hd
      have hd2 : strpbrk_digits env.temperature_line.data = none := hd
      apply alarm_handler_died
      simp [policy_state, hm, h1.1, h1.2, h2.1, hct, h2.2, hd2]
    · rename_i p hd
      have hd2 : strpbrk_digits env.temperature_line.data = some p := hd
      split_ifs with h5
      · apply kmin
        simp [policy_state, hm, h1.1, h1.2, h2.1, hct, h2.2, hd2, h5]
      · apply kmax
        simp [policy_state, hm, h1.1, h1.2, h2.1, hct, h2.2, hd2, h5]
  · -- maximise rule, thermal check not due
    apply kmax
    have h2b : ¬ (cfg.temperature_filename.isSome = true ∧ (read_ac cfg env s).check_therm = true
        ∧ Mode.SPEED_MAX ≠ Mode.SPEED_MIN) := by
      rw [hct]
      intro h
      exact h2 ⟨h.1, h.2.1⟩
    simp only [policy_state, hm, if_true, h1.1, h1.2, and_self, h2b, if_false]
  · -- battery rule
    apply kmin
    simp [policy_state, hm, h3.1, h3.2]
  · -- neither power rule
    have hno1 : ¬ (cfg.max_speed_on_ac = true ∧ (read_ac cfg env s).on_ac = true) := h1
    have hno2 : ¬ ((read_ac cfg env s).on_ac = false ∧ cfg.min_speed_on_battery = true) := h3
    split
    · rename_i hd
      have hd2 : strpbrk_digits env.temperature_line.data = none := hd
      apply alarm_handler_died
      simp only [policy_state, hm, if_true, hno1, hno2, if_false, hct, h4.1, h4.2, hd]
      simp [hd2]
    · rename_i p hd
      have hd2 : strpbrk_digits env.temperature_line.data = some p := hd
      split_ifs with h5
      · apply kmin
        simp only [policy_state, hm, if_true, hno1, hno2, if_false, hct, h4.1, h4.2, hd]
        simp [h5, hd2]
      · simp only [policy_state, hm, if_true, hno1, hno2, if_false, hct, h4.1, h4.2, hd]
        simp [h5, hd2]
  · have h4b : ¬ (cfg.temperature_filename.isSome = true ∧ (read_ac cfg env s).check_therm = true
        ∧ Mode.SPEED_DYNAMIC ≠ Mode.SPEED_MIN) := by
      rw [hct]
      intro h
      exact h4 ⟨h.1, h.2.1⟩
    have hno1 : ¬ (cfg.max_speed_on_ac = true ∧ (read_ac cfg env s).on_ac = true) := h1
    have hno2 : ¬ ((read_ac cfg env s).on_ac = false ∧ cfg.min_speed_on_battery = true) := h3
    simp only [policy_state, hm, if_true, hno1, hno2, if_false, h4b]

/-- C7, amended, on mains power with `max_speed_on_ac` on a tick where the thermal
check is due and reads 45, below the limit of 70: the state is `SPEED_MAX` and
the index 0. -/
theorem power_rules_then_thermal_witness :
    (six_steps_due.mode = Mode.SPEED_DYNAMIC ∧ six_steps_due.current_speed < UINT_MOD ∧
      six_steps_due.last_step < UINT_MOD) ∧
    (cfg_thermal_max_on_ac.max_speed_on_ac = true ∧
      (read_ac cfg_thermal_max_on_ac env_idle six_steps_due).on_ac = true ∧
      cfg_thermal_max_on_ac.temperature_filename.isSome = true ∧
      six_steps_due.check_therm = true ∧
      strpbrk_digits env_idle.temperature_line.toList = some "45 C".toList ∧
      strtol_digits "45 C".toList = 45 ∧ cfg_thermal_max_on_ac.max_temperature = 70) ∧
    policy_state cfg_thermal_max_on_ac env_idle six_steps_due
      = Res.ok (Mode.SPEED_MAX, read_ac cfg_thermal_max_on_ac env_idle six_steps_due) ∧
    ∃ s2, alarm_handler cfg_thermal_max_on_ac env_idle six_steps_due = Res.ok s2 ∧
      s2.current_speed = 0 := by
  have hd : strpbrk_digits env_idle.temperature_line.toList = some "45 C".toList := by decide
  have h := power_rules_then_thermal cfg_thermal_max_on_ac env_idle six_steps_due (by decide)
    (by decide) (by decide)
  rw [if_pos (by decide), if_pos (by decide), hd] at h
  simp only at h
  rw [if_neg (by decide)] at h
  exact ⟨⟨by decide, by decide, by decide⟩,
    ⟨by decide, by decide, by decide, by decide, hd, by decide, by decide⟩, h⟩

/-- C8 fails on the code.  With a thermal limit of 70 and the file reading 95: on a
tick where the thermal check is due the index goes to `last_step = 5`; on the
next tick, where only the load check is due and the file still reads 95, a busy
core takes the index to 0; and after `hup_handler`, from forced minimum, the
evaluation it raises takes the index to 0 as well. -/
theorem thermal_limit_unread_when_not_due :
    cfg_thermal.max_temperature = 70 ∧
    (strpbrk_digits env_hot_mains.temperature_line.toList).map strtol_digits = some 95 ∧
    six_steps_due.last_step = 5 ∧
    (alarm_handler cfg_thermal env_hot_mains six_steps_due).returned.map
      (fun s2 => s2.current_speed) = some 5 ∧
    (alarm_handler cfg_thermal env_hot_mains
      { six_steps with current_speed := 5, check_cpu := true }).returned.map
      (fun s2 => s2.current_speed) = some 0 ∧
    (hup_handler cfg_thermal env_hot_mains env_hot_mains_later
      { six_steps with current_speed := 5, mode := Mode.SPEED_MIN }).returned.map
      (fun s2 => s2.current_speed) = some 0 :=
  ⟨by decide, by decide, by decide, by decide, by decide, by decide⟩

/-- C9 as stated fails: on hardware that reads back 1.0 GHz for the request of
1.025 GHz and 1.025 GHz for the request of 1.0 GHz, discovery returns the table
1050000, 1000000, 1025000, whose step 1 is below its step 2. -/
theorem swapped_readbacks_break_descent :
    get_supported_speeds cpu_swapped Config.default State.init = Res.ok swapped_table ∧
    swapped_table.last_step = 2 ∧
    swapped_table.speeds 0 = 1050000 ∧ swapped_table.speeds 1 = 1000000 ∧
    swapped_table.speeds 2 = 1025000 ∧
    ¬ (swapped_table.speeds 1 > swapped_table.speeds 2) :=
  ⟨rfl, by decide, by decide, by decide, by decide, by decide⟩

/-- C9, amended: on hardware that reads back a non-decreasing function `snap` of
the frequency last requested, every table that `get_supported_speeds` returns is
strictly descending: `speeds[i].khz > speeds[j].khz` for all `i < j ≤ last_step`. -/
theorem speeds_descend_on_monotone_hardware (cpu : Cpufreq) (cfg : Config) (s0 s : State)
    (snap : Nat → Nat) (h : get_supported_speeds cpu cfg s0 = Res.ok s)
    (hs : cpu.scaling_setspeed = snap_hardware snap)
    (hmono : ∀ a b, a ≤ b → b < UINT_MOD → snap a % UINT_MOD ≤ snap b % UINT_MOD) :
    ∀ i j, i < j → j ≤ s.last_step → s.speeds i > s.speeds j := by
  unfold get_supported_speeds at h
  rw [hs] at h
  have hmax : MIN (cpu.scaling_max_freq % UINT_MOD) cfg.max_speed < UINT_MOD :=
    lt_of_le_of_lt (MIN_le_left _ _) (Nat.mod_lt _ (by unfold UINT_MOD; omega))
  have hch := step_loop_descending snap hmono _ hmax _ _ _ _ _ h
  intro i j hij hj
  exact descending_of_chain s.speeds s.last_step hch j i hij hj

/-- C9, amended, at the plain file that reads back what was written. -/
theorem speeds_descend_on_monotone_hardware_witness :
    (get_supported_speeds cpu_plain Config.default State.init = Res.ok plain_table ∧
      cpu_plain.scaling_setspeed = snap_hardware (fun v => v) ∧
      (∀ a b, a ≤ b → b < UINT_MOD → a % UINT_MOD ≤ b % UINT_MOD)) ∧
    plain_table.last_step = 5 ∧
    ∀ i j, i < j → j ≤ plain_table.last_step → plain_table.speeds i > plain_table.speeds j := by
  have hmono : ∀ a b, a ≤ b → b < UINT_MOD → a % UINT_MOD ≤ b % UINT_MOD := by
    intro a b hab hb
    rw [Nat.mod_eq_of_lt hb, Nat.mod_eq_of_lt (by omega)]
    exact hab
  exact ⟨⟨rfl, rfl, hmono⟩, by decide,
    speeds_descend_on_monotone_hardware cpu_plain Config.default State.init plain_table
      (fun v => v) rfl rfl hmono⟩

/-- C10: whenever `get_supported_speeds` returns, `last_step + 1 ≤ MAX_SPEEDS`,
`last_step` is the index of the last recorded step, the accepted pass stored the
entries `0, ..., last_step` and then the terminator `speeds[last_step + 1].khz = 0`,
and every index stored during the call, abandoned passes included, is below
`MAX_SPEEDS + 1 = 16`. -/
theorem discovered_table_fits (cpu : Cpufreq) (cfg : Config) (s0 s : State)
    (h : get_supported_speeds cpu cfg s0 = Res.ok s) :
    s.last_step + 1 ≤ MAX_SPEEDS ∧
    s.last_step = s.current_speed ∧
    s.speeds (s.last_step + 1) = 0 ∧
    ∃ pre, s.stored = s0.stored ++ pre ++ List.range (s.last_step + 2) ∧
      ∀ i ∈ pre ++ List.range (s.last_step + 2), i < MAX_SPEEDS + 1 := by
  obtain ⟨h1, h2, h3, _, h5⟩ := get_supported_speeds_discovered cpu cfg s0 s h
  exact ⟨by omega, h2, h3, h5⟩

/-- C10 at a plain file with 41 steps of 25 MHz: the passes at 25 MHz and 50 MHz
are abandoned after 15 recorded steps each and the pass at 100 MHz is accepted
with 11 steps. -/
theorem discovered_table_fits_witness :
    get_supported_speeds cpu_wide Config.default State.init = Res.ok wide_table ∧
    wide_table.stored = List.range 15 ++ List.range 15 ++ List.range 12 ∧
    wide_table.last_step = 10 ∧
    wide_table.last_step + 1 ≤ MAX_SPEEDS ∧
    wide_table.last_step = wide_table.current_speed ∧
    wide_table.speeds (wide_table.last_step + 1) = 0 ∧
    ∃ pre, wide_table.stored = State.init.stored ++ pre ++ List.range (wide_table.last_step + 2) ∧
      ∀ i ∈ pre ++ List.range (wide_table.last_step + 2), i < MAX_SPEEDS + 1 :=
  ⟨rfl, by decide, by decide,
    discovered_table_fits cpu_wide Config.default State.init wide_table rfl⟩

/-! ## Facts about the downward walk -/

theorem MAX_lt (a b x : Nat) (ha : a < x) (hb : b < x) : MAX a b < x := by
  unfold MAX; split_ifs <;> omega

/-- The walk returns once it is given as many iterations as there are requests:
`m` with `c + g ≤ min + m * g`. -/
theorem probe_down_returns (hw : Hardware) (min g : Nat) (hg : g ≤ min)
    (hmin : min < UINT_MOD) :
    ∀ (m n c : Nat) (s : State), m ≤ n → c < UINT_MOD → c + g ≤ min + m * g →
      ∃ sp, probe_down hw min g (n + 1) c s = Res.ok sp := by
  intro m
  induction m with
  | zero =>
    intro n c s _ _ hup
    have hu : usub min g = min - g := usub_le min g hmin hg
    rw [probe_down_succ, hu, if_neg (by omega)]
    exact ⟨s, rfl⟩
  | succ m ih =>
    intro n c s hn hc hup
    have hu : usub min g = min - g := usub_le min g hmin hg
    rw [probe_down_succ, hu]
    split_ifs with h1 h2 h3
    · exact ⟨_, rfl⟩
    · obtain ⟨k, rfl⟩ : ∃ k, n = k + 1 := ⟨n - 1, by omega⟩
      have hM : MAX c min < UINT_MOD := MAX_lt c min _ hc hmin
      have hM2 : min ≤ MAX c min := le_MAX_right c min
      have hM3 : MAX c min ≤ c ∨ MAX c min = min := by
        unfold MAX; split_ifs <;> omega
      apply ih k _ _ (by omega)
      · rw [usub_le _ _ hM (by omega)]; omega
      · rw [usub_le _ _ hM (by omega)]
        rw [Nat.succ_mul] at hup
        omega
    · obtain ⟨k, rfl⟩ : ∃ k, n = k + 1 := ⟨n - 1, by omega⟩
      have hM : MAX c min < UINT_MOD := MAX_lt c min _ hc hmin
      have hM2 : min ≤ MAX c min := le_MAX_right c min
      have hM3 : MAX c min ≤ c ∨ MAX c min = min := by
        unfold MAX; split_ifs <;> omega
      apply ih k _ _ (by omega)
      · rw [usub_le _ _ hM (by omega)]; omega
      · rw [usub_le _ _ hM (by omega)]
        rw [Nat.succ_mul] at hup
        omega
    · exact ⟨s, rfl⟩

theorem MAX_eq_left (a b : Nat) (h : b ≤ a) : MAX a b = a := by
  unfold MAX; split_ifs <;> omega

theorem requests_cons (c min g m : Nat) (hc : m = 0 ∨ min ≤ c) :
    (List.range (m + 1)).map (fun j => MAX (c - j * g) min) =
      MAX c min :: (List.range m).map (fun j => MAX (MAX c min - g - j * g) min) := by
  rw [List.range_succ_eq_map, List.map_cons, List.map_map]
  refine congrArg₂ _ (by simp) (List.map_congr_left ?_)
  intro j hj
  have hjm : j < m := List.mem_range.mp hj
  have hmc : min ≤ c := by
    rcases hc with h | h
    · omega
    · exact h
  simp only [Function.comp, Nat.succ_eq_add_one]
  rw [MAX_eq_left c min hmc, Nat.succ_mul]
  congr 1
  omega

theorem recorded_steps_eq (s : State) :
    recorded_steps s = (List.range s.current_speed).map s.speeds ++ [s.speeds s.current_speed] := by
  unfold recorded_steps
  rw [List.range_succ, List.map_append]
  rfl

theorem map_update_range (f : Nat → Nat) (k v : Nat) :
    (List.range k).map (Function.update f k v) = (List.range k).map f := by
  apply List.map_congr_left
  intro i hi
  have : i < k := List.mem_range.mp hi
  rw [Function.update_noteq (by omega)]

/-- What a pass of the downward walk that is not cut short has written and
recorded: the requests `c, c - g, ...` held at `min`, and the read-backs with
repetitions of the last recorded step left out. -/
theorem probe_down_trace (hw : Hardware) (min g : Nat) (hg : g ≤ min)
    (hmin : min < UINT_MOD) :
    ∀ (m n c : Nat) (s sp : State), c < UINT_MOD → c + g ≤ min + m * g →
      (m = 0 ∨ min + m * g < c + g + g) → s.current_speed + 1 < MAX_SPEEDS →
      probe_down hw min g n c s = Res.ok sp → uadd sp.current_speed 1 ≠ MAX_SPEEDS →
      sp.written = s.written ++ (List.range m).map (fun j => MAX (c - j * g) min) ∧
      sp.nreads = s.nreads + m ∧
      recorded_steps sp = (List.range s.current_speed).map s.speeds ++
        List.destutter' (fun a b => a ≠ b) (s.speeds s.current_speed)
          (readbacks hw s.written s.nreads
            ((List.range m).map (fun j => MAX (c - j * g) min))) := by
  intro m
  induction m with
  | zero =>
    intro n c s sp _ hup _ _ h _
    have hu : usub min g = min - g := usub_le min g hmin hg
    cases n with
    | zero => simp [probe_down] at h
    | succ n =>
      rw [probe_down_succ, hu, if_neg (by omega)] at h
      cases h
      refine ⟨by simp, rfl, ?_⟩
      rw [recorded_steps_eq]
      rfl
  | succ m ih =>
    intro n c s sp hc hup hlow hcs h hacc
    have hu : usub min g = min - g := usub_le min g hmin hg
    have hlow2 : min + (m + 1) * g < c + g + g := by
      rcases hlow with h0 | h0
      · omega
      · exact h0
    rw [Nat.succ_mul] at hup hlow2
    have hM : MAX c min < UINT_MOD := MAX_lt c min _ hc hmin
    have hM2 : min ≤ MAX c min := le_MAX_right c min
    have hM3 : MAX c min ≤ c ∨ MAX c min = min := by
      unfold MAX; split_ifs <;> omega
    have hM4 : c ≤ MAX c min := by
      unfold MAX; split_ifs <;> omega
    have hreq := requests_cons c min g m (by
      by_cases hm0 : m = 0
      · exact Or.inl hm0
      · right
        have : g ≤ m * g := Nat.le_mul_of_pos_left g (Nat.pos_of_ne_zero hm0)
        omega)
    have hc1 : usub (MAX c min) g = MAX c min - g := usub_le _ _ hM (by omega)
    have hup1 : MAX c min - g + g ≤ min + m * g := by omega
    have hlow1 : m = 0 ∨ min + m * g < MAX c min - g + g + g := by
      right; omega
    have hucs : uadd s.current_speed 1 = s.current_speed + 1 := by
      unfold uadd UINT_MOD; unfold MAX_SPEEDS at hcs; omega
    rw [hreq]
    cases n with
    | zero => simp [probe_down] at h
    | succ n =>
      rw [probe_down_succ, hu, if_pos (by omega), hc1] at h
      have hrd : (probe_read hw min c s).1 = hw (s.written ++ [MAX c min]) s.nreads % UINT_MOD :=
        rfl
      split_ifs at h with h2 h3
      · -- the fifteenth step: the pass is cut short
        cases h
        exact absurd h3 hacc
      · -- a new step is recorded
        have hcs2 : (probe_store (probe_read hw min c s).1
            (probe_read hw min c s).2).current_speed + 1 < MAX_SPEEDS := by
          show uadd s.current_speed 1 + 1 < MAX_SPEEDS
          rw [hucs]
          rw [hucs] at h3
          have : uadd (s.current_speed + 1) 1 = s.current_speed + 2 := by
            unfold uadd UINT_MOD; unfold MAX_SPEEDS at hcs; omega
          rw [this] at h3
          unfold MAX_SPEEDS at hcs h3 ⊢
          omega
        obtain ⟨e1, e2, e3⟩ := ih n (MAX c min - g) (probe_store (probe_read hw min c s).1
          (probe_read hw min c s).2) sp (by omega) hup1 hlow1 hcs2 h hacc
        refine ⟨?_, ?_, ?_⟩
        · rw [e1]
          show s.written ++ [MAX c min] ++ _ = _
          simp
        · rw [e2]
          show s.nreads + 1 + m = _
          omega
        · rw [e3]
          show (List.range (uadd s.current_speed 1)).map
              (Function.update s.speeds (uadd s.current_speed 1) (probe_read hw min c s).1) ++
            List.destutter' (fun a b => a ≠ b)
              (Function.update s.speeds (uadd s.current_speed 1) (probe_read hw min c s).1
                (uadd s.current_speed 1))
              (readbacks hw (s.written ++ [MAX c min]) (s.nreads + 1) _) = _
          rw [map_update_range, Function.update_same, hucs, List.range_succ, List.map_append,
            List.append_assoc]
          congr 1
          show _ = List.destutter' (fun a b => a ≠ b) (s.speeds s.current_speed)
            ((hw (s.written ++ [MAX c min]) s.nreads % UINT_MOD) :: readbacks hw
              (s.written ++ [MAX c min]) (s.nreads + 1) _)
          rw [List.destutter'_cons_pos _ (fun e => h2 (hrd.trans e.symm))]
          rfl
      · -- the read-back repeats the last recorded step
        have h2e : (probe_read hw min c s).1 = s.speeds s.current_speed := not_not.mp h2
        obtain ⟨e1, e2, e3⟩ := ih n (MAX c min - g) (probe_read hw min c s).2 sp (by omega)
          hup1 hlow1 hcs h hacc
        refine ⟨?_, ?_, ?_⟩
        · rw [e1]
          show s.written ++ [MAX c min] ++ _ = _
          simp
        · rw [e2]
          show s.nreads + 1 + m = _
          omega
        · rw [e3]
          show (List.range s.current_speed).map s.speeds ++
            List.destutter' (fun a b => a ≠ b) (s.speeds s.current_speed)
              (readbacks hw (s.written ++ [MAX c min]) (s.nreads + 1) _) = _
          congr 1
          show _ = List.destutter' (fun a b => a ≠ b) (s.speeds s.current_speed)
            ((hw (s.written ++ [MAX c min]) s.nreads % UINT_MOD) :: readbacks hw
              (s.written ++ [MAX c min]) (s.nreads + 1) _)
          rw [List.destutter'_cons_neg _ (fun e => e (h2e.symm.trans hrd))]

theorem MAX_eq_right (a b : Nat) (h : a ≤ b) : MAX a b = b := by
  unfold MAX; split_ifs <;> omega

/-- The number of requests of a walk covers the distance from `max` to `min`
and no more. -/
theorem walk_count (max min g : Nat) (hg0 : 0 < g) (hlt : min < max) :
    max ≤ min + (max - min + g - 1) / g * g ∧
    min + (max - min + g - 1) / g * g < max + g ∧
    0 < (max - min + g - 1) / g := by
  have h1 := Nat.div_add_mod (max - min + g - 1) g
  have h2 := Nat.mod_lt (max - min + g - 1) hg0
  rw [Nat.mul_comm] at h1
  refine ⟨by omega, by omega, ?_⟩
  apply Nat.pos_of_ne_zero
  intro h0
  rw [h0] at h1
  omega

theorem walk_requests_eq (max min g : Nat) :
    (List.range ((max - min + g - 1) / g)).map (fun j => MAX (max - g - j * g) min) =
      walk_requests max min g := by
  unfold walk_requests
  apply List.map_congr_left
  intro j _
  rw [Nat.succ_mul]
  congr 1
  omega

theorem walk_requests_last (max min g : Nat) (hg0 : 0 < g) (hlt : min < max) :
    (walk_requests max min g).getLast? = some min := by
  obtain ⟨h1, _, h3⟩ := walk_count max min g hg0 hlt
  unfold walk_requests
  obtain ⟨k, hk⟩ : ∃ k, (max - min + g - 1) / g = k + 1 :=
    ⟨(max - min + g - 1) / g - 1, by omega⟩
  rw [hk] at h1 ⊢
  rw [List.range_succ, List.map_append, List.map_cons, List.map_nil, List.getLast?_concat,
    MAX_eq_right _ _ (by omega)]

theorem walk_requests_bounds (max min g : Nat) (hg0 : 0 < g) (hlt : min < max) :
    ∀ r ∈ walk_requests max min g, min ≤ r ∧ r < max := by
  intro r hr
  unfold walk_requests at hr
  obtain ⟨k, _, rfl⟩ := List.mem_map.mp hr
  refine ⟨le_MAX_right _ _, MAX_lt _ _ _ ?_ hlt⟩
  have : g ≤ (k + 1) * g := Nat.le_mul_of_pos_left g (by omega)
  omega

/-- A run of the loop over `step` that returns went through some number `k` of
abandoned passes, each of which stored `MAX_SPEEDS` steps, and then through an
accepted pass with the step doubled `k` times and `min` held at that step. -/
theorem step_loop_passes (hw : Hardware) (max : Nat) :
    ∀ (n step min : Nat) (s s2 : State), 0 < step →
      step_loop hw max n step min s = Res.ok s2 →
      ∃ k sr sp, step * 2 ^ k ≤ MAX_STEP ∧ MAX min (step * 2 ^ k) < max ∧
        sr.stored = s.stored ++ abandoned_stores k ∧
        probe_down hw (MAX min (step * 2 ^ k)) (step * 2 ^ k) UINT_MOD (usub max (step * 2 ^ k))
          (pass_start hw max sr) = Res.ok sp ∧
        uadd sp.current_speed 1 ≠ MAX_SPEEDS ∧ s2 = pass_finish sp := by
  intro n
  induction n with
  | zero => intro step min s s2 _ h; simp [step_loop] at h
  | succ n ih =>
    intro step min s s2 hpos h
    rw [step_loop_succ] at h
    split_ifs at h with h1 h2
    · cases hr : ramp_to_max max step UINT_MOD (get_speed hw s).1 (get_speed hw s).2 with
      | died => rw [hr] at h; simp [Res.bind] at h
      | fuel => rw [hr] at h; simp [Res.bind] at h
      | ok sr =>
        rw [hr] at h
        simp only [Res.bind] at h
        have hsr : sr.stored = s.stored := by
          rw [ramp_to_max_frame _ _ _ _ _ _ hr]
          rfl
        cases hp : probe_down hw (MAX min step) step UINT_MOD (usub max step)
            (pass_start hw max sr) with
        | died => rw [hp] at h; simp at h
        | fuel => rw [hp] at h; simp at h
        | ok sp =>
          rw [hp] at h
          simp only at h
          split_ifs at h with h3
          · obtain ⟨_, rfl⟩ := finish_speeds_ok step sp s2 h
            refine ⟨0, sr, sp, ?_, ?_, ?_, ?_, h3, rfl⟩
            · simpa using h1
            · simpa using (by omega : MAX min step < max)
            · simpa [abandoned_stores] using hsr
            · simpa using hp
          · have h2s : step * 2 < UINT_MOD := by
              unfold MAX_STEP MIN_STEP at h1
              unfold UINT_MOD
              simp at h1
              omega
            rw [Nat.mod_eq_of_lt h2s] at h
            obtain ⟨k, sr2, sp2, a1, a2, a3, a4, a5, a6⟩ := ih _ _ _ _ (by omega) h
            have hrec := probe_down_recording hw (MAX min step) step sr.stored _ _ _ _
              (pass_start_recording hw max sr) (by unfold MAX_SPEEDS; show 0 + 1 < 15; omega) hp
            obtain ⟨hle, hst, _⟩ := hrec
            have hcs : sp.current_speed + 1 = MAX_SPEEDS := by
              have h4 : uadd sp.current_speed 1 = MAX_SPEEDS := not_not.mp h3
              have : uadd sp.current_speed 1 = sp.current_speed + 1 := by
                unfold uadd UINT_MOD; unfold MAX_SPEEDS at hle; omega
              rw [this] at h4
              exact h4
            have epow : step * 2 ^ (k + 1) = step * 2 * 2 ^ k := by
              rw [pow_succ]
              ring
            have hge : step ≤ step * 2 * 2 ^ k := by
              have : 1 ≤ 2 ^ k := Nat.one_le_two_pow
              calc step ≤ step * 2 := by omega
                _ = step * 2 * 1 := by omega
                _ ≤ step * 2 * 2 ^ k := Nat.mul_le_mul_left _ this
            have emin : MAX (MAX min step) (step * 2 * 2 ^ k) = MAX min (step * 2 * 2 ^ k) := by
              unfold MAX
              split_ifs <;> omega
            rw [emin] at a2 a4
            refine ⟨k + 1, sr2, sp2, ?_, ?_, ?_, ?_, a5, a6⟩
            · rw [epow]; exact a1
            · rw [epow]; exact a2
            · rw [a3, hst, hsr, hcs, List.append_assoc]
              rfl
            · rw [epow]; exact a4
    · obtain ⟨hle, _⟩ := finish_speeds_ok step s s2 h
      exact absurd hle h1

/-- C11: every table that `get_supported_speeds` returns comes from the pass
number `k ≤ 8` of the loop over `step`, the `k` passes before it having been
abandoned at `MAX_SPEEDS` stored steps each, with the granularity
`g = MIN_STEP * 2^k` and the bounds `max`, the number of `MAX_SPEED_FILE` held at
`max_speed`, and `min`, the number of `MIN_SPEED_FILE` held at `min_speed` and at
`g`, where `max > min ≥ g`.  The walk for them returns from any state; the writes
end with `max` and then the requests `max - g`, `max - 2g`, ..., all of them from
`min` up and below `max` (no wrap-around), the last one being `min`; one read
follows each of these writes; and the recorded steps are the values read back
after `max` and after each request, in order, with repetitions of the step before
left out. -/
theorem discovered_table_is_walk_readbacks (cpu : Cpufreq) (cfg : Config) (s0 s : State)
    (h : get_supported_speeds cpu cfg s0 = Res.ok s) :
    ∃ (k : Nat) (written_before : List Nat) (nreads_before : Nat),
      k ≤ 8 ∧
      s.stored = s0.stored ++ abandoned_stores k ++ List.range (s.last_step + 2) ∧
      0 < pass_step k ∧ pass_step k ≤ clamped_min cpu cfg (pass_step k) ∧
      clamped_min cpu cfg (pass_step k) < clamped_max cpu cfg ∧
      (∀ s1, ∃ sp, probe_down cpu.scaling_setspeed (clamped_min cpu cfg (pass_step k))
        (pass_step k) UINT_MOD (usub (clamped_max cpu cfg) (pass_step k)) s1 = Res.ok sp) ∧
      s.written = written_before ++ clamped_max cpu cfg ::
        walk_requests (clamped_max cpu cfg) (clamped_min cpu cfg (pass_step k)) (pass_step k) ∧
      s.nreads = nreads_before + 1 +
        (walk_requests (clamped_max cpu cfg) (clamped_min cpu cfg (pass_step k))
          (pass_step k)).length ∧
      (walk_requests (clamped_max cpu cfg) (clamped_min cpu cfg (pass_step k))
        (pass_step k)).getLast? = some (clamped_min cpu cfg (pass_step k)) ∧
      (∀ r ∈ walk_requests (clamped_max cpu cfg) (clamped_min cpu cfg (pass_step k))
          (pass_step k),
        clamped_min cpu cfg (pass_step k) ≤ r ∧ r < clamped_max cpu cfg) ∧
      (List.range (s.last_step + 1)).map s.speeds =
        List.destutter (fun a b => a ≠ b)
          (readbacks cpu.scaling_setspeed written_before nreads_before
            (clamped_max cpu cfg ::
              walk_requests (clamped_max cpu cfg) (clamped_min cpu cfg (pass_step k))
                (pass_step k))) := by
  have hmax : clamped_max cpu cfg < UINT_MOD :=
    lt_of_le_of_lt (MIN_le_left _ _) (Nat.mod_lt _ (by unfold UINT_MOD; omega))
  obtain ⟨k, sr, sp, hk, hm, hst, hp, hacc, rfl⟩ :=
    step_loop_passes cpu.scaling_setspeed (clamped_max cpu cfg) UINT_MOD MIN_STEP _ s0 s
      (by unfold MIN_STEP; omega) h
  change pass_step k ≤ MAX_STEP at hk
  change clamped_min cpu cfg (pass_step k) < clamped_max cpu cfg at hm
  change probe_down cpu.scaling_setspeed (clamped_min cpu cfg (pass_step k)) (pass_step k)
    UINT_MOD (usub (clamped_max cpu cfg) (pass_step k))
    (pass_start cpu.scaling_setspeed (clamped_max cpu cfg) sr) = Res.ok sp at hp
  have hg0 : 0 < pass_step k := by
    unfold pass_step MIN_STEP
    exact Nat.mul_pos (by omega) (Nat.pos_pow_of_pos k (by omega))
  have hgm : pass_step k ≤ clamped_min cpu cfg (pass_step k) := le_MAX_right _ _
  have hk8 : k ≤ 8 := by
    by_contra hgt
    have h9 : 2 ^ 9 ≤ 2 ^ k := Nat.pow_le_pow_right (by omega) (by omega)
    have hM : MAX_STEP = 6400000 := by decide
    unfold pass_step MIN_STEP at hk
    rw [hM] at hk
    have : 25000 * 2 ^ 9 ≤ 25000 * 2 ^ k := Nat.mul_le_mul_left _ h9
    omega
  obtain ⟨c1, c2, c3⟩ := walk_count (clamped_max cpu cfg) _ (pass_step k) hg0 hm
  have hsub : usub (clamped_max cpu cfg) (pass_step k) = clamped_max cpu cfg - pass_step k :=
    usub_le _ _ hmax (by omega)
  have hrec := probe_down_recording cpu.scaling_setspeed _ (pass_step k) sr.stored
    _ _ _ _ (pass_start_recording cpu.scaling_setspeed (clamped_max cpu cfg) sr)
    (by unfold MAX_SPEEDS; show 0 + 1 < 15; omega) hp
  have hle := hrec.1
  have hu : uadd sp.current_speed 1 = sp.current_speed + 1 := by
    unfold uadd UINT_MOD; unfold MAX_SPEEDS at hle; omega
  rw [hsub] at hp
  obtain ⟨e1, e2, e3⟩ := probe_down_trace cpu.scaling_setspeed _ (pass_step k) hgm (by omega)
    ((clamped_max cpu cfg - clamped_min cpu cfg (pass_step k) + pass_step k - 1) / pass_step k)
    _ _ _ sp (by omega) (by omega)
    (Or.inr (by omega)) (by unfold MAX_SPEEDS; show 0 + 1 < 15; omega) hp hacc
  refine ⟨k, sr.written, sr.nreads, hk8, ?_, hg0, hgm, hm, ?_, ?_, ?_,
    walk_requests_last _ _ _ hg0 hm, walk_requests_bounds _ _ _ hg0 hm, ?_⟩
  · show sp.stored ++ [uadd sp.current_speed 1] = _
    rw [hrec.2.1, hst, hu]
    show _ = s0.stored ++ abandoned_stores k ++ List.range (sp.current_speed + 2)
    rw [List.range_succ (sp.current_speed + 1)]
    simp only [List.append_assoc]
  · intro s1
    have hle2 : pass_step k ≤
        (clamped_max cpu cfg - clamped_min cpu cfg (pass_step k) + pass_step k - 1)
          / pass_step k * pass_step k :=
      Nat.le_mul_of_pos_left _ c3
    have hn : (clamped_max cpu cfg - clamped_min cpu cfg (pass_step k) + pass_step k - 1)
          / pass_step k ≤
        (clamped_max cpu cfg - clamped_min cpu cfg (pass_step k) + pass_step k - 1)
          / pass_step k * pass_step k :=
      Nat.le_mul_of_pos_right _ hg0
    have hfuel : UINT_MOD = (UINT_MOD - 1) + 1 := by unfold UINT_MOD; omega
    rw [hfuel, hsub]
    exact probe_down_returns cpu.scaling_setspeed _ (pass_step k) hgm (by omega)
      ((clamped_max cpu cfg - clamped_min cpu cfg (pass_step k) + pass_step k - 1)
        / pass_step k) _ _ s1 (by omega) (by omega) (by omega)
  · show sp.written = _
    rw [e1, walk_requests_eq]
    show sr.written ++ [clamped_max cpu cfg] ++ _ = _
    simp
  · show sp.nreads = _
    rw [e2]
    show sr.nreads + 1 + _ = _
    simp [walk_requests]
  · show (List.range (sp.current_speed + 1)).map
      (Function.update sp.speeds (uadd sp.current_speed 1) 0) = _
    rw [hu, map_update_range]
    have e4 : recorded_steps sp = (List.range (sp.current_speed + 1)).map sp.speeds := rfl
    rw [← e4, e3, walk_requests_eq]
    rfl

/-- C11 at hardware that rounds down to multiples of 100 MHz: the first pass is
accepted, with twelve requests from 1275000 down to 1000000 and four recorded
steps, each a rounded value. -/
theorem discovered_table_is_walk_readbacks_witness :
    get_supported_speeds cpu_rounding Config.default State.init = Res.ok rounding_table ∧
    (List.range (rounding_table.last_step + 1)).map rounding_table.speeds
      = [1300000, 1200000, 1100000, 1000000] ∧
    rounding_table.stored = List.range 5 ∧
    pass_step 0 = 25000 ∧ clamped_min cpu_rounding Config.default (pass_step 0) = 1000000 ∧
    clamped_max cpu_rounding Config.default = 1300000 ∧
    walk_requests 1300000 1000000 25000 = [1275000, 1250000, 1225000, 1200000, 1175000,
      1150000, 1125000, 1100000, 1075000, 1050000, 1025000, 1000000] ∧
    ∃ (k : Nat) (written_before : List Nat) (nreads_before : Nat),
      k ≤ 8 ∧
      rounding_table.stored = State.init.stored ++ abandoned_stores k ++
        List.range (rounding_table.last_step + 2) ∧
      0 < pass_step k ∧ pass_step k ≤ clamped_min cpu_rounding Config.default (pass_step k) ∧
      clamped_min cpu_rounding Config.default (pass_step k)
        < clamped_max cpu_rounding Config.default ∧
      (∀ s1, ∃ sp, probe_down cpu_rounding.scaling_setspeed
        (clamped_min cpu_rounding Config.default (pass_step k)) (pass_step k) UINT_MOD
        (usub (clamped_max cpu_rounding Config.default) (pass_step k)) s1 = Res.ok sp) ∧
      rounding_table.written = written_before ++ clamped_max cpu_rounding Config.default ::
        walk_requests (clamped_max cpu_rounding Config.default)
          (clamped_min cpu_rounding Config.default (pass_step k)) (pass_step k) ∧
      rounding_table.nreads = nreads_before + 1 +
        (walk_requests (clamped_max cpu_rounding Config.default)
          (clamped_min cpu_rounding Config.default (pass_step k)) (pass_step k)).length ∧
      (walk_requests (clamped_max cpu_rounding Config.default)
        (clamped_min cpu_rounding Config.default (pass_step k)) (pass_step k)).getLast?
        = some (clamped_min cpu_rounding Config.default (pass_step k)) ∧
      (∀ r ∈ walk_requests (clamped_max cpu_rounding Config.default)
          (clamped_min cpu_rounding Config.default (pass_step k)) (pass_step k),
        clamped_min cpu_rounding Config.default (pass_step k) ≤ r ∧
          r < clamped_max cpu_rounding Config.default) ∧
      (List.range (rounding_table.last_step + 1)).map rounding_table.speeds =
        List.destutter (fun a b => a ≠ b)
          (readbacks cpu_rounding.scaling_setspeed written_before nreads_before
            (clamped_max cpu_rounding Config.default ::
              walk_requests (clamped_max cpu_rounding Config.default)
                (clamped_min cpu_rounding Config.default (pass_step k)) (pass_step k))) :=
  ⟨rfl, by decide, by decide, by decide, by decide, by decide, by decide,
    discovered_table_is_walk_readbacks cpu_rounding Config.default State.init rounding_table rfl⟩

/-! ## Facts about `get_times` -/

/-- The row of a core number below 1000 is found when the file holds it. -/
theorem found_row_of_small (cfg : Config) (env : Env) (i : Nat)
    (h : cfg.tied_cpu_cores i < 1000) :
    found_row cfg env i = env.proc_stat (cfg.tied_cpu_cores i) := by
  unfold found_row
  rw [if_pos h]

/-- No row is found for a core number from 1000 on, whatever the file holds. -/
theorem found_row_of_large (cfg : Config) (env : Env) (i : Nat)
    (h : 1000 ≤ cfg.tied_cpu_cores i) : found_row cfg env i = none := by
  unfold found_row
  rw [if_neg (by omega)]

theorem get_times_present (cfg : Config) (env : Env) (i a b : Nat) (s : State) (row : StatRow)
    (h : found_row cfg env i = some row) :
    get_times cfg env i a b s =
      ({ s with
          last_total_time := Function.update s.last_total_time i (total_time_of cfg row)
          last_idle_time := Function.update s.last_idle_time i (idle_time_of cfg row) },
        ulsub (total_time_of cfg row) (s.last_total_time i),
        ulsub (idle_time_of cfg row) (s.last_idle_time i)) := by
  unfold get_times
  rw [h]
  rfl

theorem ulsub_le (a b : Nat) (ha : a < ULONG_MOD) (hb : b ≤ a) : ulsub a b = a - b := by
  unfold ulsub ULONG_MOD at *
  have : b % 18446744073709551616 = b := Nat.mod_eq_of_lt (by omega)
  rw [this]
  omega

/-- Without wrap-around the idle and total times are the plain sums. -/
theorem times_of_small (cfg : Config) (row : StatRow)
    (h : row.user_time + row.nice_time + row.system_time + row.idle_time + row.wait_time
      < ULONG_MOD) :
    idle_time_of cfg row =
      row.idle_time + (if cfg.nice_counts_as_idle then row.nice_time else 0)
        + (if cfg.io_counts_as_idle then row.wait_time else 0) ∧
    total_time_of cfg row = row.user_time + row.system_time + idle_time_of cfg row := by
  unfold total_time_of idle_time_of ULONG_MOD at *
  cases cfg.nice_counts_as_idle <;> cases cfg.io_counts_as_idle <;>
    simp only [if_true, if_false, Bool.false_eq_true] <;> omega

theorem idle_percent_of_small (e d : Nat) (hde : d ≤ e) (h : 100 * d < ULONG_MOD) :
    idle_percent_of e d = 100 * d / e ∧ idle_percent_of e d ≤ 100 := by
  have h1 : d * 100 % ULONG_MOD = 100 * d := by
    rw [Nat.mul_comm]
    exact Nat.mod_eq_of_lt h
  have h2 : 100 * d / e ≤ 100 := by
    rcases Nat.eq_zero_or_pos e with he | he
    · subst he; simp
    · exact Nat.div_le_of_le_mul (by rw [Nat.mul_comm e 100]; exact Nat.mul_le_mul_left 100 hde)
  have h3 : 100 * d / e % UINT_MOD = 100 * d / e :=
    Nat.mod_eq_of_lt (by unfold UINT_MOD; omega)
  unfold idle_percent_of
  rw [h1, h3]
  exact ⟨rfl, h2⟩

theorem successive_sample_eq (cfg : Config) (env1 env2 : Env) (i : Nat) (s : State)
    (r1 r2 : StatRow) (h1 : found_row cfg env1 i = some r1)
    (h2 : found_row cfg env2 i = some r2) :
    successive_sample cfg env1 env2 i s =
      (ulsub (total_time_of cfg r2) (total_time_of cfg r1),
        ulsub (idle_time_of cfg r2) (idle_time_of cfg r1)) := by
  unfold successive_sample core_sample
  rw [get_times_present cfg env1 i _ _ s r1 h1, get_times_present cfg env2 i _ _ _ r2 h2]
  simp only [Function.update_same]

/-- C12 as stated fails when `unsigned long` wraps and when the row is not found.
From all-zero counters to a user time of 2^64 - 5 and an idle time of 10,
`total_time` wraps to 5: the sample has total 5 and idle 10, and the percentage
is 200.  From all-zero counters to an idle time of 2^63 the product
`idle_time * 100` wraps to 0: the percentage is 0 where 100 * idle / total is 100.
And for core 1000 the key `cpu1000 ` does not fit `search[..][8]`: its row is in
both readings but is not found, the sample is what the locals held, here 5 and
10, and the percentage is 200 again. -/
theorem idle_percent_wraps :
    successive_sample Config.default (env_with_row ⟨0, 0, 0, 0, 0⟩)
      (env_with_row ⟨18446744073709551611, 0, 0, 10, 0⟩) 0 State.init = (5, 10) ∧
    idle_percent_of 5 10 = 200 ∧
    successive_sample Config.default (env_with_row ⟨0, 0, 0, 0, 0⟩)
      (env_with_row ⟨0, 0, 0, 9223372036854775808, 0⟩) 0 State.init
      = (9223372036854775808, 9223372036854775808) ∧
    idle_percent_of 9223372036854775808 9223372036854775808 = 0 ∧
    100 * 9223372036854775808 / 9223372036854775808 = 100 ∧
    cfg_core_1000.tied_cpu_cores 0 = 1000 ∧
    env_reading_1.proc_stat 1000 = some ⟨50, 0, 50, 900, 0⟩ ∧
    env_reading_2_unset.proc_stat 1000 = some ⟨100, 0, 100, 1800, 0⟩ ∧
    found_row cfg_core_1000 env_reading_1 0 = none ∧
    found_row cfg_core_1000 env_reading_2_unset 0 = none ∧
    successive_sample cfg_core_1000 env_reading_1 env_reading_2_unset 0 State.init = (5, 10) :=
  ⟨by decide, by decide, by decide, by decide, by decide, by decide, rfl, rfl, rfl, rfl,
    by decide⟩

/-- C12, amended: for a core whose number is below 1000 and two successive
readings that both hold its row, with counters none of which decreases and which
are small enough that 100 times their sum is below 2^64, under each setting of the
two flags: the idle delta is at most the total delta; if the total delta is
positive the computed percentage is `100 * idle_delta / total_delta` rounded down
and at most 100, and it is the percentage that the entry of `wanted_speed` is
chosen by; and if the total delta is 0 the entry of `wanted_speed` is the current
index, no percentage being computed. -/
theorem idle_percent_within_bounds (cfg : Config) (env1 env2 : Env) (i : Nat) (s st : State)
    (r1 r2 : StatRow) (hid : cfg.tied_cpu_cores i < 1000)
    (h1 : env1.proc_stat (cfg.tied_cpu_cores i) = some r1)
    (h2 : env2.proc_stat (cfg.tied_cpu_cores i) = some r2)
    (hu : r1.user_time ≤ r2.user_time) (hn : r1.nice_time ≤ r2.nice_time)
    (hs : r1.system_time ≤ r2.system_time) (hi : r1.idle_time ≤ r2.idle_time)
    (hw : r1.wait_time ≤ r2.wait_time)
    (hsmall : 100 * (r2.user_time + r2.nice_time + r2.system_time + r2.idle_time
      + r2.wait_time) < ULONG_MOD) :
    (successive_sample cfg env1 env2 i s).2 ≤ (successive_sample cfg env1 env2 i s).1 ∧
    (if 0 < (successive_sample cfg env1 env2 i s).1 then
      idle_percent_of (successive_sample cfg env1 env2 i s).1
          (successive_sample cfg env1 env2 i s).2
        = 100 * (successive_sample cfg env1 env2 i s).2 / (successive_sample cfg env1 env2 i s).1 ∧
      idle_percent_of (successive_sample cfg env1 env2 i s).1
          (successive_sample cfg env1 env2 i s).2 ≤ 100 ∧
      wanted_speed_of cfg st (successive_sample cfg env1 env2 i s).1
          (successive_sample cfg env1 env2 i s).2
        = (if 100 * (successive_sample cfg env1 env2 i s).2
              / (successive_sample cfg env1 env2 i s).1 ≤ cfg.clock_up_idle_fast then 0
          else if 100 * (successive_sample cfg env1 env2 i s).2
              / (successive_sample cfg env1 env2 i s).1 < cfg.idle_threshold
              ∧ st.current_speed > 0 then usub st.current_speed 1
          else if 100 * (successive_sample cfg env1 env2 i s).2
              / (successive_sample cfg env1 env2 i s).1 > cfg.idle_threshold
              ∧ st.speeds (uadd st.current_speed 1) ≠ 0 then uadd st.current_speed 1
          else st.current_speed)
     else
      wanted_speed_of cfg st (successive_sample cfg env1 env2 i s).1
        (successive_sample cfg env1 env2 i s).2 = st.current_speed) := by
  rw [successive_sample_eq cfg env1 env2 i s r1 r2
    ((found_row_of_small cfg env1 i hid).trans h1) ((found_row_of_small cfg env2 i hid).trans h2)]
  obtain ⟨a1, b1⟩ := times_of_small cfg r1 (by omega)
  obtain ⟨a2, b2⟩ := times_of_small cfg r2 (by omega)
  have hidle : idle_time_of cfg r1 ≤ idle_time_of cfg r2 := by
    rw [a1, a2]
    cases cfg.nice_counts_as_idle <;> cases cfg.io_counts_as_idle <;>
      simp only [if_true, if_false, Bool.false_eq_true] <;> omega
  have hi2 : idle_time_of cfg r2 ≤ r2.idle_time + r2.nice_time + r2.wait_time := by
    rw [a2]
    cases cfg.nice_counts_as_idle <;> cases cfg.io_counts_as_idle <;>
      simp only [if_true, if_false, Bool.false_eq_true] <;> omega
  have e1 : ulsub (total_time_of cfg r2) (total_time_of cfg r1)
      = total_time_of cfg r2 - total_time_of cfg r1 :=
    ulsub_le _ _ (by rw [b2]; omega) (by rw [b1, b2]; omega)
  have e2 : ulsub (idle_time_of cfg r2) (idle_time_of cfg r1)
      = idle_time_of cfg r2 - idle_time_of cfg r1 :=
    ulsub_le _ _ (by omega) hidle
  simp only [e1, e2]
  have hle : idle_time_of cfg r2 - idle_time_of cfg r1
      ≤ total_time_of cfg r2 - total_time_of cfg r1 := by
    rw [b1, b2]; omega
  refine ⟨hle, ?_⟩
  by_cases hpos : 0 < total_time_of cfg r2 - total_time_of cfg r1
  · rw [if_pos hpos]
    have hp := idle_percent_of_small _ _ hle (by omega)
    refine ⟨hp.1, hp.2, ?_⟩
    unfold wanted_speed_of
    simp only [gt_iff_lt, hpos, if_true, hp.1]
  · rw [if_neg hpos]
    have h0 : total_time_of cfg r2 - total_time_of cfg r1 = 0 := by omega
    rw [h0]
    simp [wanted_speed_of]

/-- C12, amended, at two readings one second apart of core 0, which was idle for
900 of 1000 ticks. -/
theorem idle_percent_within_bounds_witness :
    (Config.default.tied_cpu_cores 0 < 1000 ∧
      env_reading_1.proc_stat (Config.default.tied_cpu_cores 0) = some ⟨50, 0, 50, 900, 0⟩ ∧
      env_reading_2.proc_stat (Config.default.tied_cpu_cores 0)
        = some ⟨100, 0, 100, 1800, 0⟩) ∧
    reading_sample = (1000, 900) ∧
    idle_percent_of 1000 900 = 90 ∧
    wanted_speed_of Config.default six_steps 1000 900 = 3 ∧
    reading_sample.2 ≤ reading_sample.1 ∧
    (if 0 < reading_sample.1 then
      idle_percent_of reading_sample.1 reading_sample.2
        = 100 * reading_sample.2 / reading_sample.1 ∧
      idle_percent_of reading_sample.1 reading_sample.2 ≤ 100 ∧
      wanted_speed_of Config.default six_steps reading_sample.1 reading_sample.2
        = (if 100 * reading_sample.2 / reading_sample.1
              ≤ Config.default.clock_up_idle_fast then 0
          else if 100 * reading_sample.2 / reading_sample.1 < Config.default.idle_threshold
              ∧ six_steps.current_speed > 0 then usub six_steps.current_speed 1
          else if 100 * reading_sample.2 / reading_sample.1 > Config.default.idle_threshold
              ∧ six_steps.speeds (uadd six_steps.current_speed 1) ≠ 0 then
            uadd six_steps.current_speed 1
          else six_steps.current_speed)
     else
      wanted_speed_of Config.default six_steps reading_sample.1 reading_sample.2
        = six_steps.current_speed) :=
  ⟨⟨by decide, rfl, rfl⟩, by decide, by decide, by decide,
    idle_percent_within_bounds Config.default env_reading_1 env_reading_2 0 State.init
      six_steps ⟨50, 0, 50, 900, 0⟩ ⟨100, 0, 100, 1800, 0⟩ (by decide) rfl rfl (by decide)
      (by decide) (by decide) (by decide) (by decide) (by decide)⟩

/-! ## Facts about `reset_times` -/

/-- The loop of `reset_times` changes the stored totals only. -/
theorem reset_times_loop_frame (cfg : Config) (env : Env) :
    ∀ (n u : Nat) (s : State),
      reset_times_loop cfg env n u s =
        { s with
            last_total_time := (reset_times_loop cfg env n u s).last_total_time
            last_idle_time := (reset_times_loop cfg env n u s).last_idle_time } := by
  intro n
  induction n with
  | zero => intro u s; rfl
  | succ n ih =>
    intro u s
    simp only [reset_times_loop]
    rw [ih (u + 1) _]
    rw [get_times_frame cfg env u _ _ s]

/-- C14 fails on the code.  With `nice_counts_as_idle` off the nice time is not
added to `idle_time`, and `total_time` is `user_time + system_time + idle_time`:
the nice time is in neither.  The same row has a total of 2000 with the flag on
and 1000 with it off; a window of nice time alone has total delta 0, so that no
percentage is computed; and a window of 900 ticks of nice work and 100 idle ticks
counts as 100% idle and slows the core down from index 2 to index 3. -/
theorem nice_time_left_out_of_total :
    total_time_of Config.default ⟨50, 1000, 50, 900, 0⟩ = 2000 ∧
    total_time_of cfg_nice_busy ⟨50, 1000, 50, 900, 0⟩ = 1000 ∧
    successive_sample cfg_nice_busy env_reading_1 env_reading_nice 0 State.init = (0, 0) ∧
    wanted_speed_of cfg_nice_busy six_steps 0 0 = six_steps.current_speed ∧
    successive_sample cfg_nice_busy env_reading_1 env_reading_mostly_nice 0 State.init
      = (100, 100) ∧
    idle_percent_of 100 100 = 100 ∧
    six_steps.current_speed = 2 ∧
    (alarm_handler cfg_nice_busy env_reading_mostly_nice
      { (get_times cfg_nice_busy env_reading_1 0 0 0 six_steps).1 with check_cpu := true }
      ).returned.map (fun s2 => s2.current_speed) = some 3 :=
  ⟨by decide, by decide, by decide, by decide, by decide, by decide, by decide, by decide⟩

/-- C15 fails on the code.  With the row of core 0 missing, `get_times` returns
without an error and leaves the stored totals alone, but it leaves the locals
`elapsed_time` and `idle_time` alone too, and `alarm_handler` declares them without
an initial value.  With 1000 and 20 in them core 0 gets the entry 0 instead of
the current index 2, and the domain goes to index 0 although its only reporting
core is 90% idle and asks for index 3. -/
theorem absent_row_uses_unset_locals :
    env_core0_absent.proc_stat (cfg_two_cores.tied_cpu_cores 0) = none ∧
    (get_times cfg_two_cores env_core0_absent 0 1000 20 six_steps_due).1.last_total_time 0
      = six_steps_due.last_total_time 0 ∧
    (get_times cfg_two_cores env_core0_absent 0 1000 20 six_steps_due).1.last_idle_time 0
      = six_steps_due.last_idle_time 0 ∧
    core_sample cfg_two_cores env_core0_absent six_steps_due 0 = (1000, 20) ∧
    six_steps_due.current_speed = 2 ∧
    wanted_speeds cfg_two_cores env_core0_absent six_steps_due = [0, 3] ∧
    (alarm_handler cfg_two_cores env_core0_absent six_steps_due).returned.map
      (fun s2 => s2.current_speed) = some 0 :=
  ⟨rfl, by decide, by decide, by decide, by decide, by decide, by decide⟩

/-- C16 fails on the code.  `read_value` returns the number for a plain decimal
text and dies on trailing characters, on text without digits and on a value out
of the range of `long`; but the empty line is read as 0, and a value that fits
`long` is cast to `unsigned` without a test, so that -1 is read as 4294967295 and
4294967296 as 0. -/
theorem read_value_wraps :
    read_value false "1000000" = Res.ok 1000000 ∧
    read_value false "12abc" = Res.died ∧
    read_value false "<unsupported>" = Res.died ∧
    read_value false "99999999999999999999" = Res.died ∧
    read_value false "" = Res.ok 0 ∧
    read_value false "-1" = Res.ok 4294967295 ∧
    read_value false "4294967296" = Res.ok 0 :=
  ⟨rfl, rfl, rfl, rfl, rfl, rfl, rfl⟩

/-! ## Facts about the core groups and about restoring -/

theorem head_least_of_sorted (l : List Nat) (i : Nat) (hs : l.Pairwise (fun a b => a ≤ b))
    (hmem : i ∈ l) : l.headD 0 = i ↔ ∀ c ∈ l, i ≤ c := by
  cases l with
  | nil => simp at hmem
  | cons h t =>
    have ht : ∀ c ∈ t, h ≤ c := (List.pairwise_cons.mp hs).1
    simp only [List.headD_cons]
    constructor
    · intro e c hc
      subst e
      rcases List.mem_cons.mp hc with hc1 | hc1
      · omega
      · exact ht c hc1
    · intro hall
      have h1 : i ≤ h := hall h (List.mem_cons_self h t)
      rcases List.mem_cons.mp hmem with hi | hi
      · exact hi.symm
      · have := ht i hi
        omega

theorem alarm_handler_saved (cfg : Config) (env : Env) (s s2 : State)
    (h : alarm_handler cfg env s = Res.ok s2) :
    s2.saved_speed = s.saved_speed ∧ s2.saved_governor = s.saved_governor := by
  obtain ⟨st, s1, hp, hs⟩ := alarm_handler_inv cfg env s s2 h
  have h1 := policy_state_frame cfg env s s1 st hp
  have h2 := switch_state_frame cfg env st s1
  rw [hs]
  show (switch_state cfg env st s1).saved_speed = s.saved_speed ∧
    (switch_state cfg env st s1).saved_governor = s.saved_governor
  rw [h2]
  show s1.saved_speed = s.saved_speed ∧ s1.saved_governor = s.saved_governor
  rw [h1]
  exact ⟨rfl, rfl⟩

/-- C17 as stated fails: when both cores report the list `1 0`, core 0, the
lowest id of its list, is passed over as controlled by core 1, and core 1, which
is not the lowest, has a process forked for the domain. -/
theorem master_is_not_the_least :
    files_descending.affected_cpus 0 = [1, 0] ∧
    files_descending.affected_cpus 1 = [1, 0] ∧
    resolve_core files_descending 0 = Res.ok (CoreAction.not_master 1) ∧
    resolve_core files_descending 1 = Res.ok (CoreAction.spawned [1, 0]) ∧
    resolve_loop files_descending 2 0
      = Res.ok [CoreAction.not_master 1, CoreAction.spawned [1, 0]] :=
  ⟨rfl, rfl, rfl, rfl, rfl⟩

/-- C17, amended: for every enumerated core `i` with a CPUFreq directory whose list
is readable (1 to 8 ids), the master is the first id of the list: core `i` takes
its domain (core 0) or forks a process for it (any other core) exactly when `i`
is the first id of its own list, which for a list in ascending order that holds
`i` means exactly when `i` is its minimum; and every other core of the list that
reports the same list is passed over. -/
theorem master_is_first_listed (files : CoreFiles) (i : Nat)
    (hd : files.has_cpufreq_dir i = true) (hne : files.affected_cpus i ≠ [])
    (hlen : (files.affected_cpus i).length ≤ MAX_TIED_CORES) :
    resolve_core files i =
      Res.ok (if (files.affected_cpus i).headD 0 = i then
          (if i = 0 then CoreAction.owned (files.affected_cpus i)
           else CoreAction.spawned (files.affected_cpus i))
        else CoreAction.not_master ((files.affected_cpus i).headD 0)) ∧
    ((files.affected_cpus i).Pairwise (fun a b => a ≤ b) → i ∈ files.affected_cpus i →
      ((files.affected_cpus i).headD 0 = i ↔ ∀ c ∈ files.affected_cpus i, i ≤ c)) ∧
    (∀ j ∈ files.affected_cpus i, j ≠ (files.affected_cpus i).headD 0 →
      files.has_cpufreq_dir j = true → files.affected_cpus j = files.affected_cpus i →
      resolve_core files j = Res.ok (CoreAction.not_master ((files.affected_cpus i).headD 0))) := by
  have hl0 : ¬ (files.affected_cpus i).length = 0 := by
    intro h
    exact hne (List.length_eq_zero.mp h)
  refine ⟨?_, fun hs hm => head_least_of_sorted _ i hs hm, ?_⟩
  · unfold resolve_core
    simp only [hd, Bool.true_eq_false, if_false, not_lt.mpr hlen, gt_iff_lt, hl0]
    split_ifs <;> rfl
  · intro j _ hj hdj hsame
    unfold resolve_core
    rw [hsame]
    simp only [hdj, Bool.true_eq_false, if_false, not_lt.mpr hlen, gt_iff_lt, hl0]
    rw [if_neg (fun e => hj e.symm)]

/-- C17, amended, at core 2 of four cores in the two domains `0 1` and `2 3`. -/
theorem master_is_first_listed_witness :
    (files_two_domains.has_cpufreq_dir 2 = true ∧ files_two_domains.affected_cpus 2 ≠ [] ∧
      (files_two_domains.affected_cpus 2).length ≤ MAX_TIED_CORES) ∧
    resolve_loop files_two_domains 4 0 = Res.ok [CoreAction.owned [0, 1],
      CoreAction.not_master 0, CoreAction.spawned [2, 3], CoreAction.not_master 2] ∧
    resolve_core files_two_domains 2 =
      Res.ok (if (files_two_domains.affected_cpus 2).headD 0 = 2 then
          (if 2 = 0 then CoreAction.owned (files_two_domains.affected_cpus 2)
           else CoreAction.spawned (files_two_domains.affected_cpus 2))
        else CoreAction.not_master ((files_two_domains.affected_cpus 2).headD 0)) ∧
    ((files_two_domains.affected_cpus 2).Pairwise (fun a b => a ≤ b) →
      2 ∈ files_two_domains.affected_cpus 2 →
      ((files_two_domains.affected_cpus 2).headD 0 = 2 ↔
        ∀ c ∈ files_two_domains.affected_cpus 2, 2 ≤ c)) ∧
    (∀ j ∈ files_two_domains.affected_cpus 2, j ≠ (files_two_domains.affected_cpus 2).headD 0 →
      files_two_domains.has_cpufreq_dir j = true →
      files_two_domains.affected_cpus j = files_two_domains.affected_cpus 2 →
      resolve_core files_two_domains j
        = Res.ok (CoreAction.not_master ((files_two_domains.affected_cpus 2).headD 0))) :=
  ⟨⟨by decide, by decide, by decide⟩, rfl,
    master_is_first_listed files_two_domains 2 (by decide) (by decide) (by decide)⟩

/-- C18 as stated fails: when state-saving is requested and the speed read at
startup is 0, `saved_speed` is 0 and `term_handler` writes nothing. -/
theorem restore_skipped_for_zero_speed :
    (get_speed (snap_hardware fun _ => 0) State.init).1 = 0 ∧
    (save_state_step true (snap_hardware fun _ => 0) "ondemand" State.init).saved_governor
      = "ondemand" ∧
    term_handler_writes
      (save_state_step true (snap_hardware fun _ => 0) "ondemand" State.init) = [] ∧
    (term_handler (save_state_step true (snap_hardware fun _ => 0) "ondemand" State.init)).written
      = (save_state_step true (snap_hardware fun _ => 0) "ondemand" State.init).written ∧
    (term_handler (save_state_step true (snap_hardware fun _ => 0) "ondemand"
      State.init)).governor_written
      = (save_state_step true (snap_hardware fun _ => 0) "ondemand" State.init).governor_written :=
  ⟨by decide, by decide, by decide, by decide, by decide⟩

/-- C18, amended: `term_handler` restores exactly when state-saving was requested
at startup and the speed read then was not 0: in that case it writes that speed
to the frequency file and then the governor line read at startup to the governor
file, and otherwise it writes nothing to either file; an evaluation in between
does not change what it will write. -/
theorem restore_when_saved_speed_nonzero (save_state : Bool) (hw : Hardware) (gov : String)
    (cfg : Config) (env : Env) (s : State) (h0 : s.saved_speed = 0) :
    (if save_state = true ∧ (get_speed hw s).1 ≠ 0 then
      term_handler_writes (save_state_step save_state hw gov s)
        = [FileWrite.speed (get_speed hw s).1, FileWrite.governor gov] ∧
      (term_handler (save_state_step save_state hw gov s)).written
        = (save_state_step save_state hw gov s).written ++ [(get_speed hw s).1] ∧
      (term_handler (save_state_step save_state hw gov s)).governor_written
        = (save_state_step save_state hw gov s).governor_written ++ [gov]
     else
      term_handler_writes (save_state_step save_state hw gov s) = [] ∧
      (term_handler (save_state_step save_state hw gov s)).written
        = (save_state_step save_state hw gov s).written ∧
      (term_handler (save_state_step save_state hw gov s)).governor_written
        = (save_state_step save_state hw gov s).governor_written) ∧
    (match alarm_handler cfg env (save_state_step save_state hw gov s) with
      | Res.ok s2 =>
        term_handler_writes s2 = term_handler_writes (save_state_step save_state hw gov s)
      | Res.died => True
      | Res.fuel => True) := by
  constructor
  · split_ifs with hc
    · obtain ⟨hs, hv⟩ := hc
      subst hs
      have e1 : (save_state_step true hw gov s).saved_speed = (get_speed hw s).1 := rfl
      have e2 : (save_state_step true hw gov s).saved_governor = gov := rfl
      refine ⟨?_, ?_, ?_⟩
      · unfold term_handler_writes
        rw [e1, e2, if_pos hv]
      · unfold term_handler
        rw [e1, if_pos hv]
        rfl
      · unfold term_handler
        rw [e1, if_pos hv]
        rfl
    · have e1 : (save_state_step save_state hw gov s).saved_speed = 0 := by
        cases save_state with
        | false => exact h0
        | true =>
          have : (get_speed hw s).1 = 0 := by
            by_contra hne
            exact hc ⟨rfl, hne⟩
          exact this
      refine ⟨?_, ?_, ?_⟩
      · unfold term_handler_writes
        rw [e1]
        simp
      · unfold term_handler
        rw [e1]
        simp
      · unfold term_handler
        rw [e1]
        simp
  · cases h : alarm_handler cfg env (save_state_step save_state hw gov s) with
    | ok s2 =>
      obtain ⟨a, b⟩ := alarm_handler_saved cfg env _ s2 h
      show term_handler_writes s2 = _
      unfold term_handler_writes
      rw [a, b]
    | died => trivial
    | fuel => trivial

/-- C18, amended, at a start with state-saving where the frequency file reads
1.8 GHz and the governor file reads `ondemand`. -/
theorem restore_when_saved_speed_nonzero_witness :
    State.init.saved_speed = 0 ∧
    (get_speed (snap_hardware fun _ => 1800000) State.init).1 = 1800000 ∧
    (term_handler_writes (save_state_step true (snap_hardware fun _ => 1800000) "ondemand"
        State.init)
        = [FileWrite.speed (get_speed (snap_hardware fun _ => 1800000) State.init).1,
          FileWrite.governor "ondemand"] ∧
      (term_handler (save_state_step true (snap_hardware fun _ => 1800000) "ondemand"
        State.init)).written
        = (save_state_step true (snap_hardware fun _ => 1800000) "ondemand" State.init).written
          ++ [(get_speed (snap_hardware fun _ => 1800000) State.init).1] ∧
      (term_handler (save_state_step true (snap_hardware fun _ => 1800000) "ondemand"
        State.init)).governor_written
        = (save_state_step true (snap_hardware fun _ => 1800000) "ondemand"
          State.init).governor_written ++ ["ondemand"]) ∧
    (match alarm_handler Config.default env_idle
        (save_state_step true (snap_hardware fun _ => 1800000) "ondemand" State.init) with
      | Res.ok s2 =>
        term_handler_writes s2 = term_handler_writes
          (save_state_step true (snap_hardware fun _ => 1800000) "ondemand" State.init)
      | Res.died => True
      | Res.fuel => True) := by
  have h := restore_when_saved_speed_nonzero true (snap_hardware fun _ => 1800000) "ondemand"
    Config.default env_idle State.init rfl
  rw [if_pos (by decide)] at h
  exact ⟨rfl, by decide, h.1, h.2⟩

/-- C19 fails on the code.  On a plain file with exactly 15 steps of 25 MHz the
first pass requests 1325000 down to 1000000, records its fifteenth step on the
final probe at `min`, and is abandoned all the same, because the test after the
walk is `current_speed + 1 != MAX_SPEEDS`; the table returned is the one of the
pass at 50 MHz, with 8 steps. -/
theorem pass_with_fifteen_steps_abandoned :
    (walk_requests 1350000 1000000 25000).length = 14 ∧
    (walk_requests 1350000 1000000 25000).getLast? = some 1000000 ∧
    get_supported_speeds cpu_fifteen Config.default State.init = Res.ok fifteen_table ∧
    (fifteen_table.written.drop 54).take 15 = 1350000 :: walk_requests 1350000 1000000 25000 ∧
    fifteen_table.stored = List.range 15 ++ List.range 9 ∧
    fifteen_table.last_step = 7 ∧
    (List.range (fifteen_table.last_step + 1)).map fifteen_table.speeds
      = [1350000, 1300000, 1250000, 1200000, 1150000, 1100000, 1050000, 1000000] :=
  ⟨by decide, by decide, rfl, by decide, by decide, by decide, by decide⟩

/-! ## Facts about the main loop -/

/-- A next-due counter is at the tick counter exactly when its interval divides the
tick counter. -/
theorem due_fires (i c t : Nat) (h : Due i c t) : c = t ↔ i ∣ c := by
  obtain ⟨h1, h2, h3⟩ := h
  constructor
  · intro e
    rw [e]
    exact h3
  · intro hc
    have hd : i ∣ t - c := Nat.dvd_sub' h3 hc
    have h0 : t - c = 0 := Nat.eq_zero_of_dvd_of_lt hd (by omega)
    omega

/-- After the test of a pass the next-due counter is the next multiple of its
interval above the tick counter. -/
theorem due_next (i c t : Nat) (hi : 0 < i) (h : Due i c t)
    (hno : c = t → t + i < UINT_MOD) :
    c < (if c = t then uadd t i else t) ∧ (if c = t then uadd t i else t) ≤ c + i ∧
    i ∣ (if c = t then uadd t i else t) := by
  obtain ⟨h1, h2, h3⟩ := h
  by_cases e : c = t
  · have hu : uadd t i = t + i := Nat.mod_eq_of_lt (hno e)
    rw [if_pos e, hu]
    exact ⟨by omega, by omega, Nat.dvd_add h3 (Nat.dvd_refl i)⟩
  · rw [if_neg e]
    exact ⟨by omega, by omega, h3⟩

/-- The next multiple of an interval above the tick counter is the least one. -/
theorem due_least (i c t m : Nat) (h2 : t ≤ c + i) (h3 : i ∣ t) (hm : i ∣ m)
    (hc : c < m) : t ≤ m := by
  by_contra hlt
  have hd : i ∣ t - m := Nat.dvd_sub' h3 hm
  have h0 : t - m = 0 := Nat.eq_zero_of_dvd_of_lt hd (by omega)
  omega

/-- One pass of the main loop from scheduled counters. -/
theorem main_tick_spec (cfg : Config) (iv : Intervals) (l : Loop)
    (hi : 0 < iv.interval) (ht : 0 < iv.therm_interval) (ha : 0 < iv.ac_interval)
    (hs : Scheduled cfg iv l) (hno : no_overflow cfg iv l) :
    Scheduled cfg iv (main_tick cfg iv l).loop ∧
    l.counter < (main_tick cfg iv l).loop.counter ∧
    ((main_tick cfg iv l).check_cpu = true ↔ iv.interval ∣ l.counter) ∧
    ((main_tick cfg iv l).check_therm = true ↔
      cfg.temperature_filename.isSome = true ∧ iv.therm_interval ∣ l.counter) ∧
    ((main_tick cfg iv l).check_ac = true ↔
      cfg.ac_filename.isSome = true ∧ iv.ac_interval ∣ l.counter) ∧
    (∀ m, l.counter < m →
      (iv.interval ∣ m ∨ (cfg.temperature_filename.isSome = true ∧ iv.therm_interval ∣ m) ∨
        (cfg.ac_filename.isSome = true ∧ iv.ac_interval ∣ m)) →
      (main_tick cfg iv l).loop.counter ≤ m) ∧
    (main_tick cfg iv l).tv_sec = ((main_tick cfg iv l).loop.counter - l.counter) / 10 ∧
    (main_tick cfg iv l).tv_nsec
      = ((main_tick cfg iv l).loop.counter - l.counter) % 10 * 100000000 := by
  obtain ⟨c, a, b, e⟩ := l
  obtain ⟨hlt, hda, hdb, hde, hat⟩ := hs
  obtain ⟨hna, hnb, hne⟩ := hno
  simp only at hlt hda hdb hde hat hna hnb hne
  have ka := due_next iv.interval c a hi hda hna
  have fa := due_fires iv.interval c a hda
  have ua : (if c = a then uadd a iv.interval else a) < UINT_MOD := by
    split_ifs
    · exact Nat.mod_lt _ (by decide)
    · exact hlt
  by_cases hth : cfg.temperature_filename.isSome = true
  · rw [if_pos hth] at hdb
    have kb := due_next _ c b ht hdb (hnb hth)
    have fb := due_fires _ c b hdb
    by_cases hac : cfg.ac_filename.isSome = true
    · rw [if_pos hac] at hde
      have ke := due_next _ c e ha hde (hne hac)
      have fe := due_fires _ c e hde
      simp only [main_tick, Scheduled, Due, hth, hac, true_and, if_true, decide_eq_true_eq]
      generalize (if c = a then uadd a iv.interval else a) = a1 at *
      generalize (if c = b then uadd b iv.therm_interval else b) = b1 at *
      generalize (if c = e then uadd e iv.ac_interval else e) = e1 at *
      have hn : c < MIN (MIN a1 b1) e1 ∧ MIN (MIN a1 b1) e1 ≤ a1 ∧ MIN (MIN a1 b1) e1 ≤ b1 ∧
          MIN (MIN a1 b1) e1 ≤ e1 ∧ (MIN (MIN a1 b1) e1 = a1 ∨ MIN (MIN a1 b1) e1 = b1 ∨
            MIN (MIN a1 b1) e1 = e1) := by
        unfold MIN
        split_ifs <;> omega
      generalize MIN (MIN a1 b1) e1 = nx at *
      have hu : usub nx c = nx - c := usub_le nx c (by omega) (by omega)
      rw [hu]
      refine ⟨⟨ua, ⟨hn.2.1, by omega, ka.2.2⟩, ⟨hn.2.2.1, by omega, kb.2.2⟩,
        ⟨hn.2.2.2.1, by omega, ke.2.2⟩, hn.2.2.2.2⟩, hn.1, fa, fb, fe, ?_, rfl, rfl⟩
      intro m hm hdiv
      rcases hdiv with h | h | h
      · have := due_least _ c a1 m ka.2.1 ka.2.2 h hm
        omega
      · have := due_least _ c b1 m kb.2.1 kb.2.2 h hm
        omega
      · have := due_least _ c e1 m ke.2.1 ke.2.2 h hm
        omega
    · rw [if_neg hac] at hde
      simp only [main_tick, Scheduled, Due, hth, hac, true_and, false_and, if_true, if_false,
        decide_eq_true_eq, or_false, decide_False, Bool.false_eq_true, false_iff, not_false_eq_true]
      generalize (if c = a then uadd a iv.interval else a) = a1 at *
      generalize (if c = b then uadd b iv.therm_interval else b) = b1 at *
      have hn : c < MIN a1 b1 ∧ MIN a1 b1 ≤ a1 ∧ MIN a1 b1 ≤ b1 ∧
          (MIN a1 b1 = a1 ∨ MIN a1 b1 = b1) := by
        unfold MIN
        split_ifs <;> omega
      generalize MIN a1 b1 = nx at *
      have hu : usub nx c = nx - c := usub_le nx c (by omega) (by omega)
      rw [hu]
      refine ⟨⟨ua, ⟨hn.2.1, by omega, ka.2.2⟩, ⟨hn.2.2.1, by omega, kb.2.2⟩,
        hde, hn.2.2.2⟩, hn.1, fa, fb, ?_, rfl, rfl⟩
      intro m hm hdiv
      rcases hdiv with h | h
      · have := due_least _ c a1 m ka.2.1 ka.2.2 h hm
        omega
      · have := due_least _ c b1 m kb.2.1 kb.2.2 h hm
        omega
  · rw [if_neg hth] at hdb
    by_cases hac : cfg.ac_filename.isSome = true
    · rw [if_pos hac] at hde
      have ke := due_next _ c e ha hde (hne hac)
      have fe := due_fires _ c e hde
      simp only [main_tick, Scheduled, Due, hth, hac, true_and, false_and, if_true, if_false,
        decide_eq_true_eq, false_or, decide_False, Bool.false_eq_true, false_iff,
        not_false_eq_true]
      generalize (if c = a then uadd a iv.interval else a) = a1 at *
      generalize (if c = e then uadd e iv.ac_interval else e) = e1 at *
      have hn : c < MIN a1 e1 ∧ MIN a1 e1 ≤ a1 ∧ MIN a1 e1 ≤ e1 ∧
          (MIN a1 e1 = a1 ∨ MIN a1 e1 = e1) := by
        unfold MIN
        split_ifs <;> omega
      generalize MIN a1 e1 = nx at *
      have hu : usub nx c = nx - c := usub_le nx c (by omega) (by omega)
      rw [hu]
      refine ⟨⟨ua, ⟨hn.2.1, by omega, ka.2.2⟩, hdb,
        ⟨hn.2.2.1, by omega, ke.2.2⟩, hn.2.2.2⟩, hn.1, fa, fe, ?_, rfl, rfl⟩
      intro m hm hdiv
      rcases hdiv with h | h
      · have := due_least _ c a1 m ka.2.1 ka.2.2 h hm
        omega
      · have := due_least _ c e1 m ke.2.1 ke.2.2 h hm
        omega
    · rw [if_neg hac] at hde
      simp only [main_tick, Scheduled, Due, hth, hac, false_and, if_false,
        decide_eq_true_eq, or_false, decide_False, Bool.false_eq_true, false_iff,
        not_false_eq_true, true_and]
      generalize (if c = a then uadd a iv.interval else a) = a1 at *
      have hu : usub a1 c = a1 - c := usub_le a1 c (by omega) (by omega)
      rw [hu]
      refine ⟨⟨ua, ⟨le_refl _, by omega, ka.2.2⟩, hdb, hde, trivial⟩, ka.1, fa, ?_, rfl, rfl⟩
      intro m hm hdiv
      exact due_least _ c a1 m ka.2.1 ka.2.2 hdiv hm

/-- The counters are scheduled at the start of every pass. -/
theorem loop_after_scheduled (cfg : Config) (iv : Intervals)
    (hi : 0 < iv.interval) (ht : 0 < iv.therm_interval) (ha : 0 < iv.ac_interval) (n : Nat)
    (hno : ∀ j, j < n → no_overflow cfg iv (loop_after cfg iv j)) :
    Scheduled cfg iv (loop_after cfg iv n) := by
  induction n with
  | zero =>
    have h0 : (0 : Nat) < UINT_MOD := by decide
    simp [loop_after, Scheduled, Due, Loop.start, hi, ht, ha, h0]
  | succ n ih =>
    exact (main_tick_spec cfg iv _ hi ht ha (ih fun j hj => hno j (by omega))
      (hno n (by omega))).1

/-- Every multiple of an active interval up to the tick counter reached was the tick
counter of a pass. -/
theorem loop_after_visits (cfg : Config) (iv : Intervals)
    (hi : 0 < iv.interval) (ht : 0 < iv.therm_interval) (ha : 0 < iv.ac_interval) (n : Nat)
    (hno : ∀ j, j < n → no_overflow cfg iv (loop_after cfg iv j)) (m : Nat)
    (hm : m ≤ (loop_after cfg iv n).counter)
    (hdiv : iv.interval ∣ m ∨ (cfg.temperature_filename.isSome = true ∧ iv.therm_interval ∣ m) ∨
        (cfg.ac_filename.isSome = true ∧ iv.ac_interval ∣ m)) :
    ∃ j, j ≤ n ∧ (loop_after cfg iv j).counter = m := by
  induction n with
  | zero =>
    refine ⟨0, le_refl _, ?_⟩
    have : (loop_after cfg iv 0).counter = 0 := rfl
    omega
  | succ n ih =>
    by_cases hle : m ≤ (loop_after cfg iv n).counter
    · obtain ⟨j, hj, e⟩ := ih (fun j hj => hno j (by omega)) hle
      exact ⟨j, by omega, e⟩
    · have hsch := loop_after_scheduled cfg iv hi ht ha n fun j hj => hno j (by omega)
      have hsp := main_tick_spec cfg iv _ hi ht ha hsch (hno n (by omega))
      have := hsp.2.2.2.2.2.1 m (by omega) hdiv
      refine ⟨n + 1, le_refl _, ?_⟩
      have e : (loop_after cfg iv (n + 1)).counter
          = (main_tick cfg iv (loop_after cfg iv n)).loop.counter := rfl
      omega

/-- C20. In the main loop with positive intervals, as long as no `+=` of a
next-due counter wraps: at the start of every pass each active next-due counter is
at least the tick counter; after the sleep the tick counter is the least of the
active next-due counters; a check is marked in a pass exactly when it is active
and its interval divides the tick counter of that pass, the tick counter grows,
and every multiple of an active interval up to the tick counter reached was the
tick counter of some pass; at least one check is marked in every pass, so every
pass runs the evaluation; and the sleep asked for is the distance to the new tick
counter in tenths of a second, with `tv_nsec` below 10^9. -/
theorem main_loop_schedule (cfg : Config) (iv : Intervals) (n : Nat)
    (hi : 0 < iv.interval) (ht : 0 < iv.therm_interval) (ha : 0 < iv.ac_interval)
    (hno : ∀ j, j ≤ n → no_overflow cfg iv (loop_after cfg iv j)) :
    ((loop_after cfg iv n).counter ≤ (loop_after cfg iv n).cpu_interval_timeout ∧
      (cfg.temperature_filename.isSome = true →
        (loop_after cfg iv n).counter ≤ (loop_after cfg iv n).therm_interval_timeout) ∧
      (cfg.ac_filename.isSome = true →
        (loop_after cfg iv n).counter ≤ (loop_after cfg iv n).ac_interval_timeout)) ∧
    ((loop_after cfg iv (n + 1)).counter ≤ (loop_after cfg iv (n + 1)).cpu_interval_timeout ∧
      (cfg.temperature_filename.isSome = true →
        (loop_after cfg iv (n + 1)).counter
          ≤ (loop_after cfg iv (n + 1)).therm_interval_timeout) ∧
      (cfg.ac_filename.isSome = true →
        (loop_after cfg iv (n + 1)).counter ≤ (loop_after cfg iv (n + 1)).ac_interval_timeout) ∧
      ((loop_after cfg iv (n + 1)).counter = (loop_after cfg iv (n + 1)).cpu_interval_timeout ∨
        (cfg.temperature_filename.isSome = true ∧
          (loop_after cfg iv (n + 1)).counter
            = (loop_after cfg iv (n + 1)).therm_interval_timeout) ∨
        (cfg.ac_filename.isSome = true ∧
          (loop_after cfg iv (n + 1)).counter
            = (loop_after cfg iv (n + 1)).ac_interval_timeout))) ∧
    (((main_tick cfg iv (loop_after cfg iv n)).check_cpu = true ↔
        iv.interval ∣ (loop_after cfg iv n).counter) ∧
      ((main_tick cfg iv (loop_after cfg iv n)).check_therm = true ↔
        cfg.temperature_filename.isSome = true ∧
          iv.therm_interval ∣ (loop_after cfg iv n).counter) ∧
      ((main_tick cfg iv (loop_after cfg iv n)).check_ac = true ↔
        cfg.ac_filename.isSome = true ∧ iv.ac_interval ∣ (loop_after cfg iv n).counter)) ∧
    ((loop_after cfg iv n).counter < (loop_after cfg iv (n + 1)).counter ∧
      ∀ m, m ≤ (loop_after cfg iv (n + 1)).counter →
        (iv.interval ∣ m ∨ (cfg.temperature_filename.isSome = true ∧ iv.therm_interval ∣ m) ∨
          (cfg.ac_filename.isSome = true ∧ iv.ac_interval ∣ m)) →
        ∃ j, j ≤ n + 1 ∧ (loop_after cfg iv j).counter = m) ∧
    (((main_tick cfg iv (loop_after cfg iv n)).check_cpu = true ∨
        (main_tick cfg iv (loop_after cfg iv n)).check_therm = true ∨
        (main_tick cfg iv (loop_after cfg iv n)).check_ac = true) ∧
      ∀ env s, main_iteration cfg iv env (loop_after cfg iv n) s
        = (alarm_handler cfg env
            { s with
                check_cpu := s.check_cpu || (main_tick cfg iv (loop_after cfg iv n)).check_cpu
                check_therm :=
                  s.check_therm || (main_tick cfg iv (loop_after cfg iv n)).check_therm
                check_ac :=
                  s.check_ac || (main_tick cfg iv (loop_after cfg iv n)).check_ac }).bind
          fun s2 => Res.ok (loop_after cfg iv (n + 1), s2)) ∧
    ((main_tick cfg iv (loop_after cfg iv n)).tv_sec
        = ((loop_after cfg iv (n + 1)).counter - (loop_after cfg iv n).counter) / 10 ∧
      (main_tick cfg iv (loop_after cfg iv n)).tv_nsec
        = ((loop_after cfg iv (n + 1)).counter - (loop_after cfg iv n).counter) % 10
          * 100000000 ∧
      (main_tick cfg iv (loop_after cfg iv n)).tv_nsec < 1000000000 ∧
      (main_tick cfg iv (loop_after cfg iv n)).tv_sec * 1000000000
          + (main_tick cfg iv (loop_after cfg iv n)).tv_nsec
        = ((loop_after cfg iv (n + 1)).counter - (loop_after cfg iv n).counter) * 100000000) := by
  have hs := loop_after_scheduled cfg iv hi ht ha n fun j hj => hno j (by omega)
  have hsp := main_tick_spec cfg iv _ hi ht ha hs (hno n (le_refl _))
  have hs1 := loop_after_scheduled cfg iv hi ht ha (n + 1) fun j hj => hno j (by omega)
  obtain ⟨-, ha0, hb0, he0, hat⟩ := hs
  obtain ⟨-, hlt, fa, fb, fe, -, hsec, hnsec⟩ := hsp
  obtain ⟨-, ha1, hb1, he1, hat1⟩ := hs1
  have hfire : (main_tick cfg iv (loop_after cfg iv n)).check_cpu = true ∨
      (main_tick cfg iv (loop_after cfg iv n)).check_therm = true ∨
      (main_tick cfg iv (loop_after cfg iv n)).check_ac = true := by
    rcases hat with h | h | h
    · exact Or.inl (decide_eq_true h)
    · exact Or.inr (Or.inl (decide_eq_true h))
    · exact Or.inr (Or.inr (decide_eq_true h))
  refine ⟨⟨ha0.1, ?_, ?_⟩, ⟨ha1.1, ?_, ?_, hat1⟩, ⟨fa, fb, fe⟩, ⟨hlt, ?_⟩, ⟨hfire, ?_⟩,
    hsec, hnsec, ?_, ?_⟩
  · intro h
    rw [if_pos h] at hb0
    exact hb0.1
  · intro h
    rw [if_pos h] at he0
    exact he0.1
  · intro h
    rw [if_pos h] at hb1
    exact hb1.1
  · intro h
    rw [if_pos h] at he1
    exact he1.1
  · intro m hm hdiv
    exact loop_after_visits cfg iv hi ht ha (n + 1) (fun j hj => hno j (by omega)) m hm hdiv
  · intro env s
    unfold main_iteration
    simp only []
    rw [if_pos]
    · rfl
    · rcases hfire with h | h | h
      · exact Or.inl (by simp [h])
      · exact Or.inr (Or.inr (by simp [h]))
      · exact Or.inr (Or.inl (by simp [h]))
  · rw [hnsec]
    omega
  · have key : ∀ d : Nat, d / 10 * 1000000000 + d % 10 * 100000000 = d * 100000000 := by
      intro d
      omega
    rw [hsec, hnsec]
    exact key _

/-- C20 at the third pass with both files configured, a load interval of 1.5 s
and a thermal interval of 1 s: the pass starts at tick 15, only the load check is
marked, and the sleep is half a second, up to tick 20. -/
theorem main_loop_schedule_witness :
    (0 < intervals_15_10.interval ∧ 0 < intervals_15_10.therm_interval ∧
      0 < intervals_15_10.ac_interval) ∧
    (loop_after cfg_all_checks intervals_15_10 2).counter = 15 ∧
    (loop_after cfg_all_checks intervals_15_10 3).counter = 20 ∧
    (main_tick cfg_all_checks intervals_15_10
      (loop_after cfg_all_checks intervals_15_10 2)).check_cpu = true ∧
    (main_tick cfg_all_checks intervals_15_10
      (loop_after cfg_all_checks intervals_15_10 2)).check_therm = false ∧
    (main_tick cfg_all_checks intervals_15_10
      (loop_after cfg_all_checks intervals_15_10 2)).tv_sec = 0 ∧
    (main_tick cfg_all_checks intervals_15_10
      (loop_after cfg_all_checks intervals_15_10 2)).tv_nsec = 500000000 ∧
    ((loop_after cfg_all_checks intervals_15_10 2).counter
        < (loop_after cfg_all_checks intervals_15_10 (2 + 1)).counter ∧
      ∀ m, m ≤ (loop_after cfg_all_checks intervals_15_10 (2 + 1)).counter →
        (intervals_15_10.interval ∣ m ∨
          (cfg_all_checks.temperature_filename.isSome = true ∧
            intervals_15_10.therm_interval ∣ m) ∨
          (cfg_all_checks.ac_filename.isSome = true ∧ intervals_15_10.ac_interval ∣ m)) →
        ∃ j, j ≤ 2 + 1 ∧ (loop_after cfg_all_checks intervals_15_10 j).counter = m) :=
  ⟨by decide, by decide, by decide, by decide, by decide, by decide, by decide,
    (main_loop_schedule cfg_all_checks intervals_15_10 2 (by decide) (by decide) (by decide)
      (fun j hj => by
        unfold no_overflow
        interval_cases j <;> decide)).2.2.2.1⟩

/-! ## Facts about the indices of the table -/

/-- The loop of the ramp writes the table entries at the indices it reads, in the
order it reads them, and does nothing else. -/
theorem set_speed_loop_reads (delta : Int) (target : Nat) :
    ∀ (n current : Nat) (s : State),
      set_speed_loop delta target n current s =
        (set_speed_loop_indices delta target n current).bind fun idx =>
          Res.ok { s with written := s.written ++ idx.map s.speeds } := by
  intro n
  induction n with
  | zero => intro current s; rfl
  | succ n ih =>
    intro current s
    rw [set_speed_loop, set_speed_loop_indices]
    split_ifs with hne
    · rw [ih]
      cases set_speed_loop_indices delta target n (uadd_int current delta) with
      | ok rest => simp [Res.bind, set_speed]
      | died => rfl
      | fuel => rfl
    · simp [Res.bind, set_speed]

/-- The ramp writes the table entries at the indices it reads, in the order it
reads them, and does nothing else. -/
theorem set_speed_to_reads (current target : Nat) (s : State) :
    set_speed_to current target s =
      (set_speed_indices current target).bind fun idx =>
        Res.ok { s with written := s.written ++ idx.map s.speeds } := by
  unfold set_speed_to set_speed_indices
  split_ifs with he
  · simp [Res.bind]
  · exact set_speed_loop_reads _ _ _ _ _
  · exact set_speed_loop_reads _ _ _ _ _

/-- The indices read by the loop of a ramp going up. -/
theorem set_speed_loop_indices_up (target : Nat) (ht : target < UINT_MOD) :
    ∀ (k n current : Nat), current + k + 1 = target → k < n →
      set_speed_loop_indices 1 target n current =
        Res.ok ((List.range (k + 1)).map fun j => current + (j + 1)) := by
  intro k
  induction k with
  | zero =>
    intro n current hk hn
    obtain ⟨m, rfl⟩ : ∃ m, n = m + 1 := ⟨n - 1, by omega⟩
    have hc : uadd_int current 1 = current + 1 := uadd_int_succ current (by omega)
    have ht2 : current + 1 = target := by omega
    simp [set_speed_loop_indices, hc, ht2, List.range_succ]
  | succ k ih =>
    intro n current hk hn
    obtain ⟨m, rfl⟩ : ∃ m, n = m + 1 := ⟨n - 1, by omega⟩
    have hc : uadd_int current 1 = current + 1 := uadd_int_succ current (by omega)
    have hne : current + 1 ≠ target := by omega
    rw [set_speed_loop_indices]
    simp only [hc, hne, ne_eq, not_false_eq_true, if_true]
    rw [ih m (current + 1) (by omega) (by omega)]
    simp only [Res.bind]
    rw [List.range_succ_eq_map (k + 1)]
    simp only [List.map_cons, List.map_map]
    congr 1
    refine congrArg₂ _ (by simp) (List.map_congr_left ?_)
    intro j _
    simp only [Function.comp, Nat.succ_eq_add_one]
    omega

/-- The indices read by the loop of a ramp going down. -/
theorem set_speed_loop_indices_down (target : Nat) :
    ∀ (k n current : Nat), target + k + 1 = current → current < UINT_MOD → k < n →
      set_speed_loop_indices (-1) target n current =
        Res.ok ((List.range (k + 1)).map fun j => current - (j + 1)) := by
  intro k
  induction k with
  | zero =>
    intro n current hk hlt hn
    obtain ⟨m, rfl⟩ : ∃ m, n = m + 1 := ⟨n - 1, by omega⟩
    have hc : uadd_int current (-1) = current - 1 := uadd_int_pred current (by omega) hlt
    have ht2 : current - 1 = target := by omega
    simp [set_speed_loop_indices, hc, ht2, List.range_succ]
  | succ k ih =>
    intro n current hk hlt hn
    obtain ⟨m, rfl⟩ : ∃ m, n = m + 1 := ⟨n - 1, by omega⟩
    have hc : uadd_int current (-1) = current - 1 := uadd_int_pred current (by omega) hlt
    have hne : current - 1 ≠ target := by omega
    rw [set_speed_loop_indices]
    simp only [hc, hne, ne_eq, not_false_eq_true, if_true]
    rw [ih m (current - 1) (by omega) (by omega) (by omega)]
    simp only [Res.bind]
    rw [List.range_succ_eq_map (k + 1)]
    simp only [List.map_cons, List.map_map]
    congr 1
    refine congrArg₂ _ (by simp) (List.map_congr_left ?_)
    intro j _
    simp only [Function.comp, Nat.succ_eq_add_one]
    omega

/-- The indices that a ramp between two `unsigned` values reads: every index from
the one next to `current` to `target`, in this order. -/
theorem set_speed_indices_eq (current target : Nat) (hc : current < UINT_MOD)
    (ht : target < UINT_MOD) :
    set_speed_indices current target =
      Res.ok (if current ≤ target then
          (List.range (target - current)).map fun j => current + (j + 1)
        else (List.range (current - target)).map fun j => current - (j + 1)) := by
  rcases Nat.lt_trichotomy current target with h | h | h
  · have hne : current ≠ target := by omega
    have hgt : ¬ current > target := by omega
    simp only [set_speed_indices, hne, hgt, if_false]
    rw [set_speed_loop_indices_up target ht (target - current - 1) UINT_MOD current (by omega)
      (by omega), if_pos (by omega)]
    have e : target - current - 1 + 1 = target - current := by omega
    rw [e]
  · subst h
    simp [set_speed_indices]
  · have hne : current ≠ target := by omega
    simp only [set_speed_indices, hne, h, gt_iff_lt, if_true, if_false]
    rw [set_speed_loop_indices_down target (current - target - 1) UINT_MOD current (by omega) hc
      (by omega), if_neg (by omega)]
    have e : current - target - 1 + 1 = current - target := by omega
    rw [e]

/-- Every index that a ramp reads lies between its two ends. -/
theorem set_speed_indices_mem (current target : Nat) (hc : current < UINT_MOD)
    (ht : target < UINT_MOD) (idx : List Nat)
    (h : set_speed_indices current target = Res.ok idx) :
    ∀ k ∈ idx, (k ≤ current ∨ k ≤ target) ∧ (current ≤ k ∨ target ≤ k) ∧ k ≠ current := by
  rw [set_speed_indices_eq current target hc ht] at h
  cases h
  intro k hk
  split_ifs at hk with hle
  · obtain ⟨j, hj, rfl⟩ := List.mem_map.mp hk
    have := List.mem_range.mp hj
    omega
  · obtain ⟨j, hj, rfl⟩ := List.mem_map.mp hk
    have := List.mem_range.mp hj
    omega

/-- The policy block has no loop: it returns or dies. -/
theorem policy_state_returns (cfg : Config) (env : Env) (s : State) :
    policy_state cfg env s ≠ Res.fuel := by
  unfold policy_state
  simp only
  split_ifs <;> first
    | exact fun h => Res.noConfusion h
    | (split <;> first
        | exact fun h => Res.noConfusion h
        | (split_ifs <;> exact fun h => Res.noConfusion h))

/-- An entry of `wanted_speed` is at most one index slower than the current index,
and where it is slower the table entry at it is not the terminator. -/
theorem wanted_speed_of_step (cfg : Config) (s : State) (e d : Nat)
    (hc : s.current_speed + 1 < UINT_MOD) :
    wanted_speed_of cfg s e d ≤ s.current_speed + 1 ∧
    (s.current_speed < wanted_speed_of cfg s e d →
      s.speeds (wanted_speed_of cfg s e d) ≠ 0) := by
  have hu : uadd s.current_speed 1 = s.current_speed + 1 := Nat.mod_eq_of_lt hc
  have hs : 0 < s.current_speed → usub s.current_speed 1 = s.current_speed - 1 :=
    fun h => usub_le s.current_speed 1 (by omega) (by omega)
  unfold wanted_speed_of
  simp only [hu]
  split_ifs with h1 h2 h3 h4
  · exact ⟨by omega, fun h => absurd h (by omega)⟩
  · rw [hs h3.2]
    exact ⟨by omega, fun h => absurd h (by omega)⟩
  · exact ⟨le_refl _, fun _ => h4.2⟩
  · exact ⟨by omega, fun h => absurd h (by omega)⟩
  · exact ⟨by omega, fun h => absurd h (by omega)⟩

/-- The index that the `switch` of an evaluation chooses stays within the table,
and in `SPEED_DYNAMIC` state it is at most one index slower, never at or past the
terminator. -/
theorem switch_state_in_table (cfg : Config) (env : Env) (st : Mode) (s : State)
    (hn : 1 ≤ cfg.num_tied_cores) (hls : s.last_step + 1 < MAX_SPEEDS)
    (hc : s.current_speed ≤ s.last_step) (hz : s.speeds (s.last_step + 1) = 0) :
    (switch_state cfg env st s).current_speed ≤ s.last_step ∧
    (st = Mode.SPEED_DYNAMIC →
      (switch_state cfg env st s).current_speed ≤ s.current_speed + 1 ∧
      (s.current_speed < (switch_state cfg env st s).current_speed →
        s.speeds (switch_state cfg env st s).current_speed ≠ 0)) := by
  have hlt : s.current_speed + 1 < UINT_MOD := by
    unfold MAX_SPEEDS at hls
    unfold UINT_MOD
    omega
  cases st with
  | SPEED_MIN => exact ⟨le_refl _, fun h => Mode.noConfusion h⟩
  | SPEED_MAX => exact ⟨Nat.zero_le _, fun h => Mode.noConfusion h⟩
  | SPEED_DYNAMIC =>
    by_cases hcpu : s.check_cpu = false
    · simp only [switch_state, hcpu, if_true]
      exact ⟨hc, fun _ => ⟨by omega, fun h => absurd h (by omega)⟩⟩
    · have hw : (wanted_loop cfg env cfg.num_tied_cores 0 s).2 = wanted_speeds cfg env s := by
        rw [wanted_loop_eq cfg env s cfg.num_tied_cores 0 s (fun j _ => ⟨rfl, rfl⟩) rfl rfl]
        simp [wanted_speeds]
      have hne : wanted_speeds cfg env s ≠ [] := by
        intro h0
        have := congrArg List.length h0
        simp [wanted_speeds] at this
        omega
      have hq := qsort_icomp_head (wanted_speeds cfg env s) hne
        (wanted_speeds_lt cfg env s (by unfold MAX_SPEEDS at hls; omega))
      have hsw : (switch_state cfg env Mode.SPEED_DYNAMIC s).current_speed
          = (qsort icomp (wanted_speeds cfg env s)).headD 0 := by
        simp [switch_state, hcpu, hw]
      rw [hsw]
      obtain ⟨i, _, hi⟩ := List.mem_map.mp hq.1
      rw [← hi]
      have hstep := wanted_speed_of_step cfg s (core_sample cfg env s i).1
        (core_sample cfg env s i).2 hlt
      refine ⟨?_, fun _ => hstep⟩
      by_contra hgt
      have hbig : s.current_speed < wanted_speed_of cfg s (core_sample cfg env s i).1
          (core_sample cfg env s i).2 := by omega
      have heq : wanted_speed_of cfg s (core_sample cfg env s i).1
          (core_sample cfg env s i).2 = s.last_step + 1 := by omega
      have hnz := hstep.2 hbig
      rw [heq] at hnz
      exact hnz hz

/-- An evaluation from a state whose index is within a terminated table of at most
`MAX_SPEEDS - 1` steps returns unless its policy block dies, and leaves the index
within the table, reading and writing table entries only. -/
theorem alarm_handler_in_table (cfg : Config) (env : Env) (s : State)
    (hn : 1 ≤ cfg.num_tied_cores) (hls : s.last_step + 1 < MAX_SPEEDS)
    (hc : s.current_speed ≤ s.last_step) (hz : s.speeds (s.last_step + 1) = 0) :
    alarm_handler cfg env s ≠ Res.fuel ∧
    (alarm_handler cfg env s = Res.died → policy_state cfg env s = Res.died) ∧
    ∀ s2, alarm_handler cfg env s = Res.ok s2 →
      s2.speeds = s.speeds ∧ s2.last_step = s.last_step ∧ s2.current_speed ≤ s.last_step ∧
      (∀ s1, policy_state cfg env s = Res.ok (Mode.SPEED_DYNAMIC, s1) →
        s2.current_speed ≤ s.current_speed + 1 ∧
        (s.current_speed < s2.current_speed → s.speeds s2.current_speed ≠ 0)) ∧
      ∃ idx, set_speed_indices s.current_speed s2.current_speed = Res.ok idx ∧
        s2.written = s.written ++ idx.map s.speeds ∧ ∀ k ∈ idx, k ≤ s.last_step := by
  have hU : s.last_step < UINT_MOD := by
    unfold MAX_SPEEDS at hls
    unfold UINT_MOD
    omega
  cases hp : policy_state cfg env s with
  | fuel => exact absurd hp (policy_state_returns cfg env s)
  | died =>
    have hd := alarm_handler_died cfg env s hp
    rw [hd]
    exact ⟨fun h => Res.noConfusion h, fun _ => rfl, fun s2 h => Res.noConfusion h⟩
  | ok p =>
    obtain ⟨st, s1⟩ := p
    have h1 := policy_state_frame cfg env s s1 st hp
    have hc1 : s1.current_speed = s.current_speed := by rw [h1]
    have hl1 : s1.last_step = s.last_step := by rw [h1]
    have hs1 : s1.speeds = s.speeds := by rw [h1]
    have hw1 : s1.written = s.written := by rw [h1]
    have hsw := switch_state_in_table cfg env st s1 hn (by rw [hl1]; exact hls)
      (by rw [hl1, hc1]; exact hc) (by rw [hl1, hs1]; exact hz)
    rw [hl1, hc1, hs1] at hsw
    have hfr := switch_state_frame cfg env st s1
    have hsl : (switch_state cfg env st s1).last_step = s.last_step := by rw [hfr]; exact hl1
    have hss : (switch_state cfg env st s1).speeds = s.speeds := by rw [hfr]; exact hs1
    have hsw2 : (switch_state cfg env st s1).written = s.written := by rw [hfr]; exact hw1
    have hidx := set_speed_indices_eq s.current_speed (switch_state cfg env st s1).current_speed
      (by omega) (by omega)
    have hmem := set_speed_indices_mem s.current_speed
      (switch_state cfg env st s1).current_speed (by omega) (by omega) _ hidx
    have hal : alarm_handler cfg env s = Res.ok
        { switch_state cfg env st s1 with
            written := (switch_state cfg env st s1).written ++
              (if s.current_speed ≤ (switch_state cfg env st s1).current_speed then
                (List.range ((switch_state cfg env st s1).current_speed - s.current_speed)).map
                  fun j => s.current_speed + (j + 1)
               else
                (List.range (s.current_speed - (switch_state cfg env st s1).current_speed)).map
                  fun j => s.current_speed - (j + 1)).map (switch_state cfg env st s1).speeds
            check_cpu := false, check_therm := false, check_ac := false } := by
      unfold alarm_handler
      rw [hp]
      simp only [Res.bind]
      split_ifs with hne hle hle
      · rw [set_speed_to_reads, hidx, if_pos hle]
        rfl
      · rw [set_speed_to_reads, hidx, if_neg hle]
        rfl
      · have e : (switch_state cfg env st s1).current_speed = s.current_speed :=
          not_not.mp hne
        simp [e]
      · exact absurd (le_of_eq (not_not.mp hne).symm) hle
    rw [hal]
    refine ⟨fun h => Res.noConfusion h, fun h => Res.noConfusion h, ?_⟩
    intro s2 h2
    cases h2
    refine ⟨hss, hsl, hsw.1, ?_, _, hidx, ?_, ?_⟩
    · intro s1b hdyn
      cases hdyn
      exact hsw.2 rfl
    · show (switch_state cfg env st s1).written ++ _ = _
      rw [hsw2, hss]
    · intro k hk
      have := hmem k hk
      have := hsw.1
      omega

/-- C21: when `get_supported_speeds` returns, `current_speed ≤ last_step ≤
MAX_SPEEDS - 2` and `speeds[last_step + 1].khz` is the zero terminator.  From every
state that holds the returned table and an index within it, whatever the mode, the
flags and the files, for a domain of one core or more: the index
`current_speed + 1` that the load loop reads is below `MAX_SPEEDS + 1 = 16`; the
evaluation returns unless its policy block dies on the temperature file; when it
returns the table is the same and the index is within it again; in effective
`SPEED_DYNAMIC` state the index is at most one slower than before and then the
entry at it is not the terminator; the ramp reads the indices from the one next to
the old index to the new one, all of them up to `last_step`, and writes the
entries at them and nothing else.  The same holds after the evaluations that
`usr1_handler`, `usr2_handler`, `hup_handler` and a pass of the main loop raise. -/
theorem indices_stay_in_table (cpu : Cpufreq) (cfg0 cfg : Config) (env : Env) (s0 t s : State)
    (hd : get_supported_speeds cpu cfg0 s0 = Res.ok t)
    (hsp : s.speeds = t.speeds) (hl : s.last_step = t.last_step)
    (hc : s.current_speed ≤ s.last_step) (hn : 1 ≤ cfg.num_tied_cores) :
    (t.current_speed ≤ t.last_step ∧ t.last_step ≤ MAX_SPEEDS - 2 ∧
      t.speeds (t.last_step + 1) = 0) ∧
    uadd s.current_speed 1 < MAX_SPEEDS + 1 ∧
    alarm_handler cfg env s ≠ Res.fuel ∧
    (alarm_handler cfg env s = Res.died → policy_state cfg env s = Res.died) ∧
    (∀ s2, alarm_handler cfg env s = Res.ok s2 →
      (s2.speeds = t.speeds ∧ s2.last_step = t.last_step ∧ s2.current_speed ≤ s2.last_step) ∧
      (∀ s1, policy_state cfg env s = Res.ok (Mode.SPEED_DYNAMIC, s1) →
        s2.current_speed ≤ s.current_speed + 1 ∧
        (s.current_speed < s2.current_speed → t.speeds s2.current_speed ≠ 0)) ∧
      ∃ idx, set_speed_indices s.current_speed s2.current_speed = Res.ok idx ∧
        idx = (if s.current_speed ≤ s2.current_speed then
            (List.range (s2.current_speed - s.current_speed)).map fun j =>
              s.current_speed + (j + 1)
          else
            (List.range (s.current_speed - s2.current_speed)).map fun j =>
              s.current_speed - (j + 1)) ∧
        s2.written = s.written ++ idx.map t.speeds ∧
        ∀ k ∈ idx, k ≤ t.last_step ∧ k < MAX_SPEEDS + 1) ∧
    (∀ s2, usr1_handler cfg env s = Res.ok s2 →
      s2.speeds = t.speeds ∧ s2.last_step = t.last_step ∧ s2.current_speed ≤ s2.last_step) ∧
    (∀ s2, usr2_handler cfg env s = Res.ok s2 →
      s2.speeds = t.speeds ∧ s2.last_step = t.last_step ∧ s2.current_speed ≤ s2.last_step) ∧
    (∀ env0 s2, hup_handler cfg env0 env s = Res.ok s2 →
      s2.speeds = t.speeds ∧ s2.last_step = t.last_step ∧ s2.current_speed ≤ s2.last_step) ∧
    (∀ iv l l2 s2, main_iteration cfg iv env l s = Res.ok (l2, s2) →
      s2.speeds = t.speeds ∧ s2.last_step = t.last_step ∧ s2.current_speed ≤ s2.last_step) := by
  obtain ⟨hlt, hlc, hz, _, _⟩ := get_supported_speeds_discovered cpu cfg0 s0 t hd
  have hls : s.last_step + 1 < MAX_SPEEDS := by rw [hl]; exact hlt
  have hzs : s.speeds (s.last_step + 1) = 0 := by rw [hl, hsp]; exact hz
  have key : ∀ (env1 : Env) (s1 s2 : State), s1.speeds = s.speeds → s1.last_step = s.last_step →
      s1.current_speed = s.current_speed → alarm_handler cfg env1 s1 = Res.ok s2 →
      s2.speeds = t.speeds ∧ s2.last_step = t.last_step ∧ s2.current_speed ≤ s2.last_step := by
    intro env1 s1 s2 e1 e2 e3 h
    obtain ⟨a, b, c, _, _⟩ := (alarm_handler_in_table cfg env1 s1 hn (by rw [e2]; exact hls)
      (by rw [e2, e3]; exact hc) (by rw [e2, e1]; exact hzs)).2.2 s2 h
    exact ⟨by rw [a, e1, hsp], by rw [b, e2, hl], by rw [b]; exact c⟩
  obtain ⟨hnf, hdied, hok⟩ := alarm_handler_in_table cfg env s hn hls hc hzs
  refine ⟨⟨by omega, by unfold MAX_SPEEDS at *; omega, hz⟩, ?_, hnf, hdied, ?_, ?_, ?_, ?_, ?_⟩
  · have hu : uadd s.current_speed 1 = s.current_speed + 1 :=
      Nat.mod_eq_of_lt (by unfold MAX_SPEEDS at hls; unfold UINT_MOD; omega)
    rw [hu]
    omega
  · intro s2 h
    obtain ⟨a, b, c, d, idx, hidx, hw, hk⟩ := hok s2 h
    refine ⟨⟨by rw [a, hsp], by rw [b, hl], by rw [b]; exact c⟩, ?_, idx, hidx, ?_, ?_, ?_⟩
    · intro s1 hdyn
      have := d s1 hdyn
      rw [hsp] at this
      exact this
    · have e := set_speed_indices_eq s.current_speed s2.current_speed
        (by unfold MAX_SPEEDS at hls; unfold UINT_MOD; omega)
        (by unfold MAX_SPEEDS at hls; unfold UINT_MOD; omega)
      rw [hidx] at e
      cases e
      rfl
    · rw [hw, hsp]
    · intro k hk2
      have := hk k hk2
      rw [hl] at this
      exact ⟨this, by omega⟩
  · intro s2 h
    exact key env { s with mode := Mode.SPEED_MAX } s2 rfl rfl rfl h
  · intro s2 h
    exact key env { s with mode := Mode.SPEED_MIN } s2 rfl rfl rfl h
  · intro env0 s2 h
    have hfr := reset_times_loop_frame cfg env0 cfg.num_tied_cores 0 s
    refine key env _ s2 ?_ ?_ ?_ h
    · show (reset_times_loop cfg env0 cfg.num_tied_cores 0 s).speeds = s.speeds
      rw [hfr]
    · show (reset_times_loop cfg env0 cfg.num_tied_cores 0 s).last_step = s.last_step
      rw [hfr]
    · show (reset_times_loop cfg env0 cfg.num_tied_cores 0 s).current_speed = s.current_speed
      rw [hfr]
  · intro iv l l2 s2 h
    unfold main_iteration at h
    simp only at h
    split_ifs at h with hf
    · cases ha : alarm_handler cfg env
          { s with
              check_cpu := s.check_cpu || (main_tick cfg iv l).check_cpu
              check_therm := s.check_therm || (main_tick cfg iv l).check_therm
              check_ac := s.check_ac || (main_tick cfg iv l).check_ac } with
      | ok s3 =>
        rw [ha] at h
        simp only [Res.bind, Res.ok.injEq, Prod.mk.injEq] at h
        rw [← h.2]
        exact key env
          { s with
              check_cpu := s.check_cpu || (main_tick cfg iv l).check_cpu
              check_therm := s.check_therm || (main_tick cfg iv l).check_therm
              check_ac := s.check_ac || (main_tick cfg iv l).check_ac } s3 rfl rfl rfl ha
      | died => rw [ha] at h; simp [Res.bind] at h
      | fuel => rw [ha] at h; simp [Res.bind] at h
    · simp only [Res.bind, Res.ok.injEq, Prod.mk.injEq] at h
      rw [← h.2]
      exact ⟨hsp, hl, hc⟩

/-- C21 at the table discovered on the plain file, at index 2 of its six steps
with a core that is 90% idle: the evaluation goes to index 3, the ramp reads the
index 3 alone and writes `speeds[3].khz`. -/
theorem indices_stay_in_table_witness :
    (get_supported_speeds cpu_plain Config.default State.init = Res.ok plain_table ∧
      plain_table_due.speeds = plain_table.speeds ∧
      plain_table_due.last_step = plain_table.last_step ∧
      plain_table_due.current_speed ≤ plain_table_due.last_step ∧
      1 ≤ Config.default.num_tied_cores) ∧
    plain_table.last_step = 5 ∧
    (alarm_handler Config.default env_idle plain_table_due).returned.map
      (fun s2 => s2.current_speed) = some 3 ∧
    (alarm_handler Config.default env_idle plain_table_due).returned.map
      (fun s2 => s2.written.drop plain_table.written.length) = some [1050000] ∧
    set_speed_indices 2 3 = Res.ok [3] ∧
    ((plain_table.current_speed ≤ plain_table.last_step ∧
      plain_table.last_step ≤ MAX_SPEEDS - 2 ∧
      plain_table.speeds (plain_table.last_step + 1) = 0) ∧
    uadd plain_table_due.current_speed 1 < MAX_SPEEDS + 1 ∧
    alarm_handler Config.default env_idle plain_table_due ≠ Res.fuel ∧
    (alarm_handler Config.default env_idle plain_table_due = Res.died →
      policy_state Config.default env_idle plain_table_due = Res.died) ∧
    (∀ s2, alarm_handler Config.default env_idle plain_table_due = Res.ok s2 →
      (s2.speeds = plain_table.speeds ∧ s2.last_step = plain_table.last_step ∧
        s2.current_speed ≤ s2.last_step) ∧
      (∀ s1, policy_state Config.default env_idle plain_table_due = Res.ok (Mode.SPEED_DYNAMIC, s1) →
        s2.current_speed ≤ plain_table_due.current_speed + 1 ∧
        (plain_table_due.current_speed < s2.current_speed →
          plain_table.speeds s2.current_speed ≠ 0)) ∧
      ∃ idx, set_speed_indices plain_table_due.current_speed s2.current_speed = Res.ok idx ∧
        idx = (if plain_table_due.current_speed ≤ s2.current_speed then
            (List.range (s2.current_speed - plain_table_due.current_speed)).map fun j =>
              plain_table_due.current_speed + (j + 1)
          else
            (List.range (plain_table_due.current_speed - s2.current_speed)).map fun j =>
              plain_table_due.current_speed - (j + 1)) ∧
        s2.written = plain_table_due.written ++ idx.map plain_table.speeds ∧
        ∀ k ∈ idx, k ≤ plain_table.last_step ∧ k < MAX_SPEEDS + 1) ∧
    (∀ s2, usr1_handler Config.default env_idle plain_table_due = Res.ok s2 →
      s2.speeds = plain_table.speeds ∧ s2.last_step = plain_table.last_step ∧
        s2.current_speed ≤ s2.last_step) ∧
    (∀ s2, usr2_handler Config.default env_idle plain_table_due = Res.ok s2 →
      s2.speeds = plain_table.speeds ∧ s2.last_step = plain_table.last_step ∧
        s2.current_speed ≤ s2.last_step) ∧
    (∀ env0 s2, hup_handler Config.default env0 env_idle plain_table_due = Res.ok s2 →
      s2.speeds = plain_table.speeds ∧ s2.last_step = plain_table.last_step ∧
        s2.current_speed ≤ s2.last_step) ∧
    (∀ iv l l2 s2, main_iteration Config.default iv env_idle l plain_table_due = Res.ok (l2, s2) →
      s2.speeds = plain_table.speeds ∧ s2.last_step = plain_table.last_step ∧
        s2.current_speed ≤ s2.last_step)) :=
  ⟨⟨rfl, rfl, rfl, by decide, by decide⟩, by decide, by decide, by decide, rfl,
    indices_stay_in_table cpu_plain Config.default Config.default env_idle State.init
      plain_table plain_table_due rfl rfl rfl (by decide) (by decide)⟩

end Cpuspeed
